import Mathlib

/-!
# Verification of the Array-Generator row-construction engine

A shallow embedding of `Sources/array.cpp` and `Sources/heuristics.cpp` of the
Array-Generator repository, together with proofs and refutations of the frozen
claims about its specification.

Modelling conventions, documented once here:

* Machine integers (`uint64_t`, `int64_t`, `int`) are modelled as `ℤ` (and loop
  indices as `ℕ`).  All concrete evaluations in this file involve values far
  below 2^31, so the unbounded model agrees with the machine semantics there;
  theorems that only compare two runs of the same counter updates (clone / keep
  flag) are insensitive to the width.  Nat subtractions appearing in C++ loop
  bounds (`num_factors - t_cur + 1`) are modelled with truncated `ℕ`
  subtraction; all theorems that depend on these bounds assume the documented
  parameter preconditions `1 ≤ t ≤ num_factors`, `1 ≤ d`, under which no C++
  unsigned underflow occurs.
* `std::set<int> rows` becomes `Finset ℕ`; `std::set<T*>` of conflict / row
  T-sets becomes `Finset ℕ` / `List ℕ` of indices into the canonical T-set
  enumeration, and `std::map<T*, int64_t> deltas` becomes an association list
  `List (ℕ × ℤ)` keyed by T-set index.  Pointer identity in the C++ object
  graph corresponds exactly to position in the canonical enumerations because
  every entity is created exactly once, and the fingerprint strings
  (`"f<factor>,<value>"` concatenations) used by the C++ maps are injective for
  fixed `t` and `d`.
* Iteration order over `std::set` / `std::map` keyed by pointers is unspecified
  in C++; the embedding iterates in ascending canonical index order.  Every
  loop so iterated either performs per-element updates on distinct entities or
  commutative counter arithmetic, so the final state does not depend on the
  order on the states reachable by committed rows, which is what all theorems
  below quantify over.
* `rand()` is modelled by an explicit stream of naturals consumed from the
  front (`randNext`).
* The two `exit(-1)` invariant-failure branches inside the location update
  (`array.cpp` lines 592-599): the process would terminate there, so no
  post-state exists; the embedding models them as skipping the guarded
  decrement and continuing.  On states reachable by committed rows the
  branches are never taken (the conflict relation is kept symmetric and
  `location_problems` counts the not-yet-locatable T-sets).
* Console output (`printf`, verbosity modes) is not modelled.
* The `Parser` collaborator is not part of `src/`; per the specification it
  supplies `num_factors`, `levels`, `t`, `d`, `delta` and the phase tag, all
  captured in `Config` below.  Its `num_rows` member is the informational
  row-count hint; a brand-new generation run starts from an empty array, so the
  constructor model starts with `num_tests = 0` and no rows.
-/

set_option maxRecDepth 4000

namespace AG

/-- The `prop_mode` enum of the source (a single enum is used both for the
array's property phase, restricted to `c_only`/`c_and_l`/`all`, and for the
per-factor `dont_cares` progression `none → c_only → c_and_l → all`). -/
inductive PMode where
  | pnone
  | c_only
  | c_and_l
  | all
deriving DecidableEq, Repr

/-- The heuristic-selection enum switched on by `add_row`/`tweak_row` in
`heuristics.cpp` (the header defining it is not part of `src/`; the
constructors are exactly the case labels appearing in the source). -/
inductive Heu where
  | hnone
  | c_only
  | c_and_l
  | c_and_d
  | l_only
  | l_and_d
  | d_only
  | all
deriving DecidableEq, Repr

/-- A Single is identified by its (factor, value) pair, exactly the data of its
fingerprint string `"f<factor>,<value>"`. -/
abbrev SP := ℕ × ℕ

/-- Static generation parameters handed to the Array constructor by the Parser
collaborator.  `num_factors` is `levels.length`. -/
structure Config where
  levels : List ℕ
  t : ℕ
  d : ℕ
  delta : ℕ
  p : PMode
deriving DecidableEq, Repr

namespace Config

/-- `num_factors`. -/
def nf (cfg : Config) : ℕ := cfg.levels.length

end Config

/-- Consume one value from the modelled `rand()` stream. -/
def randNext : List ℕ → ℕ × List ℕ
  | [] => (0, [])
  | r :: rs => (r, rs)

/-- Replace the element at position `i` (no-op when out of range); used to
model in-place writes `a[i] = f(a[i])` to C++ arrays and vectors. -/
def updN {α : Type} : List α → ℕ → (α → α) → List α
  | [], _, _ => []
  | a :: as, 0, f => f a :: as
  | a :: as, n + 1, f => a :: updN as n f

/-- Association-list lookup for a `std::map<T*, int64_t>` keyed by T-set index
(`.at` on a present key; absent keys — which never occur on the states the
theorems quantify over — give 0). -/
def aGet (l : List (ℕ × ℤ)) (k : ℕ) : ℤ :=
  (((l.find? fun e => e.1 = k).map fun e => e.2).getD 0)

/-- Association-list store for a present key. -/
def aSet (l : List (ℕ × ℤ)) (k : ℕ) (v : ℤ) : List (ℕ × ℤ) :=
  l.map fun e => if e.1 = k then (k, v) else e

/-! ## Canonical entity enumerations

These mirror the construction order of the C++ constructors: Singles are
created factor-major, Interactions by `build_t_way_interactions`, T-sets by
`build_size_d_sets`.  An Interaction is the list of its member Singles in
ascending factor order; a T-set is the list of its member Interaction indices
in ascending enumeration order. -/

/-- All Singles in creation order: for each factor `i`, for each level `j`,
the Single `(i, j)`. -/
def allSingles (cfg : Config) : List SP :=
  (List.range cfg.nf).flatMap fun i =>
    (List.range (cfg.levels.getD i 0)).map fun j => (i, j)

/-- `build_t_way_interactions` (array.cpp): all combinations of `t_cur` Singles
from distinct factors in `[start, num_factors)`, factors strictly ascending,
all levels per chosen factor, in the source's recursion order.  The C++ loop
bound `col < num_factors - t_cur + 1` is the truncated-subtraction range
below. -/
def build_t_way_interactions (levels : List ℕ) : ℕ → ℕ → List (List SP)
  | _, 0 => [[]]
  | start, tc + 1 =>
    (List.range' start (levels.length - tc - start)).flatMap fun col =>
      (List.range (levels.getD col 0)).flatMap fun lvl =>
        (build_t_way_interactions levels (col + 1) tc).map fun rest =>
          (col, lvl) :: rest

/-- All `t`-way Interactions of the array, in enumeration order. -/
def allInteractions (cfg : Config) : List (List SP) :=
  build_t_way_interactions cfg.levels 0 cfg.t

/-- `build_size_d_sets` (array.cpp): all ascending combinations of `d_cur`
Interaction indices from `[start, numInter)`. -/
def build_size_d_sets (numInter : ℕ) : ℕ → ℕ → List (List ℕ)
  | _, 0 => [[]]
  | start, dc + 1 =>
    (List.range' start (numInter - dc - start)).flatMap fun i =>
      (build_size_d_sets numInter (i + 1) dc).map fun rest => i :: rest

/-- All T-sets (size-`d` sets of Interactions), in enumeration order. -/
def allSets (cfg : Config) : List (List ℕ) :=
  build_size_d_sets (allInteractions cfg).length 0 cfg.d

/-- The member Singles of interaction index `i`. -/
def interSingles (cfg : Config) (i : ℕ) : List SP :=
  (allInteractions cfg).getD i []

/-- The flattened `singles` member of T-set index `j`: the concatenation of
its member Interactions' Singles, with multiplicity, exactly as the `T`
constructor pushes them. -/
def tSingles (cfg : Config) (j : ℕ) : List SP :=
  ((allSets cfg).getD j []).flatMap fun i => interSingles cfg i

/-- The `sets` back-reference of interaction `i`: indices of the T-sets having
`i` as a member (inserted during T construction, never mutated afterwards). -/
def setsContaining (cfg : Config) (i : ℕ) : List ℕ :=
  (List.range (allSets cfg).length).filter fun j => i ∈ (allSets cfg).getD j []

/-- The key set of `deltas` of interaction `i`: all T-sets of which `i` is not
a member, exactly as initialized by the detection part of the constructor. -/
def deltaKeys (cfg : Config) (i : ℕ) : List ℕ :=
  (List.range (allSets cfg).length).filter fun j => i ∉ (allSets cfg).getD j []

/-- Index of a Single in the canonical enumeration (the fingerprint-map
lookup `single_map.at("f<factor>,<value>")`). -/
def singleIdx (cfg : Config) (sp : SP) : ℕ :=
  (allSingles cfg).findIdx fun q => q = sp

/-- Does `row` contain the given interaction (every member Single matches the
row's value at its factor)? -/
def containsInter (row : List ℕ) (sps : List SP) : Bool :=
  sps.all fun sp => row.get? sp.1 = some sp.2

/-- `build_row_interactions` (array.cpp): the set of interactions present in a
row.  The source enumerates all ascending column combinations, builds each
fingerprint string and looks it up in `interaction_map`; for an in-range row
with `1 ≤ t ≤ num_factors` that set is exactly the interactions all of whose
Singles match the row, which is how the embedding computes it (index list in
ascending enumeration order standing for the pointer-ordered `std::set`). -/
def build_row_interactions (cfg : Config) (row : List ℕ) : List ℕ :=
  (List.range (allInteractions cfg).length).filter fun i =>
    containsInter row (interSingles cfg i)

/-- The `row_sets` set accumulated by `update_array`: all T-sets having some
member interaction in the row. -/
def rowTSets (cfg : Config) (rowI : List ℕ) : List ℕ :=
  (List.range (allSets cfg).length).filter fun j =>
    ((allSets cfg).getD j []).any fun i => i ∈ rowI

/-! ## Mutable state -/

/-- Mutable state of a `Single`: its row set and the three issue counters
(`c_issues`/`d_issues` are `uint64_t`, `l_issues` is signed in the source; all
are modelled as `ℤ`, see the header comment). -/
structure SingleSt where
  rows : Finset ℕ
  c_issues : ℤ
  l_issues : ℤ
  d_issues : ℤ
deriving DecidableEq

instance : Inhabited SingleSt := ⟨⟨∅, 0, 0, 0⟩⟩

/-- Mutable state of an `Interaction`. -/
structure InterSt where
  rows : Finset ℕ
  is_covered : Bool
  is_detectable : Bool
  deltas : List (ℕ × ℤ)
deriving DecidableEq

instance : Inhabited InterSt := ⟨⟨∅, false, false, []⟩⟩

/-- Mutable state of a `T` set. -/
structure TSt where
  rows : Finset ℕ
  location_conflicts : Finset ℕ
  is_locatable : Bool
deriving DecidableEq

instance : Inhabited TSt := ⟨⟨∅, ∅, false⟩⟩

/-- Mutable state of an `Array` object.  The per-entity lists are parallel to
the canonical enumerations `allSingles` / `allInteractions` / `allSets`.
`dont_cares` and `permutation` are the two heap arrays that the default
constructor nulls out and only the Parser constructor allocates; they are
`Option`s so that the clone path's null pointers are observable. -/
structure AState where
  score : ℤ
  total_problems : ℤ
  coverage_problems : ℤ
  location_problems : ℤ
  detection_problems : ℤ
  num_tests : ℕ
  rows : List (List ℕ)
  singles : List SingleSt
  inters : List InterSt
  tsets : List TSt
  is_covering : Bool
  is_locating : Bool
  is_detecting : Bool
  dont_cares : Option (List PMode)
  permutation : Option (List ℕ)
deriving DecidableEq

/-- Single state at canonical index `k`. -/
def sGet (s : AState) (k : ℕ) : SingleSt := s.singles.getD k default

/-- Interaction state at canonical index `i`. -/
def iGet (s : AState) (i : ℕ) : InterSt := s.inters.getD i default

/-- T-set state at canonical index `j`. -/
def tGet (s : AState) (j : ℕ) : TSt := s.tsets.getD j default

/-- Apply a mutation to the Single at canonical index `k`. -/
def updSingle (s : AState) (k : ℕ) (f : SingleSt → SingleSt) : AState :=
  { s with singles := updN s.singles k f }

/-- Apply a mutation to the Interaction at canonical index `i`. -/
def updInter (s : AState) (i : ℕ) (f : InterSt → InterSt) : AState :=
  { s with inters := updN s.inters i f }

/-- Apply a mutation to the T-set at canonical index `j`. -/
def updT (s : AState) (j : ℕ) (f : TSt → TSt) : AState :=
  { s with tsets := updN s.tsets j f }

/-- `for (Single *s : sps) { mutate s }` with no other side effect. -/
def bumpSingles (cfg : Config) (s : AState) (sps : List SP)
    (f : SingleSt → SingleSt) : AState :=
  sps.foldl (fun s sp => updSingle s (singleIdx cfg sp) f) s

/-- One iteration of the `for (Single *s : sps) { mutate s; score += ds; }`
pattern. -/
def bumpSS (cfg : Config) (f : SingleSt → SingleSt) (ds : ℤ)
    (s : AState) (sp : SP) : AState :=
  let s := updSingle s (singleIdx cfg sp) f
  { s with score := s.score + ds }

/-- `for (Single *s : sps) { mutate s; score += ds; }` — the pervasive source
pattern of a per-Single counter bump paired with a score adjustment. -/
def bumpSinglesScore (cfg : Config) (s : AState) (sps : List SP)
    (f : SingleSt → SingleSt) (ds : ℤ) : AState :=
  sps.foldl (bumpSS cfg f ds) s

/-! ## `update_array` (array.cpp lines 493-627)

The row-commit routine.  `n` is the value of `num_tests` *after* the
`num_tests++` at line 501, i.e. the index actually inserted into every `rows`
set.  The phases below follow the source order: membership insertion, then
per-interaction coverage and detection, then the location block, then the
`keep = false` rollback. -/

/-- Lines 503-511: insert the new row index into the Singles, the Interaction
itself and its T-sets, for one interaction of the row (`row_sets` is
recomputed canonically by `rowTSets`). -/
def insOne (cfg : Config) (n : ℕ) (s : AState) (i : ℕ) : AState :=
  let s := bumpSingles cfg s (interSingles cfg i)
    (fun e => { e with rows := insert n e.rows })
  let s := updInter s i (fun e => { e with rows := insert n e.rows })
  (setsContaining cfg i).foldl
    (fun s j => updT s j (fun e => { e with rows := insert n e.rows })) s

/-- See `insOne`. -/
def insertPhase (cfg : Config) (s : AState) (rowI : List ℕ) (n : ℕ) : AState :=
  rowI.foldl (insOne cfg n) s

/-- Lines 516-524: the coverage update for one interaction of the row. -/
def coverOne (cfg : Config) (s : AState) (i : ℕ) : AState :=
  if (iGet s i).is_covered then s else
    let s := updInter s i (fun e => { e with is_covered := true })
    let s := bumpSinglesScore cfg s (interSingles cfg i)
      (fun e => { e with c_issues := e.c_issues - 1 }) (-1)
    let s := { s with score := s.score - 1,
                      coverage_problems := s.coverage_problems - 1 }
    if s.coverage_problems = 0 then { s with is_covering := true } else s

/-- One iteration of the `other_sets` loop of the detection update
(lines 533-540). -/
def pass1Step (cfg : Config) (i : ℕ) (s : AState) (j : ℕ) : AState :=
  let v := aGet (iGet s i).deltas j
  let s := if v ≤ (cfg.delta : ℤ) then
      bumpSinglesScore cfg s (interSingles cfg i)
        (fun e => { e with d_issues := e.d_issues + 1 }) 1
    else s
  updInter s i (fun e => { e with deltas := aSet e.deltas j (v - 1) })

/-- One iteration of the `for (auto& kv : i->deltas)` loop (lines 541-548),
threading the running `is_detectable` verdict. -/
def pass2Step (cfg : Config) (i : ℕ) (sd : AState × Bool) (j : ℕ) :
    AState × Bool :=
  let v := aGet (iGet sd.1 i).deltas j + 1
  let s := updInter sd.1 i (fun e => { e with deltas := aSet e.deltas j v })
  let det := sd.2 && !(decide (v < (cfg.delta : ℤ)))
  let s := if v ≤ (cfg.delta : ℤ) then
      bumpSinglesScore cfg s (interSingles cfg i)
        (fun e => { e with d_issues := e.d_issues - 1 }) (-1)
    else s
  (s, det)

/-- Lines 527-554: the detection update for one interaction of the row (only
entered when the phase is `all` and the interaction is not yet detectable). -/
def detectOne (cfg : Config) (s : AState) (i : ℕ) (rowS : List ℕ) : AState :=
  if (iGet s i).is_detectable then s else
    let others := rowS.filter fun j => i ∉ (allSets cfg).getD j []
    let s := others.foldl (pass1Step cfg i) s
    let keys := (iGet s i).deltas.map fun e => e.1
    let sd := keys.foldl (pass2Step cfg i) (s, true)
    let s : AState := updInter sd.1 i (fun e => { e with is_detectable := sd.2 })
    if sd.2 then
      let s : AState := { s with score := s.score - 1,
                                 detection_problems := s.detection_problems - 1 }
      if s.detection_problems = 0 then { s with is_detecting := true } else s
    else s

/-- One iteration of the per-interaction loop (lines 514-555): coverage, then
detection when the phase is `all`. -/
def coverDetectOne (cfg : Config) (s : AState) (i : ℕ) (rowS : List ℕ) :
    AState :=
  let s := coverOne cfg s i
  if cfg.p = PMode.all then detectOne cfg s i rowS else s

/-- One iteration of the conflict-insertion loop of the first-appearance
branch of the location update (lines 566-573). -/
def locConflictStep (cfg : Config) (j : ℕ) (s : AState) (j2 : ℕ) : AState :=
  if j2 = j ∨ (tGet s j2).rows.card > 1 then s else
    let s := updT s j (fun e =>
      { e with location_conflicts := insert j2 e.location_conflicts })
    bumpSinglesScore cfg s (tSingles cfg j)
      (fun e => { e with l_issues := e.l_issues + 1 }) 1

/-- One iteration of the conflict-resolution loop of the repeat-appearance
branch of the location update (lines 578-600); the two `exit(-1)` branches
are modelled as documented in the header. -/
def locSolveStep (cfg : Config) (j : ℕ) (rowS : List ℕ) (s : AState)
    (j2 : ℕ) : AState :=
  if j2 ∈ rowS then s else
    if j ∈ (tGet s j2).location_conflicts then
      let s := updT s j2 (fun e =>
        { e with location_conflicts := e.location_conflicts.erase j })
      let s := bumpSinglesScore cfg s (tSingles cfg j2)
        (fun e => { e with l_issues := e.l_issues - 1 }) (-1)
      if (tGet s j2).location_conflicts = ∅ then
        let s := updT s j2 (fun e => { e with is_locatable := true })
        { s with score := s.score - 1,
                 location_problems := s.location_problems - 1 }
      else s
    else s

/-- Lines 559-613: the location update for one T-set `j` of the row.  The
iteration over `t1->location_conflicts` uses the ascending-index order for
the pointer-ordered `std::set`. -/
def locOne (cfg : Config) (s : AState) (j : ℕ) (rowS : List ℕ) : AState :=
  if (tGet s j).is_locatable then s else
  let nsets : ℤ := ((allSets cfg).length : ℤ)
  let s :=
    if (tGet s j).rows.card = 1 then
      let s := bumpSinglesScore cfg s (tSingles cfg j)
        (fun e => { e with l_issues := e.l_issues - nsets }) (-nsets)
      rowS.foldl (locConflictStep cfg j) s
    else
      let confl := (tGet s j).location_conflicts
      let s := ((List.range (allSets cfg).length).filter
        (fun j2 => j2 ∈ confl)).foldl (locSolveStep cfg j rowS) s
      let solved : ℤ := ((confl.filter fun j2 => j2 ∉ rowS).card : ℤ)
      let s := bumpSinglesScore cfg s (tSingles cfg j)
        (fun e => { e with l_issues := e.l_issues - solved }) (-solved)
      updT s j (fun e =>
        { e with location_conflicts := confl.filter fun j2 => j2 ∈ rowS })
  if (tGet s j).location_conflicts = ∅ then
    let s := updT s j (fun e => { e with is_locatable := true })
    let s := { s with score := s.score - 1,
                      location_problems := s.location_problems - 1 }
    if s.location_problems = 0 then { s with is_locating := true } else s
  else s

/-- All state mutations of `update_array` up to (and excluding) the
`keep = false` rollback. -/
def updateCore (cfg : Config) (s : AState) (row : List ℕ) : AState :=
  let n := s.num_tests + 1
  let rowI := build_row_interactions cfg row
  let rowS := rowTSets cfg rowI
  let s := { s with rows := s.rows ++ [row], num_tests := n }
  let s := insertPhase cfg s rowI n
  let s := rowI.foldl (fun s i => coverDetectOne cfg s i rowS) s
  if cfg.p ≠ PMode.c_only ∧ s.is_locating = false then
    rowS.foldl (fun s j => locOne cfg s j rowS) s
  else s

/-- One iteration of the rollback loop over the row interactions
(lines 619-622). -/
def eraseT (n : ℕ) (s : AState) (j : ℕ) : AState :=
  updT s j (fun e => { e with rows := e.rows.erase n })

def eraseOne (cfg : Config) (n : ℕ) (s : AState) (i : ℕ) : AState :=
  let s := bumpSingles cfg s (interSingles cfg i)
    (fun e => { e with rows := e.rows.erase n })
  updInter s i (fun e => { e with rows := e.rows.erase n })

/-- `Array::update_array(row, row_interactions, keep)`.  With `keep = false`
the row-membership mutations are rolled back (lines 618-626) but all counter
and flag changes stand. -/
def update_array (cfg : Config) (s : AState) (row : List ℕ) (keep : Bool) :
    AState :=
  let s' := updateCore cfg s row
  if keep then s' else
    let rowI := build_row_interactions cfg row
    let rowS := rowTSets cfg rowI
    let n := s'.num_tests
    let s2 := rowI.foldl (eraseOne cfg n) s'
    let s2 := rowS.foldl (eraseT n) s2
    { s2 with num_tests := s2.num_tests - 1, rows := s2.rows.dropLast }

/-! ## Constructors (array.cpp lines 127-255) -/

/-- The per-entity lists as freshly allocated by either constructor: all
counters zero, all row sets empty, all flags false, `deltas` empty. -/
def freshSingles (cfg : Config) : List SingleSt :=
  (allSingles cfg).map fun _ => default

/-- Fresh Interaction states (see `freshSingles`). -/
def freshInters (cfg : Config) : List InterSt :=
  (allInteractions cfg).map fun _ => default

/-- Fresh T-set states (see `freshSingles`). -/
def freshTSets (cfg : Config) : List TSt :=
  (allSets cfg).map fun _ => default

/-- The per-Single counter side effect of `build_t_way_interactions`
(lines 278-282): `c_issues++; total_problems++; score++`. -/
def buildSingleStep (cfg : Config) (s : AState) (sp : SP) : AState :=
  let s := updSingle s (singleIdx cfg sp)
    (fun e => { e with c_issues := e.c_issues + 1 })
  { s with total_problems := s.total_problems + 1, score := s.score + 1 }

/-- The per-interaction counter side effects of `build_t_way_interactions`:
`buildSingleStep` for every constituent Single. -/
def buildInterStep (cfg : Config) (s : AState) (i : ℕ) : AState :=
  (interSingles cfg i).foldl (buildSingleStep cfg) s

/-- The counter side effects of `build_t_way_interactions`: for every
enumerated interaction, for every constituent Single, `buildSingleStep`. -/
def buildPhase (cfg : Config) (s : AState) : AState :=
  (List.range (allInteractions cfg).length).foldl (buildInterStep cfg) s

/-- One iteration of the location-budget loop of the Parser constructor
(lines 183-188): `total_problems += sets.size(); s->l_issues += sets.size()`. -/
def ctorLocStep (cfg : Config) (nT : ℤ) (s : AState) (sp : SP) : AState :=
  let s := { s with total_problems := s.total_problems + nT }
  updSingle s (singleIdx cfg sp)
    (fun e => { e with l_issues := e.l_issues + nT })

/-- One iteration of the detection-budget initialization of the Parser
constructor (lines 199-203): `total_problems += delta; s->d_issues += delta;
score += delta` for one Single of one interaction. -/
def ctorDetStep (cfg : Config) (s : AState) (sp : SP) : AState :=
  let s := { s with total_problems := s.total_problems + (cfg.delta : ℤ),
                    score := s.score + (cfg.delta : ℤ) }
  updSingle s (singleIdx cfg sp)
    (fun e => { e with d_issues := e.d_issues + (cfg.delta : ℤ) })

/-- The per-T-set iteration of the location-budget loop (lines 183-188). -/
def ctorLocOuter (cfg : Config) (nT : ℤ) (s : AState) (j : ℕ) : AState :=
  (tSingles cfg j).foldl (ctorLocStep cfg nT) s

/-- One key of the detection-budget initialization for interaction `i`
(lines 196-203): insert the `(T-set, 0)` delta entry, then run the per-Single
budget bumps. -/
def ctorDetIter (cfg : Config) (i : ℕ) (s : AState) (j : ℕ) : AState :=
  let s := updInter s i (fun e => { e with deltas := e.deltas ++ [(j, 0)] })
  (interSingles cfg i).foldl (ctorDetStep cfg) s

/-- The per-interaction detection-budget initialization (lines 194-204). -/
def ctorDetOuter (cfg : Config) (s : AState) (i : ℕ) : AState :=
  (deltaKeys cfg i).foldl (ctorDetIter cfg i) s

/-- `Array::Array(Parser *in)` (lines 145-215). The faithful model of the
whole construction, including the `score += total_problems` at line 176 (note:
`+=`, not `=`) and the `score = total_problems` reassignment at line 191. -/
def ctor_state (cfg : Config) : AState :=
  let s : AState := {
    score := 0, total_problems := 0, coverage_problems := 0,
    location_problems := 0, detection_problems := 0,
    num_tests := 0, rows := [],
    singles := freshSingles cfg, inters := freshInters cfg,
    tsets := freshTSets cfg,
    is_covering := false, is_locating := false, is_detecting := false,
    dont_cares := some (List.replicate cfg.nf PMode.pnone),
    permutation := some (List.range cfg.nf) }
  let s := buildPhase cfg s
  let nI : ℤ := ((allInteractions cfg).length : ℤ)
  let s := { s with total_problems := s.total_problems + nI,
                    coverage_problems := s.coverage_problems + nI }
  let s := { s with score := s.score + s.total_problems }
  if cfg.p = PMode.c_only then s else
  let nT : ℤ := ((allSets cfg).length : ℤ)
  let s := (List.range (allSets cfg).length).foldl (ctorLocOuter cfg nT) s
  let s := { s with total_problems := s.total_problems + nT,
                    location_problems := s.location_problems + nT }
  let s := { s with score := s.total_problems }
  if cfg.p ≠ PMode.all then s else
  let s := (List.range (allInteractions cfg).length).foldl
    (ctorDetOuter cfg) s
  let s := { s with total_problems := s.total_problems + nI,
                    detection_problems := s.detection_problems + nI,
                    score := s.score + nI }
  s

/-- `Array::Array(uint64_t total_problems_o, ...)` (lines 221-255), the
clone-only constructor: copies the four problem counters and `num_tests`,
leaves `dont_cares`/`permutation` null, rebuilds the entity graph (the
rebuild's `build_t_way_interactions` again bumps `total_problems` and `score`
and the fresh Singles' `c_issues`), leaves `deltas` uninitialized (the
initialization loop is commented out in the source), and deep-copies the row
vectors — but only after `if (p == c_only) return;`, so for the
coverage-only phase the committed rows are not copied. -/
def ctor_from_existing (cfg : Config) (total cov loc det : ℤ)
    (rows_o : List (List ℕ)) (ntests : ℕ) : AState :=
  let s : AState := {
    score := 0, total_problems := total, coverage_problems := cov,
    location_problems := loc, detection_problems := det,
    num_tests := ntests, rows := [],
    singles := freshSingles cfg, inters := freshInters cfg,
    tsets := freshTSets cfg,
    is_covering := false, is_locating := false, is_detecting := false,
    dont_cares := none, permutation := none }
  let s := buildPhase cfg s
  if cfg.p = PMode.c_only then s else
  { s with rows := rows_o.map id }

/-- One iteration of the Single deep-copy loop of `clone` (lines 640-646):
all four mutable fields of the original's Single are written over the
clone's fingerprint-matched (same-index) Single. -/
def copySingleStep (s : AState) (c : AState) (k : ℕ) : AState :=
  let o := sGet s k
  updSingle c k (fun e => { e with rows := o.rows, c_issues := o.c_issues,
                                   l_issues := o.l_issues,
                                   d_issues := o.d_issues })

/-- One iteration of the Interaction deep-copy loop of `clone`
(lines 647-658); the clone's `deltas` map starts empty (the clone-only
constructor's initialization is commented out), so the per-entry inserts
amount to appending the original's entries. -/
def copyInterStep (s : AState) (c : AState) (k : ℕ) : AState :=
  let o := iGet s k
  updInter c k (fun e => { e with rows := o.rows,
                                  is_covered := o.is_covered,
                                  is_detectable := o.is_detectable,
                                  deltas := e.deltas ++ o.deltas })

/-- One iteration of the T-set deep-copy loop of `clone` (lines 659-667);
the conflict indices are carried across the fingerprint bijection
unchanged. -/
def copyTStep (s : AState) (c : AState) (k : ℕ) : AState :=
  let o := tGet s k
  updT c k (fun e => { e with rows := o.rows,
                              is_locatable := o.is_locatable,
                              location_conflicts :=
                                e.location_conflicts ∪ o.location_conflicts })

/-- `Array::clone()` (lines 629-670): construct via the clone-only
constructor, overwrite `score` and the three array flags, then copy every
entity's mutable state across by fingerprint lookup (index-wise in the
canonical enumerations).  `total_problems`, `dont_cares` and `permutation` are
not touched again. -/
def clone (cfg : Config) (s : AState) : AState :=
  let c := ctor_from_existing cfg s.total_problems s.coverage_problems
    s.location_problems s.detection_problems s.rows s.num_tests
  let c := { c with score := s.score, is_covering := s.is_covering,
                    is_locating := s.is_locating,
                    is_detecting := s.is_detecting }
  let c := (List.range s.singles.length).foldl (copySingleStep s) c
  let c := (List.range s.inters.length).foldl (copyInterStep s) c
  let c := (List.range s.tsets.length).foldl (copyTStep s) c
  c

/-- The committed state after the constructor and a sequence of rows, each
added with `update_array(…, keep = true)`.  `add_random_row` and `add_row`
both end in exactly such a commit, with a row whose length is `num_factors`
and whose values are reduced mod the factor's level, so quantifying over
valid row lists covers every execution. -/
def commit_rows (cfg : Config) (rs : List (List ℕ)) : AState :=
  rs.foldl (fun s r => update_array cfg s r true) (ctor_state cfg)

/-- Validity of one candidate row: one value per factor, in range. -/
def validRow (cfg : Config) (r : List ℕ) : Prop :=
  r.length = cfg.nf ∧ ∀ c < cfg.nf, r.getD c 0 < cfg.levels.getD c 0

instance (cfg : Config) (r : List ℕ) : Decidable (validRow cfg r) := by
  unfold validRow; infer_instance


/-! ## Heuristics (heuristics.cpp)

The tweak heuristics read the Array state but perform no write through the
`this` pointer: `heuristic_c_only` works on local `problems` /
`temp_problems` arrays and a local copy `dont_cares_c` of `dont_cares`,
`heuristic_l_only` on a local `scores` map and `locked_factors` array, and
`heuristic_all_scorer` on a `clone()` of the array.  The embedding makes all
of them functions of a read-only state; `tweak_row` and
`heuristic_all_scorer` are additionally given state-threaded wrappers
returning the (unchanged) state so that the frame property is a stated
theorem rather than a typing convention. -/

/-- `initialize_row_R`: a uniformly random row. -/
def initialize_row_R (cfg : Config) (rands : List ℕ) : List ℕ × List ℕ :=
  (List.range cfg.nf).foldl (fun (acc : List ℕ × List ℕ) i =>
    let (r, rs) := randNext acc.2
    (acc.1 ++ [r % cfg.levels.getD i 1], rs)) ([], rands)

/-- `initialize_row_T` (lines 110-131): random row, then lock the T-set with
the most location conflicts (ties broken by `rand() % worst_sets.size()`),
overwriting the locked Singles' factors with their values.  Returns the row,
the locked T-set's index, and the remaining stream. -/
def initialize_row_T (cfg : Config) (s : AState) (rands : List ℕ) :
    List ℕ × ℕ × List ℕ :=
  let (row, rands) := initialize_row_R cfg rands
  let ws := (List.range (allSets cfg).length).foldl
    (fun (ws : ℤ × List ℕ) j =>
      let c : ℤ := ((tGet s j).location_conflicts.card : ℤ)
      if c ≥ ws.1 then
        (if c > ws.1 then (c, [j]) else (ws.1, ws.2 ++ [j]))
      else ws) (-(2 ^ 63 : ℤ), [])
  let (r, rands) := randNext rands
  let locked := ws.2.getD (r % ws.2.length) 0
  let row := (tSingles cfg locked).foldl
    (fun row sp => updN row sp.1 (fun _ => sp.2)) row
  (row, locked, rands)

/-- `heuristic_l_only` (lines 323-353): score every Single by its number of
occurrences across the locked T-set's conflicting T-sets' (flattened)
`singles` lists, then for every factor not locked by the given T-set set the
row value to the first level attaining the strictly-largest positive score,
leaving the row value in place when every level of the factor scores 0. -/
def heuristic_l_only (cfg : Config) (s : AState) (row : List ℕ) (locked : ℕ) :
    List ℕ :=
  let lockedFactors : List Bool := (tSingles cfg locked).foldl
    (fun lf sp => updN lf sp.1 (fun _ => true)) (List.replicate cfg.nf false)
  let scores : List (SP × ℕ) := (allSingles cfg).map fun sp => (sp, 0)
  let scores := ((List.range (allSets cfg).length).filter
      (fun j2 => j2 ∈ (tGet s locked).location_conflicts)).foldl
    (fun sc j2 => (tSingles cfg j2).foldl
      (fun (sc : List (SP × ℕ)) sp =>
        sc.map fun e => if e.1 = sp then (e.1, e.2 + 1) else e) sc) scores
  (List.range cfg.nf).foldl (fun row col =>
    if lockedFactors.getD col false then row else
      let bv := (List.range (cfg.levels.getD col 0)).foldl
        (fun (bv : ℕ × ℕ) v =>
          let vs := (((scores.find? fun e => e.1 = (col, v)).map
            fun e => e.2).getD 0)
          if vs > bv.2 then (v, vs) else bv) (0, 0)
      if bv.2 ≠ 0 then updN row col (fun _ => bv.1) else row) row

/-- The score `heuristic_l_only` computes for a Single `sp`: its number of
occurrences (with multiplicity) across the flattened `singles` lists of the
T-sets conflicting with the locked T-set. -/
def conflictScore (cfg : Config) (s : AState) (locked : ℕ) (sp : SP) : ℕ :=
  (((List.range (allSets cfg).length).filter
    (fun j2 => j2 ∈ (tGet s locked).location_conflicts)).map
    (fun j2 => (tSingles cfg j2).count sp)).sum

/-- The best (value, score) pair `heuristic_l_only` selects for a factor:
the running strict-maximum fold over the factor's levels, seeded at
`(0, 0)`, so the first level attaining the maximal positive score wins. -/
def bestOf (cfg : Config) (s : AState) (locked : ℕ) (col : ℕ) : ℕ × ℕ :=
  (List.range (cfg.levels.getD col 0)).foldl
    (fun bv v =>
      if conflictScore cfg s locked (col, v) > bv.2
      then (v, conflictScore cfg s locked (col, v)) else bv) (0, 0)

/-- `heuristic_c_helper` (lines 285-311): add this row's per-factor problem
contributions into the (threaded) `problems` array and return the maximum
over factors whose current Single still has coverage issues, starting from
`INT32_MIN`. -/
def heuristic_c_helper (cfg : Config) (s : AState) (row : List ℕ)
    (problems : List ℤ) : ℤ × List ℤ :=
  let rowI := build_row_interactions cfg row
  let problems := rowI.foldl (fun pr i =>
    if (iGet s i).rows ≠ ∅ then
      if (interSingles cfg i).any
          (fun sp => (sGet s (singleIdx cfg sp)).c_issues = 0) then pr
      else (interSingles cfg i).foldl
        (fun pr sp => updN pr sp.1 (fun x => x + 1)) pr
    else (interSingles cfg i).foldl
      (fun pr sp => updN pr sp.1 (fun x => x - 1)) pr) problems
  let mx := (List.range cfg.nf).foldl (fun m col =>
    if (sGet s (singleIdx cfg (col, row.getD col 0))).c_issues = 0 then m
    else if problems.getD col 0 > m then problems.getD col 0 else m)
    (-(2 ^ 31 : ℤ))
  (mx, problems)

/-- The trial loop of `heuristic_c_only` for one factor tied at the maximum
(lines 228-247): cycle the factor's value through the other levels,
re-scoring with `heuristic_c_helper` into an accumulating `temp_problems`
array; `Except.error` is the source's early `return` with the improved row.
On falling through, the final `row[…] = (row[…]+1) % factors[col]->level`
uses the *unpermuted* column's level, exactly as the source does. -/
def trialCol (cfg : Config) (s : AState) (maxP : ℤ) (pcol col : ℕ)
    (row : List ℕ) : Except (List ℕ) (List ℕ) :=
  let lv := cfg.levels.getD pcol 0
  match (List.range (lv - 1)).foldlM (fun (rt : List ℕ × List ℤ) _ =>
    let row := updN rt.1 pcol (fun v => (v + 1) % lv)
    let (curMax, tp) := heuristic_c_helper cfg s row rt.2
    if curMax < maxP then Except.error row else Except.ok (row, tp))
    (row, List.replicate cfg.nf (0 : ℤ)) with
  | Except.error row' => Except.error row'
  | Except.ok (row, _) =>
    Except.ok (updN row pcol (fun v => (v + 1) % cfg.levels.getD col 0))

/-- The last-resort inner loop of `heuristic_c_only` (lines 254-267): cycle a
factor's value looking for any uncovered interaction, updating the local
don't-cares copy; stops early (`break`) on improvement.  Returns the row, the
local copy and the final `improved` flag. -/
def lastResortInner (cfg : Config) (s : AState) (pcol lv : ℕ) :
    List ℕ → List ℕ × List PMode → List ℕ × List PMode × Bool
  | [], (row, dcc) => (row, dcc, false)
  | _ :: rest, (row, dcc) =>
    let row := updN row pcol (fun v => (v + 1) % lv)
    let rowI := build_row_interactions cfg row
    let step := rowI.foldl (fun (di : List PMode × Bool) i =>
      if (iGet s i).rows = ∅ then
        ((interSingles cfg i).foldl
          (fun dc sp => updN dc sp.1 (fun _ => PMode.c_only)) di.1, true)
      else di) (dcc, false)
    if step.2 then (row, step.1, true)
    else lastResortInner cfg s pcol lv rest (row, step.1)

/-- `heuristic_c_only` (lines 188-273).  The candidate row is scored; if no
factor has a positive problem count the row is returned; otherwise each
factor tied at the maximum (in permuted order) is trial-cycled, returning the
first improvement; failing that, the last-resort sweep runs over every
not-yet-don't-care factor (in permuted order), re-randomizing the factor when
no uncovered interaction was exposed. -/
def heuristic_c_only (cfg : Config) (s : AState) (row0 : List ℕ)
    (rands : List ℕ) : List ℕ :=
  let perm := s.permutation.getD (List.range cfg.nf)
  let dcc0 := s.dont_cares.getD (List.replicate cfg.nf PMode.pnone)
  let rowI := build_row_interactions cfg row0
  let problems : List ℤ := rowI.foldl (fun pr i =>
    if (iGet s i).rows ≠ ∅ then
      if (interSingles cfg i).any
          (fun sp => dcc0.getD sp.1 PMode.pnone ≠ PMode.pnone) then pr
      else (interSingles cfg i).foldl
        (fun pr sp => updN pr sp.1 (fun x => x + 1)) pr
    else (interSingles cfg i).foldl
      (fun pr sp => updN pr sp.1 (fun x => x - 1)) pr)
    (List.replicate cfg.nf (0 : ℤ))
  let maxP := (List.range cfg.nf).foldl (fun m col =>
    if problems.getD col 0 > m then problems.getD col 0 else m) (0 : ℤ)
  if maxP = 0 then row0 else
  match (List.range cfg.nf).foldlM (fun row col =>
      let pcol := perm.getD col 0
      if problems.getD pcol 0 = maxP then trialCol cfg s maxP pcol col row
      else Except.ok row) row0 with
  | Except.error row' => row'
  | Except.ok row =>
    ((List.range cfg.nf).foldl (fun (acc : List ℕ × List PMode × List ℕ) col =>
      let (row, dcc, rands) := acc
      let pcol := perm.getD col 0
      let lv := cfg.levels.getD pcol 0
      if dcc.getD pcol PMode.pnone ≠ PMode.pnone then (row, dcc, rands) else
        let res := lastResortInner cfg s pcol lv (List.range lv) (row, dcc)
        if res.2.2 then (res.1, res.2.1, rands)
        else
          let (r, rands) := randNext rands
          (updN res.1 pcol (fun _ => r % lv), res.2.1, rands))
      (row, dcc0, rands)).1

/-- `heuristic_d_only` (lines 365-368): an empty body. -/
def heuristic_d_only (_cfg : Config) (_s : AState) (row : List ℕ) : List ℕ :=
  row

/-- `heuristic_all_scorer` (lines 470-493): clone the array, apply
`update_array(row, keep = false)` to the clone, and score the row by the
level-weighted drops of the Singles' issue counters between the original and
the clone.  The returned state is the original's, untouched (the function
only mutates the clone, which is discarded). -/
def heuristic_all_scorer (cfg : Config) (s : AState) (row : List ℕ) :
    ℤ × AState :=
  let copy := clone cfg s
  let copy := update_array cfg copy row false
  let rs := (List.range s.singles.length).foldl (fun acc k =>
    let w : ℤ := (cfg.levels.getD ((allSingles cfg).getD k (0, 0)).1 0 : ℤ)
    acc + w * ((sGet s k).c_issues - (sGet copy k).c_issues)
        + 2 * w * ((sGet s k).l_issues - (sGet copy k).l_issues)
        + 3 * w * ((sGet s k).d_issues - (sGet copy k).d_issues)) 0
  (rs, s)

/-- `heuristic_all_helper` (lines 429-455): enumerate the full cartesian
product of levels over the factors in permuted order (cycling each factor's
value by every offset), collecting a copy of each complete candidate row.
`rem` counts the factors still to vary (`num_factors - cur_col`). -/
def heuristic_all_helper (cfg : Config) (perm row : List ℕ) :
    ℕ → List (List ℕ)
  | 0 => [row]
  | rem + 1 =>
    let pcol := perm.getD (cfg.nf - (rem + 1)) 0
    let lv := cfg.levels.getD pcol 1
    (List.range lv).flatMap fun off =>
      heuristic_all_helper cfg perm (updN row pcol (fun v => (v + off) % lv)) rem

/-- `heuristic_all` (lines 382-410): score every candidate row with
`heuristic_all_scorer`, keep the list of rows tied at the best score (in
enumeration order standing for the pointer-keyed `std::map` order) and pick
one uniformly at random. -/
def heuristic_all (cfg : Config) (s : AState) (row : List ℕ)
    (rands : List ℕ) : List ℕ :=
  let perm := s.permutation.getD (List.range cfg.nf)
  let cands := heuristic_all_helper cfg perm row cfg.nf
  let best := cands.foldl (fun (bb : ℤ × List (List ℕ)) r =>
    let sc := (heuristic_all_scorer cfg s r).1
    if sc ≥ bb.1 then
      (if sc > bb.1 then (sc, [r]) else (bb.1, bb.2 ++ [r]))
    else bb) (-(2 ^ 63 : ℤ), [])
  let (r, _) := randNext rands
  best.2.getD (r % best.2.length) row

/-- `tweak_row` (lines 153-175), state-threaded: dispatch on the heuristic in
use and return the tweaked row together with the Array state, which none of
the dispatched heuristics writes to. -/
def tweak_row (cfg : Config) (s : AState) (h : Heu) (row : List ℕ)
    (locked : Option ℕ) (rands : List ℕ) : List ℕ × AState :=
  match h with
  | Heu.c_only | Heu.c_and_l | Heu.c_and_d =>
    (heuristic_c_only cfg s row rands, s)
  | Heu.l_only | Heu.l_and_d =>
    (heuristic_l_only cfg s row (locked.getD 0), s)
  | Heu.d_only => (heuristic_d_only cfg s row, s)
  | Heu.all => (heuristic_all cfg s row rands, s)
  | Heu.hnone => (row, s)

/-- The entry of `add_row` (heuristics.cpp lines 19-27): the Fisher-Yates
shuffle of `this->permutation`, which dereferences the pointer whenever
`num_factors > 0`.  Returns `none` exactly on a null `permutation` — the
null dereference. -/
def add_row_shuffle (cfg : Config) (s : AState) (rands : List ℕ) :
    Option (List ℕ × List ℕ) :=
  if cfg.nf = 0 then some (s.permutation.getD [], rands) else
  match s.permutation with
  | none => none
  | some pm => some (((List.range cfg.nf).reverse.map (fun k => k + 1)).foldl
      (fun (pr : List ℕ × List ℕ) size =>
        let (r, rnds) := randNext pr.2
        let ri := r % size
        let a := pr.1.getD (size - 1) 0
        let b := pr.1.getD ri 0
        (updN (updN pr.1 (size - 1) (fun _ => b)) ri (fun _ => a), rnds))
      (pm, rands))


/-! ## List and fold helper lemmas -/

section Helpers

variable {α β γ : Type}

theorem updN_length (l : List α) (i : ℕ) (f : α → α) :
    (updN l i f).length = l.length := by
  induction l generalizing i with
  | nil => rfl
  | cons a l ih => cases i with
    | zero => rfl
    | succ n => simp [updN, ih]

theorem get?_updN (l : List α) (i : ℕ) (f : α → α) (k : ℕ) :
    (updN l i f).get? k = if k = i then (l.get? k).map f else l.get? k := by
  induction l generalizing i k with
  | nil => simp [updN]
  | cons a l ih =>
    cases i with
    | zero => cases k with
      | zero => simp [updN]
      | succ m => simp [updN]
    | succ n => cases k with
      | zero => simp [updN]
      | succ m => simpa [updN] using ih n m

theorem updN_of_ge (l : List α) (i : ℕ) (f : α → α) (h : l.length ≤ i) :
    updN l i f = l := by
  induction l generalizing i with
  | nil => rfl
  | cons a l ih => cases i with
    | zero => simp at h
    | succ n => simp only [List.length_cons, Nat.succ_le_succ_iff] at h
                simp [updN, ih n h]

theorem getD_updN_self (l : List α) (i : ℕ) (f : α → α) (d : α)
    (h : i < l.length) : (updN l i f).getD i d = f (l.getD i d) := by
  have h2 : (updN l i f).get? i = (l.get? i).map f := by
    rw [get?_updN]; simp
  rw [List.getD_eq_getElem?_getD, List.getD_eq_getElem?_getD,
      ← List.get?_eq_getElem?, ← List.get?_eq_getElem?, h2]
  cases hl : l.get? i with
  | none =>
    have := List.get?_eq_none.mp hl
    exact absurd this (by omega)
  | some a => simp

theorem getD_updN_ne (l : List α) (i : ℕ) (f : α → α) (d : α) (k : ℕ)
    (h : k ≠ i) : (updN l i f).getD k d = l.getD k d := by
  have h2 := get?_updN l i f k
  rw [if_neg h] at h2
  rw [List.getD_eq_getElem?_getD, List.getD_eq_getElem?_getD,
      ← List.get?_eq_getElem?, ← List.get?_eq_getElem?, h2]

theorem getD_updN (l : List α) (i : ℕ) (f : α → α) (d : α) (k : ℕ) :
    (updN l i f).getD k d =
      if k = i ∧ i < l.length then f (l.getD k d) else l.getD k d := by
  by_cases hk : k = i
  · subst hk
    by_cases hl : k < l.length
    · rw [if_pos ⟨rfl, hl⟩]
      exact getD_updN_self l k f d hl
    · rw [if_neg (fun hc => hl hc.2), updN_of_ge l k f (Nat.le_of_not_lt hl)]
  · rw [if_neg (fun hc => hk hc.1)]
    exact getD_updN_ne l i f d k hk

/-- Projection-preservation through a left fold. -/
theorem foldl_proj_const (proj : α → β) (f : α → γ → α) :
    ∀ (L : List γ) (s : α), (∀ s x, x ∈ L → proj (f s x) = proj s) →
    proj (L.foldl f s) = proj s := by
  intro L
  induction L with
  | nil => intro s _; rfl
  | cons a L ih =>
    intro s h
    simp only [List.foldl_cons]
    rw [ih (f s a) (fun s x hx => h s x (List.mem_cons_of_mem _ hx)),
        h s a (List.mem_cons_self a L)]

/-- Pointwise characterization of a fold touching the tracked projection at
exactly one index of a duplicate-free list. -/
theorem foldl_proj_point (proj : α → β) (f : α → ℕ → α) (g : β → β) (i : ℕ) :
    ∀ (L : List ℕ), L.Nodup →
    (∀ s x, x ∈ L → x ≠ i → proj (f s x) = proj s) →
    (∀ s, proj (f s i) = g (proj s)) →
    ∀ s, proj (L.foldl f s) = if i ∈ L then g (proj s) else proj s := by
  intro L
  induction L with
  | nil => intro _ _ _ s; simp
  | cons a L ih =>
    intro hnd hother hself s
    have hnd' := hnd.of_cons
    have hother' : ∀ s x, x ∈ L → x ≠ i → proj (f s x) = proj s :=
      fun s x hx => hother s x (List.mem_cons_of_mem _ hx)
    simp only [List.foldl_cons]
    by_cases ha : a = i
    · subst ha
      have hnotin : a ∉ L := (List.nodup_cons.mp hnd).1
      rw [ih hnd' hother' hself (f s a), if_neg hnotin, hself s,
          if_pos (List.mem_cons_self a L)]
    · rw [ih hnd' hother' hself (f s a), hother s a (List.mem_cons_self a L) ha]
      have hm : (i ∈ a :: L) ↔ (i ∈ L) := by
        constructor
        · intro h
          rcases List.mem_cons.mp h with h1 | h1
          · exact absurd h1.symm ha
          · exact h1
        · exact fun h => List.mem_cons_of_mem _ h
      simp only [hm]

/-- Characterization of a fold whose effect on the tracked projection is a
fixed idempotent function applied whenever the element satisfies `P`. -/
theorem foldl_proj_idem (proj : α → β) (f : α → γ → α) (g : β → β)
    (P : γ → Prop) [DecidablePred P] (hg : ∀ b, g (g b) = g b) :
    ∀ (L : List γ),
    (∀ s x, x ∈ L → ¬ P x → proj (f s x) = proj s) →
    (∀ s x, x ∈ L → P x → proj (f s x) = g (proj s)) →
    ∀ s, proj (L.foldl f s) = if ∃ x ∈ L, P x then g (proj s) else proj s := by
  intro L
  induction L with
  | nil => intro _ _ s; simp
  | cons a L ih =>
    intro hother hself s
    have hother' : ∀ s x, x ∈ L → ¬ P x → proj (f s x) = proj s :=
      fun s x hx => hother s x (List.mem_cons_of_mem _ hx)
    have hself' : ∀ s x, x ∈ L → P x → proj (f s x) = g (proj s) :=
      fun s x hx => hself s x (List.mem_cons_of_mem _ hx)
    simp only [List.foldl_cons]
    by_cases hPa : P a
    · rw [ih hother' hself' (f s a),
          hself s a (List.mem_cons_self a L) hPa]
      have hcons : ∃ x ∈ a :: L, P x := ⟨a, List.mem_cons_self a L, hPa⟩
      rw [if_pos hcons]
      by_cases hL : ∃ x ∈ L, P x
      · rw [if_pos hL, hg]
      · rw [if_neg hL]
    · rw [ih hother' hself' (f s a),
          hother s a (List.mem_cons_self a L) hPa]
      have : (∃ x ∈ a :: L, P x) ↔ (∃ x ∈ L, P x) := by
        simp only [List.mem_cons]
        constructor
        · rintro ⟨x, hx | hx, hPx⟩
          · exact absurd (hx ▸ hPx) hPa
          · exact ⟨x, hx, hPx⟩
        · rintro ⟨x, hx, hPx⟩; exact ⟨x, Or.inr hx, hPx⟩
      simp only [this]

end Helpers


/-! ## State projection lemmas -/

section Projections

variable (cfg : Config) (s : AState)

@[simp] theorem updSingle_inters (k : ℕ) (f : SingleSt → SingleSt) :
    (updSingle s k f).inters = s.inters := rfl
@[simp] theorem updSingle_tsets (k : ℕ) (f : SingleSt → SingleSt) :
    (updSingle s k f).tsets = s.tsets := rfl
@[simp] theorem updSingle_rows (k : ℕ) (f : SingleSt → SingleSt) :
    (updSingle s k f).rows = s.rows := rfl
@[simp] theorem updSingle_num_tests (k : ℕ) (f : SingleSt → SingleSt) :
    (updSingle s k f).num_tests = s.num_tests := rfl
@[simp] theorem updSingle_singles_length (k : ℕ) (f : SingleSt → SingleSt) :
    (updSingle s k f).singles.length = s.singles.length := by
  simp [updSingle, updN_length]

theorem updSingle_singles_eq (k : ℕ) (f : SingleSt → SingleSt) :
    (updSingle s k f).singles = updN s.singles k f := rfl

theorem updInter_inters_eq (i : ℕ) (f : InterSt → InterSt) :
    (updInter s i f).inters = updN s.inters i f := rfl

theorem updT_tsets_eq (j : ℕ) (f : TSt → TSt) :
    (updT s j f).tsets = updN s.tsets j f := rfl

@[simp] theorem updInter_singles (i : ℕ) (f : InterSt → InterSt) :
    (updInter s i f).singles = s.singles := rfl
@[simp] theorem updInter_tsets (i : ℕ) (f : InterSt → InterSt) :
    (updInter s i f).tsets = s.tsets := rfl
@[simp] theorem updInter_rows (i : ℕ) (f : InterSt → InterSt) :
    (updInter s i f).rows = s.rows := rfl
@[simp] theorem updInter_num_tests (i : ℕ) (f : InterSt → InterSt) :
    (updInter s i f).num_tests = s.num_tests := rfl
@[simp] theorem updInter_inters_length (i : ℕ) (f : InterSt → InterSt) :
    (updInter s i f).inters.length = s.inters.length := by
  simp [updInter, updN_length]

@[simp] theorem updT_singles (j : ℕ) (f : TSt → TSt) :
    (updT s j f).singles = s.singles := rfl
@[simp] theorem updT_inters (j : ℕ) (f : TSt → TSt) :
    (updT s j f).inters = s.inters := rfl
@[simp] theorem updT_rows (j : ℕ) (f : TSt → TSt) :
    (updT s j f).rows = s.rows := rfl
@[simp] theorem updT_num_tests (j : ℕ) (f : TSt → TSt) :
    (updT s j f).num_tests = s.num_tests := rfl
@[simp] theorem updT_tsets_length (j : ℕ) (f : TSt → TSt) :
    (updT s j f).tsets.length = s.tsets.length := by
  simp [updT, updN_length]

theorem sGet_updSingle (k : ℕ) (f : SingleSt → SingleSt) (k' : ℕ) :
    sGet (updSingle s k f) k' =
      if k' = k ∧ k < s.singles.length then f (sGet s k') else sGet s k' := by
  simp only [sGet, updSingle]
  exact getD_updN s.singles k f default k'

theorem sGet_updSingle_ne (k : ℕ) (f : SingleSt → SingleSt) (k' : ℕ)
    (h : k' ≠ k) : sGet (updSingle s k f) k' = sGet s k' := by
  rw [sGet_updSingle, if_neg (fun hc => h hc.1)]

theorem sGet_updSingle_self (k : ℕ) (f : SingleSt → SingleSt)
    (h : k < s.singles.length) : sGet (updSingle s k f) k = f (sGet s k) := by
  rw [sGet_updSingle, if_pos ⟨rfl, h⟩]

theorem iGet_updInter (i : ℕ) (f : InterSt → InterSt) (i' : ℕ) :
    iGet (updInter s i f) i' =
      if i' = i ∧ i < s.inters.length then f (iGet s i') else iGet s i' := by
  simp only [iGet, updInter]
  exact getD_updN s.inters i f default i'

theorem iGet_updInter_ne (i : ℕ) (f : InterSt → InterSt) (i' : ℕ)
    (h : i' ≠ i) : iGet (updInter s i f) i' = iGet s i' := by
  rw [iGet_updInter, if_neg (fun hc => h hc.1)]

theorem iGet_updInter_self (i : ℕ) (f : InterSt → InterSt)
    (h : i < s.inters.length) : iGet (updInter s i f) i = f (iGet s i) := by
  rw [iGet_updInter, if_pos ⟨rfl, h⟩]

theorem tGet_updT (j : ℕ) (f : TSt → TSt) (j' : ℕ) :
    tGet (updT s j f) j' =
      if j' = j ∧ j < s.tsets.length then f (tGet s j') else tGet s j' := by
  simp only [tGet, updT]
  exact getD_updN s.tsets j f default j'

theorem tGet_updT_ne (j : ℕ) (f : TSt → TSt) (j' : ℕ)
    (h : j' ≠ j) : tGet (updT s j f) j' = tGet s j' := by
  rw [tGet_updT, if_neg (fun hc => h hc.1)]

theorem tGet_updT_self (j : ℕ) (f : TSt → TSt)
    (h : j < s.tsets.length) : tGet (updT s j f) j = f (tGet s j) := by
  rw [tGet_updT, if_pos ⟨rfl, h⟩]

@[simp] theorem sGet_updInter (i : ℕ) (f : InterSt → InterSt) (k : ℕ) :
    sGet (updInter s i f) k = sGet s k := rfl
@[simp] theorem sGet_updT (j : ℕ) (f : TSt → TSt) (k : ℕ) :
    sGet (updT s j f) k = sGet s k := rfl
@[simp] theorem iGet_updSingle (k : ℕ) (f : SingleSt → SingleSt) (i : ℕ) :
    iGet (updSingle s k f) i = iGet s i := rfl
@[simp] theorem iGet_updT (j : ℕ) (f : TSt → TSt) (i : ℕ) :
    iGet (updT s j f) i = iGet s i := rfl
@[simp] theorem tGet_updSingle (k : ℕ) (f : SingleSt → SingleSt) (j : ℕ) :
    tGet (updSingle s k f) j = tGet s j := rfl
@[simp] theorem tGet_updInter (i : ℕ) (f : InterSt → InterSt) (j : ℕ) :
    tGet (updInter s i f) j = tGet s j := rfl

/-- `bumpSinglesScore` touches only the Singles list and `score`. -/
theorem bumpSinglesScore_inters (sps : List SP) (f : SingleSt → SingleSt)
    (ds : ℤ) : (bumpSinglesScore cfg s sps f ds).inters = s.inters := by
  unfold bumpSinglesScore
  exact foldl_proj_const AState.inters (bumpSS cfg f ds) sps s (fun s sp _ => rfl)

theorem bumpSinglesScore_tsets (sps : List SP) (f : SingleSt → SingleSt)
    (ds : ℤ) : (bumpSinglesScore cfg s sps f ds).tsets = s.tsets := by
  unfold bumpSinglesScore
  exact foldl_proj_const AState.tsets (bumpSS cfg f ds) sps s (fun s sp _ => rfl)

theorem bumpSinglesScore_rows (sps : List SP) (f : SingleSt → SingleSt)
    (ds : ℤ) : (bumpSinglesScore cfg s sps f ds).rows = s.rows := by
  unfold bumpSinglesScore
  exact foldl_proj_const AState.rows (bumpSS cfg f ds) sps s (fun s sp _ => rfl)

theorem bumpSinglesScore_num_tests (sps : List SP) (f : SingleSt → SingleSt)
    (ds : ℤ) : (bumpSinglesScore cfg s sps f ds).num_tests = s.num_tests := by
  unfold bumpSinglesScore
  exact foldl_proj_const AState.num_tests (bumpSS cfg f ds) sps s
    (fun s sp _ => rfl)

theorem bumpSinglesScore_singles_length (sps : List SP)
    (f : SingleSt → SingleSt) (ds : ℤ) :
    (bumpSinglesScore cfg s sps f ds).singles.length = s.singles.length := by
  unfold bumpSinglesScore
  refine foldl_proj_const (fun s => s.singles.length) (bumpSS cfg f ds) sps s ?_
  intro s sp _
  show (updSingle s (singleIdx cfg sp) f).singles.length = s.singles.length
  simp [updSingle, updN_length]

/-- The rows field of any Single survives a counter-only bump. -/
theorem bumpSS_sGet_rows (f : SingleSt → SingleSt) (ds : ℤ)
    (hf : ∀ e, (f e).rows = e.rows) (sp : SP) (k : ℕ) :
    (sGet (bumpSS cfg f ds s sp) k).rows = (sGet s k).rows := by
  have h1 : sGet (bumpSS cfg f ds s sp) k
      = sGet (updSingle s (singleIdx cfg sp) f) k := rfl
  rw [h1, sGet_updSingle]
  split
  · exact hf _
  · rfl

theorem bumpSinglesScore_sGet_rows (sps : List SP) (f : SingleSt → SingleSt)
    (ds : ℤ) (hf : ∀ e, (f e).rows = e.rows) (k : ℕ) :
    (sGet (bumpSinglesScore cfg s sps f ds) k).rows = (sGet s k).rows := by
  unfold bumpSinglesScore
  refine foldl_proj_const (fun s => (sGet s k).rows) _ sps s ?_
  intro s sp _
  exact bumpSS_sGet_rows cfg s f ds hf sp k

theorem bumpSingles_inters (sps : List SP) (f : SingleSt → SingleSt) :
    (bumpSingles cfg s sps f).inters = s.inters := by
  unfold bumpSingles
  refine foldl_proj_const AState.inters _ sps s ?_
  intro s sp _
  rfl

theorem bumpSingles_tsets (sps : List SP) (f : SingleSt → SingleSt) :
    (bumpSingles cfg s sps f).tsets = s.tsets := by
  unfold bumpSingles
  refine foldl_proj_const AState.tsets _ sps s ?_
  intro s sp _
  rfl

end Projections


/-! ## Static structure lemmas -/

section StaticStructure

variable (cfg : Config)

theorem get?_eq_some_getD {r : List ℕ} {c : ℕ} (h : c < r.length) :
    r.get? c = some (r.getD c 0) := by
  rw [List.get?_eq_getElem?, List.getElem?_eq_getElem h,
      List.getD_eq_getElem?_getD, List.getElem?_eq_getElem h]
  rfl

theorem mem_allSingles {sp : SP} :
    sp ∈ allSingles cfg ↔ sp.1 < cfg.nf ∧ sp.2 < cfg.levels.getD sp.1 0 := by
  cases sp with
  | mk f v =>
    simp only [allSingles, List.mem_flatMap, List.mem_map, List.mem_range]
    constructor
    · rintro ⟨i, hi, j, hj, h⟩
      cases h
      exact ⟨hi, hj⟩
    · rintro ⟨hf, hv⟩
      exact ⟨f, hf, v, hv, rfl⟩

theorem singleIdx_spec {sp : SP} (h : sp ∈ allSingles cfg) :
    singleIdx cfg sp < (allSingles cfg).length ∧
      (allSingles cfg).getD (singleIdx cfg sp) (0, 0) = sp := by
  unfold singleIdx
  have hlt : (allSingles cfg).findIdx (fun q => q = sp) <
      (allSingles cfg).length :=
    List.findIdx_lt_length_of_exists ⟨sp, h, by simp⟩
  refine ⟨hlt, ?_⟩
  have hp := @List.findIdx_getElem _ (fun q => decide (q = sp))
    (allSingles cfg) hlt
  rw [List.getD_eq_getElem?_getD, List.getElem?_eq_getElem hlt]
  simpa using hp

theorem singleIdx_inj {sp sp' : SP} (h : sp ∈ allSingles cfg)
    (h' : sp' ∈ allSingles cfg) (he : singleIdx cfg sp = singleIdx cfg sp') :
    sp = sp' := by
  have a := (singleIdx_spec cfg h).2
  have b := (singleIdx_spec cfg h').2
  rw [← a, ← b, he]

/-- The well-formedness predicate characterizing membership in
`build_t_way_interactions levels start tc`. -/
def GoodInter (levels : List ℕ) (start tc : ℕ) (sps : List SP) : Prop :=
  sps.length = tc ∧ List.Pairwise (fun a b : SP => a.1 < b.1) sps ∧
    ∀ sp ∈ sps, start ≤ sp.1 ∧ sp.1 < levels.length ∧
      sp.2 < levels.getD sp.1 0

theorem asc_bound :
    ∀ (fl : List SP) (c F : ℕ),
      List.Pairwise (fun a b : SP => a.1 < b.1) fl →
      (∀ x ∈ fl, x.1 < F) → (∀ x ∈ fl, c < x.1) → c < F →
      c + fl.length < F := by
  intro fl
  induction fl with
  | nil => intro c F _ _ _ h; simpa using h
  | cons a fl ih =>
    intro c F hpw hF hc _
    have h1 : a.1 + fl.length < F := by
      refine ih a.1 F hpw.of_cons ?_ ?_ (hF a (List.mem_cons_self _ _))
      · exact fun x hx => hF x (List.mem_cons_of_mem _ hx)
      · exact fun x hx => (List.pairwise_cons.mp hpw).1 x hx
    have h2 : c < a.1 := hc a (List.mem_cons_self _ _)
    simp only [List.length_cons]
    omega

theorem mem_build_t_way :
    ∀ (tc start : ℕ) (sps : List SP) (levels : List ℕ),
      sps ∈ build_t_way_interactions levels start tc ↔
        GoodInter levels start tc sps := by
  intro tc
  induction tc with
  | zero =>
    intro start sps levels
    simp only [build_t_way_interactions, List.mem_singleton, GoodInter]
    constructor
    · rintro rfl; exact ⟨rfl, List.Pairwise.nil, by simp⟩
    · rintro ⟨h, -, -⟩; exact List.length_eq_zero.mp h
  | succ tc ih =>
    intro start sps levels
    simp only [build_t_way_interactions, List.mem_flatMap, List.mem_map,
      List.mem_range'_1, List.mem_range]
    constructor
    · rintro ⟨col, ⟨hcs, hcb⟩, lvl, hlvl, rest, hrest, rfl⟩
      obtain ⟨hlen, hpw, hb⟩ := (ih (col + 1) rest levels).mp hrest
      have hcol_lt : col < levels.length := by omega
      refine ⟨by simp [hlen], ?_, ?_⟩
      · refine List.pairwise_cons.mpr ⟨?_, hpw⟩
        intro b hb'
        have := (hb b hb').1
        omega
      · intro sp hsp
        rcases List.mem_cons.mp hsp with h | h
        · cases h; exact ⟨hcs, hcol_lt, hlvl⟩
        · have := hb sp h
          exact ⟨by omega, this.2.1, this.2.2⟩
    · rintro ⟨hlen, hpw, hb⟩
      match sps, hlen with
      | (col, lvl) :: rest, hlen =>
        have hlen' : rest.length = tc := by simpa using hlen
        have hhead := hb (col, lvl) (List.mem_cons_self _ _)
        have hrest_gt : ∀ x ∈ rest, col < x.1 :=
          fun x hx => (List.pairwise_cons.mp hpw).1 x hx
        have hrest_lt : ∀ x ∈ rest, x.1 < levels.length :=
          fun x hx => (hb x (List.mem_cons_of_mem _ hx)).2.1
        have hbound : col + tc < levels.length := by
          have := asc_bound rest col levels.length hpw.of_cons hrest_lt
            hrest_gt hhead.2.1
          omega
        refine ⟨col, ⟨hhead.1, by omega⟩, lvl, hhead.2.2, rest, ?_, rfl⟩
        refine (ih (col + 1) rest levels).mpr ⟨hlen', hpw.of_cons, ?_⟩
        intro sp hsp
        have h1 := hrest_gt sp hsp
        have h2 := hb sp (List.mem_cons_of_mem _ hsp)
        exact ⟨by omega, h2.2.1, h2.2.2⟩

theorem mem_allInteractions {sps : List SP} :
    sps ∈ allInteractions cfg ↔ GoodInter cfg.levels 0 cfg.t sps :=
  mem_build_t_way cfg.t 0 sps cfg.levels

theorem interSingles_sub (i : ℕ) (hi : i < (allInteractions cfg).length) :
    ∀ sp ∈ interSingles cfg i, sp ∈ allSingles cfg := by
  intro sp hsp
  have hmem : interSingles cfg i ∈ allInteractions cfg := by
    unfold interSingles
    rw [List.getD_eq_getElem?_getD, List.getElem?_eq_getElem hi]
    exact List.getElem_mem hi
  have := ((mem_allInteractions cfg).mp hmem).2.2 sp hsp
  exact (mem_allSingles cfg).mpr ⟨this.2.1, this.2.2⟩

theorem interSingles_length (i : ℕ) (hi : i < (allInteractions cfg).length) :
    (interSingles cfg i).length = cfg.t := by
  have hmem : interSingles cfg i ∈ allInteractions cfg := by
    unfold interSingles
    rw [List.getD_eq_getElem?_getD, List.getElem?_eq_getElem hi]
    exact List.getElem_mem hi
  exact ((mem_allInteractions cfg).mp hmem).1

theorem mem_build_size_d :
    ∀ (dc start n : ℕ) (ids : List ℕ), ids ∈ build_size_d_sets n start dc →
      ids.length = dc ∧ ∀ i ∈ ids, start ≤ i ∧ i < n := by
  intro dc
  induction dc with
  | zero =>
    intro start n ids h
    simp only [build_size_d_sets, List.mem_singleton] at h
    subst h
    exact ⟨rfl, by simp⟩
  | succ dc ih =>
    intro start n ids h
    simp only [build_size_d_sets, List.mem_flatMap, List.mem_map,
      List.mem_range'_1] at h
    obtain ⟨i, ⟨his, hib⟩, rest, hrest, rfl⟩ := h
    obtain ⟨hlen, hb⟩ := ih (i + 1) n rest hrest
    have hin : i < n := by omega
    refine ⟨by simp [hlen], ?_⟩
    intro x hx
    rcases List.mem_cons.mp hx with h | h
    · subst h; exact ⟨his, hin⟩
    · have := hb x h
      exact ⟨by omega, this.2⟩

theorem allSets_members (j : ℕ) (hj : j < (allSets cfg).length) :
    ∀ i ∈ (allSets cfg).getD j [], i < (allInteractions cfg).length := by
  intro i hi
  have hmem : (allSets cfg).getD j [] ∈ allSets cfg := by
    rw [List.getD_eq_getElem?_getD, List.getElem?_eq_getElem hj]
    exact List.getElem_mem hj
  exact (mem_build_size_d cfg.d 0 (allInteractions cfg).length _ hmem).2 i hi |>.2

theorem allSets_length_d (j : ℕ) (hj : j < (allSets cfg).length) :
    ((allSets cfg).getD j []).length = cfg.d := by
  have hmem : (allSets cfg).getD j [] ∈ allSets cfg := by
    rw [List.getD_eq_getElem?_getD, List.getElem?_eq_getElem hj]
    exact List.getElem_mem hj
  exact (mem_build_size_d cfg.d 0 (allInteractions cfg).length _ hmem).1

theorem build_row_interactions_nodup (row : List ℕ) :
    (build_row_interactions cfg row).Nodup :=
  (List.nodup_range _).filter _

theorem rowTSets_nodup (rowI : List ℕ) : (rowTSets cfg rowI).Nodup :=
  (List.nodup_range _).filter _

theorem deltaKeys_nodup (i : ℕ) : (deltaKeys cfg i).Nodup :=
  (List.nodup_range _).filter _

theorem mem_build_row_interactions {row : List ℕ} {i : ℕ} :
    i ∈ build_row_interactions cfg row ↔
      i < (allInteractions cfg).length ∧
        containsInter row (interSingles cfg i) = true := by
  simp [build_row_interactions, List.mem_filter]

theorem mem_rowTSets {rowI : List ℕ} {j : ℕ} :
    j ∈ rowTSets cfg rowI ↔
      j < (allSets cfg).length ∧
        ∃ i ∈ (allSets cfg).getD j [], i ∈ rowI := by
  simp [rowTSets, List.mem_filter]

theorem mem_deltaKeys {i j : ℕ} :
    j ∈ deltaKeys cfg i ↔
      j < (allSets cfg).length ∧ i ∉ (allSets cfg).getD j [] := by
  simp [deltaKeys, List.mem_filter]

theorem mem_setsContaining {i j : ℕ} :
    j ∈ setsContaining cfg i ↔
      j < (allSets cfg).length ∧ i ∈ (allSets cfg).getD j [] := by
  simp [setsContaining, List.mem_filter]

/-- Auxiliary form of `exists_row_inter` for a given column combination. -/
theorem exists_row_inter_aux (cfg : Config) (r : List ℕ)
    (hrl : r.length = cfg.nf)
    (hrv : ∀ c < cfg.nf, r.getD c 0 < cfg.levels.getD c 0)
    (f : ℕ) (cols : List ℕ) (hlen : cols.length = cfg.t)
    (hpw : cols.Pairwise (· < ·)) (hlt : ∀ c ∈ cols, c < cfg.nf)
    (hfmem : f ∈ cols) :
    ∃ i ∈ build_row_interactions cfg r,
      (f, r.getD f 0) ∈ interSingles cfg i := by
  classical
  set sps : List SP := cols.map fun c => (c, r.getD c 0) with hsps
  have hmem : sps ∈ allInteractions cfg := by
    refine (mem_allInteractions cfg).mpr ⟨by simp [hsps, hlen], ?_, ?_⟩
    · rw [hsps]
      refine List.pairwise_map.mpr ?_
      exact hpw.imp (fun h => h)
    · intro sp hsp
      rw [hsps] at hsp
      obtain ⟨c, hc, rfl⟩ := List.mem_map.mp hsp
      exact ⟨Nat.zero_le _, hlt c hc, hrv c (hlt c hc)⟩
  obtain ⟨n, hn, hget⟩ := List.getElem_of_mem hmem
  have hIS : interSingles cfg n = sps := by
    unfold interSingles
    rw [List.getD_eq_getElem?_getD, List.getElem?_eq_getElem hn]
    exact hget
  refine ⟨n, ?_, ?_⟩
  · refine (mem_build_row_interactions cfg).mpr ⟨hn, ?_⟩
    rw [hIS, hsps, containsInter, List.all_eq_true]
    intro sp hsp
    obtain ⟨c, hc, rfl⟩ := List.mem_map.mp hsp
    have hg : r.get? c = some (r.getD c 0) :=
      get?_eq_some_getD (by rw [hrl]; exact hlt c hc)
    exact decide_eq_true hg
  · rw [hIS, hsps]
    exact List.mem_map.mpr ⟨f, hfmem, rfl⟩

/-- Every in-range value at an in-range column of a valid row belongs, via
some interaction of the row, to the row's interaction set (this is where
`1 ≤ t ≤ num_factors` is needed). -/
theorem exists_row_inter (cfg : Config) (r : List ℕ) (hr : validRow cfg r)
    (ht1 : 1 ≤ cfg.t) (htF : cfg.t ≤ cfg.nf) (f : ℕ) (hf : f < cfg.nf) :
    ∃ i ∈ build_row_interactions cfg r,
      (f, r.getD f 0) ∈ interSingles cfg i := by
  obtain ⟨hrl, hrv⟩ := hr
  by_cases hft : f < cfg.t
  · refine exists_row_inter_aux cfg r hrl hrv f (List.range cfg.t)
      (by simp) (List.pairwise_lt_range _) ?_ (by simpa using hft)
    intro c hc
    simp only [List.mem_range] at hc
    omega
  · refine exists_row_inter_aux cfg r hrl hrv f
      (List.range (cfg.t - 1) ++ [f]) (by simp; omega) ?_ ?_ (by simp)
    · refine List.pairwise_append.mpr
        ⟨List.pairwise_lt_range _, by simp, ?_⟩
      intro a ha b hb
      simp only [List.mem_range] at ha
      simp only [List.mem_singleton] at hb
      subst hb
      omega
    · intro c hc
      rcases List.mem_append.mp hc with h | h
      · simp only [List.mem_range] at h
        omega
      · simp only [List.mem_singleton] at h
        omega

/-- Every Single of an interaction of a row matches the row. -/
theorem row_inter_matches {r : List ℕ} {i : ℕ}
    (hi : i ∈ build_row_interactions cfg r) :
    ∀ sp ∈ interSingles cfg i, r.get? sp.1 = some sp.2 := by
  intro sp hsp
  have h := ((mem_build_row_interactions cfg).mp hi).2
  rw [containsInter, List.all_eq_true] at h
  have := h sp hsp
  exact of_decide_eq_true this

end StaticStructure


/-! ## Canonical row sets

The sets of (1-based) committed row indices in which a Single / Interaction /
T-set occurs, computed from the committed row list.  These are the reference
values for the row-membership invariants. -/

section RowSets

variable (cfg : Config)

/-- Indices `k + 1` of the rows satisfying `pred` (the `update_array` code
inserts the post-increment `num_tests`, so the stored indices are one-based).
-/
def hitRows (rows : List (List ℕ)) (pred : List ℕ → Bool) : Finset ℕ :=
  ((Finset.range rows.length).filter fun k => pred (rows.getD k []) = true).image
    (· + 1)

theorem mem_hitRows {rows : List (List ℕ)} {pred : List ℕ → Bool} {m : ℕ} :
    m ∈ hitRows rows pred ↔
      ∃ k, k < rows.length ∧ pred (rows.getD k []) = true ∧ m = k + 1 := by
  simp only [hitRows, Finset.mem_image, Finset.mem_filter, Finset.mem_range]
  constructor
  · rintro ⟨k, ⟨hk, hp⟩, rfl⟩
    exact ⟨k, hk, hp, rfl⟩
  · rintro ⟨k, hk, hp, rfl⟩
    exact ⟨k, ⟨hk, hp⟩, rfl⟩

theorem hitRows_bound {rows : List (List ℕ)} {pred : List ℕ → Bool} {m : ℕ}
    (h : m ∈ hitRows rows pred) : 1 ≤ m ∧ m ≤ rows.length := by
  obtain ⟨k, hk, -, rfl⟩ := mem_hitRows.mp h
  omega

theorem succ_not_mem_hitRows {rows : List (List ℕ)} {pred : List ℕ → Bool} :
    rows.length + 1 ∉ hitRows rows pred := by
  intro h
  have := (hitRows_bound h).2
  omega

theorem hitRows_append {rows : List (List ℕ)} {r : List ℕ}
    {pred : List ℕ → Bool} :
    hitRows (rows ++ [r]) pred =
      if pred r then insert (rows.length + 1) (hitRows rows pred)
      else hitRows rows pred := by
  ext m
  rw [mem_hitRows]
  have hget : ∀ k, k < rows.length → (rows ++ [r]).getD k [] = rows.getD k [] := by
    intro k hk
    rw [List.getD_eq_getElem?_getD, List.getD_eq_getElem?_getD,
        List.getElem?_append_left hk]
  have hgetr : (rows ++ [r]).getD rows.length [] = r := by
    rw [List.getD_eq_getElem?_getD]
    rw [List.getElem?_append_right (Nat.le_refl _)]
    simp
  constructor
  · rintro ⟨k, hk, hp, rfl⟩
    simp only [List.length_append, List.length_singleton] at hk
    by_cases hkl : k < rows.length
    · rw [hget k hkl] at hp
      have hm : k + 1 ∈ hitRows rows pred := mem_hitRows.mpr ⟨k, hkl, hp, rfl⟩
      split
      · exact Finset.mem_insert_of_mem hm
      · exact hm
    · have hke : k = rows.length := by omega
      subst hke
      rw [hgetr] at hp
      rw [if_pos hp]
      exact Finset.mem_insert_self _ _
  · intro hm
    by_cases hp : pred r = true
    · rw [if_pos hp] at hm
      rcases Finset.mem_insert.mp hm with h | h
      · subst h
        exact ⟨rows.length, by simp, by rw [hgetr]; exact hp, rfl⟩
      · obtain ⟨k, hk, hp2, rfl⟩ := mem_hitRows.mp h
        exact ⟨k, by simp; omega, by rw [hget k hk]; exact hp2, rfl⟩
    · rw [if_neg hp] at hm
      obtain ⟨k, hk, hp2, rfl⟩ := mem_hitRows.mp hm
      exact ⟨k, by simp; omega, by rw [hget k hk]; exact hp2, rfl⟩

/-- Rows containing a given Single. -/
def sRowSet (rows : List (List ℕ)) (sp : SP) : Finset ℕ :=
  hitRows rows fun r => decide (r.get? sp.1 = some sp.2)

/-- Rows containing a given Interaction. -/
def iRowSet (rows : List (List ℕ)) (i : ℕ) : Finset ℕ :=
  hitRows rows fun r => containsInter r (interSingles cfg i)

/-- Rows containing some member Interaction of a given T-set. -/
def tRowSet (rows : List (List ℕ)) (j : ℕ) : Finset ℕ :=
  hitRows rows fun r =>
    ((allSets cfg).getD j []).any fun i => containsInter r (interSingles cfg i)

/-- The Interaction's row set is the intersection of its member Singles'
canonical row sets. -/
theorem iRowSet_eq_inter {rows : List (List ℕ)} {i : ℕ}
    (hne : interSingles cfg i ≠ []) {m : ℕ} :
    m ∈ iRowSet cfg rows i ↔ ∀ sp ∈ interSingles cfg i, m ∈ sRowSet rows sp := by
  rw [iRowSet, mem_hitRows]
  constructor
  · rintro ⟨k, hk, hp, rfl⟩
    intro sp hsp
    rw [containsInter, List.all_eq_true] at hp
    exact mem_hitRows.mpr ⟨k, hk, hp sp hsp, rfl⟩
  · intro h
    obtain ⟨sp0, hsp0⟩ := List.exists_mem_of_ne_nil _ hne
    obtain ⟨k, hk, hp0, rfl⟩ := mem_hitRows.mp (h sp0 hsp0)
    refine ⟨k, hk, ?_, rfl⟩
    rw [containsInter, List.all_eq_true]
    intro sp hsp
    obtain ⟨k2, hk2, hp2, he⟩ := mem_hitRows.mp (h sp hsp)
    have : k2 = k := by omega
    subst this
    exact hp2

/-- The T-set's row set is the union of its member Interactions' canonical
row sets. -/
theorem tRowSet_eq_union {rows : List (List ℕ)} {j : ℕ} {m : ℕ} :
    m ∈ tRowSet cfg rows j ↔
      ∃ i ∈ (allSets cfg).getD j [], m ∈ iRowSet cfg rows i := by
  rw [tRowSet, mem_hitRows]
  constructor
  · rintro ⟨k, hk, hp, rfl⟩
    rw [List.any_eq_true] at hp
    obtain ⟨i, hi, hc⟩ := hp
    exact ⟨i, hi, mem_hitRows.mpr ⟨k, hk, hc, rfl⟩⟩
  · rintro ⟨i, hi, hm⟩
    obtain ⟨k, hk, hp, rfl⟩ := mem_hitRows.mp hm
    refine ⟨k, hk, ?_, rfl⟩
    rw [List.any_eq_true]
    exact ⟨i, hi, hp⟩

end RowSets


/-! ## Invariant-carrying fold lemmas -/

section FoldInv

variable {α β γ : Type}

theorem foldl_rel (R : α → α → Prop) (hrefl : ∀ s, R s s)
    (htrans : ∀ {a b c}, R a b → R b c → R a c) (f : α → γ → α) :
    ∀ (L : List γ) (s : α), (∀ s x, x ∈ L → R s (f s x)) →
      R s (L.foldl f s) := by
  intro L
  induction L with
  | nil => intro s _; exact hrefl s
  | cons a L ih =>
    intro s h
    simp only [List.foldl_cons]
    exact htrans (h s a (List.mem_cons_self a L))
      (ih (f s a) (fun s x hx => h s x (List.mem_cons_of_mem _ hx)))

theorem foldl_proj_const_inv (proj : α → β) (f : α → γ → α) (I : α → Prop) :
    ∀ (L : List γ) (s : α), I s →
    (∀ s x, x ∈ L → I s → I (f s x)) →
    (∀ s x, x ∈ L → I s → proj (f s x) = proj s) →
    proj (L.foldl f s) = proj s := by
  intro L
  induction L with
  | nil => intro s _ _ _; rfl
  | cons a L ih =>
    intro s hI hpres h
    simp only [List.foldl_cons]
    rw [ih (f s a) (hpres s a (List.mem_cons_self a L) hI)
        (fun s x hx => hpres s x (List.mem_cons_of_mem _ hx))
        (fun s x hx => h s x (List.mem_cons_of_mem _ hx)),
        h s a (List.mem_cons_self a L) hI]

theorem foldl_proj_idem_inv (proj : α → β) (f : α → γ → α) (g : β → β)
    (P : γ → Prop) [DecidablePred P] (I : α → Prop)
    (hg : ∀ b, g (g b) = g b) :
    ∀ (L : List γ) (s : α), I s →
    (∀ s x, x ∈ L → I s → I (f s x)) →
    (∀ s x, x ∈ L → I s → ¬ P x → proj (f s x) = proj s) →
    (∀ s x, x ∈ L → I s → P x → proj (f s x) = g (proj s)) →
    proj (L.foldl f s) = if ∃ x ∈ L, P x then g (proj s) else proj s := by
  intro L
  induction L with
  | nil => intro s _ _ _ _; simp
  | cons a L ih =>
    intro s hI hpres hother hself
    have hI' : I (f s a) := hpres s a (List.mem_cons_self a L) hI
    have hpres' : ∀ s x, x ∈ L → I s → I (f s x) :=
      fun s x hx => hpres s x (List.mem_cons_of_mem _ hx)
    have hother' : ∀ s x, x ∈ L → I s → ¬ P x → proj (f s x) = proj s :=
      fun s x hx => hother s x (List.mem_cons_of_mem _ hx)
    have hself' : ∀ s x, x ∈ L → I s → P x → proj (f s x) = g (proj s) :=
      fun s x hx => hself s x (List.mem_cons_of_mem _ hx)
    simp only [List.foldl_cons]
    by_cases hPa : P a
    · rw [ih (f s a) hI' hpres' hother' hself',
          hself s a (List.mem_cons_self a L) hI hPa]
      have hcons : ∃ x ∈ a :: L, P x := ⟨a, List.mem_cons_self a L, hPa⟩
      rw [if_pos hcons]
      by_cases hL : ∃ x ∈ L, P x
      · rw [if_pos hL, hg]
      · rw [if_neg hL]
    · rw [ih (f s a) hI' hpres' hother' hself',
          hother s a (List.mem_cons_self a L) hI hPa]
      have : (∃ x ∈ a :: L, P x) ↔ (∃ x ∈ L, P x) := by
        simp only [List.mem_cons]
        constructor
        · rintro ⟨x, hx | hx, hPx⟩
          · exact absurd (hx ▸ hPx) hPa
          · exact ⟨x, hx, hPx⟩
        · rintro ⟨x, hx, hPx⟩; exact ⟨x, Or.inr hx, hPx⟩
      simp only [this]

theorem foldl_proj_point_inv (proj : α → β) (f : α → ℕ → α) (g : β → β)
    (i : ℕ) (I : α → Prop) :
    ∀ (L : List ℕ), L.Nodup → ∀ (s : α), I s →
    (∀ s x, x ∈ L → I s → I (f s x)) →
    (∀ s x, x ∈ L → I s → x ≠ i → proj (f s x) = proj s) →
    (∀ s, I s → proj (f s i) = g (proj s)) →
    proj (L.foldl f s) = if i ∈ L then g (proj s) else proj s := by
  intro L
  induction L with
  | nil => intro _ s _ _ _ _; simp
  | cons a L ih =>
    intro hnd s hI hpres hother hself
    have hnd' := hnd.of_cons
    have hI' : I (f s a) := hpres s a (List.mem_cons_self a L) hI
    have hpres' : ∀ s x, x ∈ L → I s → I (f s x) :=
      fun s x hx => hpres s x (List.mem_cons_of_mem _ hx)
    have hother' : ∀ s x, x ∈ L → I s → x ≠ i → proj (f s x) = proj s :=
      fun s x hx => hother s x (List.mem_cons_of_mem _ hx)
    simp only [List.foldl_cons]
    by_cases ha : a = i
    · subst ha
      have hnotin : a ∉ L := (List.nodup_cons.mp hnd).1
      rw [ih hnd' (f s a) hI' hpres' hother' hself, if_neg hnotin,
          hself s hI, if_pos (List.mem_cons_self a L)]
    · rw [ih hnd' (f s a) hI' hpres' hother' hself,
          hother s a (List.mem_cons_self a L) hI ha]
      have hm : (i ∈ a :: L) ↔ (i ∈ L) := by
        constructor
        · intro h
          rcases List.mem_cons.mp h with h1 | h1
          · exact absurd h1.symm ha
          · exact h1
        · exact fun h => List.mem_cons_of_mem _ h
      simp only [hm]

end FoldInv


/-! ## Frame relations -/

section Frames

/-- Equality of all non-entity fields of two states. -/
def NonEnt (s s' : AState) : Prop :=
  s'.score = s.score ∧ s'.total_problems = s.total_problems ∧
  s'.coverage_problems = s.coverage_problems ∧
  s'.location_problems = s.location_problems ∧
  s'.detection_problems = s.detection_problems ∧
  s'.num_tests = s.num_tests ∧ s'.rows = s.rows ∧
  s'.is_covering = s.is_covering ∧ s'.is_locating = s.is_locating ∧
  s'.is_detecting = s.is_detecting ∧ s'.dont_cares = s.dont_cares ∧
  s'.permutation = s.permutation

theorem nonEnt_refl (s : AState) : NonEnt s s :=
  ⟨rfl, rfl, rfl, rfl, rfl, rfl, rfl, rfl, rfl, rfl, rfl, rfl⟩

theorem nonEnt_trans {a b c : AState} (h1 : NonEnt a b) (h2 : NonEnt b c) :
    NonEnt a c := by
  obtain ⟨a1, a2, a3, a4, a5, a6, a7, a8, a9, a10, a11, a12⟩ := h1
  obtain ⟨b1, b2, b3, b4, b5, b6, b7, b8, b9, b10, b11, b12⟩ := h2
  exact ⟨b1.trans a1, b2.trans a2, b3.trans a3, b4.trans a4, b5.trans a5,
    b6.trans a6, b7.trans a7, b8.trans a8, b9.trans a9, b10.trans a10,
    b11.trans a11, b12.trans a12⟩

theorem nonEnt_updSingle (s : AState) (k : ℕ) (f : SingleSt → SingleSt) :
    NonEnt s (updSingle s k f) := nonEnt_refl s

theorem nonEnt_updInter (s : AState) (i : ℕ) (f : InterSt → InterSt) :
    NonEnt s (updInter s i f) := nonEnt_refl s

theorem nonEnt_updT (s : AState) (j : ℕ) (f : TSt → TSt) :
    NonEnt s (updT s j f) := nonEnt_refl s

theorem nonEnt_bumpSingles (cfg : Config) (s : AState) (sps : List SP)
    (f : SingleSt → SingleSt) : NonEnt s (bumpSingles cfg s sps f) := by
  unfold bumpSingles
  exact foldl_rel NonEnt nonEnt_refl (fun h1 h2 => nonEnt_trans h1 h2) _ sps s
    (fun s sp _ => nonEnt_updSingle s _ f)

/-- The lengths of the three entity lists, preserved by every update. -/
def LensEq (s s' : AState) : Prop :=
  s'.singles.length = s.singles.length ∧
  s'.inters.length = s.inters.length ∧ s'.tsets.length = s.tsets.length

theorem lensEq_refl (s : AState) : LensEq s s := ⟨rfl, rfl, rfl⟩

theorem lensEq_trans {a b c : AState} (h1 : LensEq a b) (h2 : LensEq b c) :
    LensEq a c :=
  ⟨h2.1.trans h1.1, h2.2.1.trans h1.2.1, h2.2.2.trans h1.2.2⟩

theorem lensEq_updSingle (s : AState) (k : ℕ) (f : SingleSt → SingleSt) :
    LensEq s (updSingle s k f) := ⟨by simp [updSingle, updN_length], rfl, rfl⟩

theorem lensEq_updInter (s : AState) (i : ℕ) (f : InterSt → InterSt) :
    LensEq s (updInter s i f) := ⟨rfl, by simp [updInter, updN_length], rfl⟩

theorem lensEq_updT (s : AState) (j : ℕ) (f : TSt → TSt) :
    LensEq s (updT s j f) := ⟨rfl, rfl, by simp [updT, updN_length]⟩

theorem lensEq_bumpSingles (cfg : Config) (s : AState) (sps : List SP)
    (f : SingleSt → SingleSt) : LensEq s (bumpSingles cfg s sps f) := by
  unfold bumpSingles
  exact foldl_rel LensEq lensEq_refl (fun h1 h2 => lensEq_trans h1 h2) _ sps s
    (fun s sp _ => lensEq_updSingle s _ f)

theorem lensEq_bumpSS (cfg : Config) (f : SingleSt → SingleSt) (ds : ℤ)
    (s : AState) (sp : SP) : LensEq s (bumpSS cfg f ds s sp) := by
  have h1 : LensEq s (updSingle s (singleIdx cfg sp) f) := lensEq_updSingle s _ f
  exact h1

theorem lensEq_bumpSinglesScore (cfg : Config) (s : AState) (sps : List SP)
    (f : SingleSt → SingleSt) (ds : ℤ) :
    LensEq s (bumpSinglesScore cfg s sps f ds) := by
  unfold bumpSinglesScore
  exact foldl_rel LensEq lensEq_refl (fun h1 h2 => lensEq_trans h1 h2) _ sps s
    (fun s sp _ => lensEq_bumpSS cfg f ds s sp)

end Frames

/-! ## Generic single-field preservation -/

section FieldPreservation

variable {δ : Type} (cfg : Config)

/-- Any Single field that the bump function does not change is unchanged for
every Single. -/
theorem bumpSingles_sGet_field (s : AState) (sps : List SP)
    (f : SingleSt → SingleSt) (φ : SingleSt → δ)
    (hf : ∀ e, φ (f e) = φ e) (k : ℕ) :
    φ (sGet (bumpSingles cfg s sps f) k) = φ (sGet s k) := by
  unfold bumpSingles
  refine foldl_proj_const (fun s => φ (sGet s k)) _ sps s ?_
  intro s sp _
  show φ (sGet (updSingle s (singleIdx cfg sp) f) k) = φ (sGet s k)
  rw [sGet_updSingle]
  split
  · exact hf _
  · rfl

theorem bumpSinglesScore_sGet_field (s : AState) (sps : List SP)
    (f : SingleSt → SingleSt) (ds : ℤ) (φ : SingleSt → δ)
    (hf : ∀ e, φ (f e) = φ e) (k : ℕ) :
    φ (sGet (bumpSinglesScore cfg s sps f ds) k) = φ (sGet s k) := by
  unfold bumpSinglesScore
  refine foldl_proj_const (fun s => φ (sGet s k)) _ sps s ?_
  intro s sp _
  show φ (sGet (bumpSS cfg f ds s sp) k) = φ (sGet s k)
  have h1 : sGet (bumpSS cfg f ds s sp) k
      = sGet (updSingle s (singleIdx cfg sp) f) k := rfl
  rw [h1, sGet_updSingle]
  split
  · exact hf _
  · rfl

/-- Row-insertion characterization for a Single bump with `insert n`. -/
theorem bumpSingles_insert_sGet (s : AState) (sps : List SP) (n : ℕ) (k : ℕ) :
    (sGet (bumpSingles cfg s sps
        (fun e => { e with rows := insert n e.rows })) k).rows =
      if ∃ sp ∈ sps, singleIdx cfg sp = k ∧ k < s.singles.length then
        insert n (sGet s k).rows
      else (sGet s k).rows := by
  unfold bumpSingles
  refine foldl_proj_idem_inv (fun s => (sGet s k).rows) _ (insert n)
    (fun sp => singleIdx cfg sp = k ∧ k < s.singles.length)
    (fun s' => s'.singles.length = s.singles.length)
    (fun b => Finset.insert_idem n b) sps s rfl ?_ ?_ ?_
  · intro s' sp _ hI
    have := (lensEq_updSingle s' (singleIdx cfg sp)
      (fun e => { e with rows := insert n e.rows })).1
    rw [this, hI]
  · intro s' sp _ hI hP
    show (sGet (updSingle s' (singleIdx cfg sp) _) k).rows = (sGet s' k).rows
    rw [sGet_updSingle]
    rw [if_neg]
    intro hc
    exact hP ⟨hc.1.symm, by rw [← hI]; exact hc.1 ▸ hc.2⟩
  · intro s' sp _ hI hP
    show (sGet (updSingle s' (singleIdx cfg sp) _) k).rows
        = insert n (sGet s' k).rows
    rw [sGet_updSingle, if_pos ⟨hP.1.symm, by rw [hI]; exact hP.1.symm ▸ hP.2⟩]

end FieldPreservation

/-! ## `insertPhase` characterization -/

section InsertPhase

variable (cfg : Config)

theorem nonEnt_insOne (n : ℕ) (s : AState) (i : ℕ) :
    NonEnt s (insOne cfg n s i) := by
  unfold insOne
  have h1 := nonEnt_bumpSingles cfg s (interSingles cfg i)
    (fun e => { e with rows := insert n e.rows })
  have h2 := nonEnt_updInter (bumpSingles cfg s (interSingles cfg i)
    (fun e => { e with rows := insert n e.rows })) i
    (fun e => { e with rows := insert n e.rows })
  have h3 := foldl_rel NonEnt nonEnt_refl (fun h1 h2 => nonEnt_trans h1 h2)
    (fun s j => updT s j (fun e => { e with rows := insert n e.rows }))
    (setsContaining cfg i)
    (updInter (bumpSingles cfg s (interSingles cfg i)
      (fun e => { e with rows := insert n e.rows })) i
      (fun e => { e with rows := insert n e.rows }))
    (fun s j _ => nonEnt_updT s j _)
  exact nonEnt_trans (nonEnt_trans h1 h2) h3

theorem lensEq_insOne (n : ℕ) (s : AState) (i : ℕ) :
    LensEq s (insOne cfg n s i) := by
  unfold insOne
  have h1 := lensEq_bumpSingles cfg s (interSingles cfg i)
    (fun e => { e with rows := insert n e.rows })
  have h2 := lensEq_updInter (bumpSingles cfg s (interSingles cfg i)
    (fun e => { e with rows := insert n e.rows })) i
    (fun e => { e with rows := insert n e.rows })
  have h3 := foldl_rel LensEq lensEq_refl (fun h1 h2 => lensEq_trans h1 h2)
    (fun s j => updT s j (fun e => { e with rows := insert n e.rows }))
    (setsContaining cfg i)
    (updInter (bumpSingles cfg s (interSingles cfg i)
      (fun e => { e with rows := insert n e.rows })) i
      (fun e => { e with rows := insert n e.rows }))
    (fun s j _ => lensEq_updT s j _)
  exact lensEq_trans (lensEq_trans h1 h2) h3

theorem nonEnt_insertPhase (s : AState) (rowI : List ℕ) (n : ℕ) :
    NonEnt s (insertPhase cfg s rowI n) := by
  unfold insertPhase
  exact foldl_rel NonEnt nonEnt_refl (fun h1 h2 => nonEnt_trans h1 h2) _ rowI s
    (fun s i _ => nonEnt_insOne cfg n s i)

theorem lensEq_insertPhase (s : AState) (rowI : List ℕ) (n : ℕ) :
    LensEq s (insertPhase cfg s rowI n) := by
  unfold insertPhase
  exact foldl_rel LensEq lensEq_refl (fun h1 h2 => lensEq_trans h1 h2) _ rowI s
    (fun s i _ => lensEq_insOne cfg n s i)

theorem insOne_sGet_rows (n : ℕ) (s : AState) (i : ℕ) (k : ℕ) :
    (sGet (insOne cfg n s i) k).rows =
      if ∃ sp ∈ interSingles cfg i, singleIdx cfg sp = k ∧
          k < s.singles.length then
        insert n (sGet s k).rows
      else (sGet s k).rows := by
  unfold insOne
  have h2 : ∀ (s' : AState),
      sGet ((setsContaining cfg i).foldl
        (fun s j => updT s j (fun e => { e with rows := insert n e.rows })) s') k
      = sGet s' k := by
    intro s'
    refine foldl_proj_const (fun s => sGet s k) _ _ s' ?_
    intro s j _
    rfl
  rw [h2]
  have h3 : sGet (updInter (bumpSingles cfg s (interSingles cfg i)
      (fun e => { e with rows := insert n e.rows })) i
      (fun e => { e with rows := insert n e.rows })) k
      = sGet (bumpSingles cfg s (interSingles cfg i)
        (fun e => { e with rows := insert n e.rows })) k := rfl
  rw [h3]
  exact bumpSingles_insert_sGet cfg s (interSingles cfg i) n k

theorem insOne_sGet_field {δ : Type} (n : ℕ) (s : AState) (i : ℕ)
    (φ : SingleSt → δ) (hf : ∀ e r, φ { e with rows := r } = φ e) (k : ℕ) :
    φ (sGet (insOne cfg n s i) k) = φ (sGet s k) := by
  unfold insOne
  have h2 : ∀ (s' : AState),
      sGet ((setsContaining cfg i).foldl
        (fun s j => updT s j (fun e => { e with rows := insert n e.rows })) s') k
      = sGet s' k := by
    intro s'
    refine foldl_proj_const (fun s => sGet s k) _ _ s' ?_
    intro s j _
    rfl
  rw [h2]
  exact bumpSingles_sGet_field cfg s (interSingles cfg i) _ φ
    (fun e => hf e _) k

theorem insOne_iGet (n : ℕ) (s : AState) (i : ℕ) (i' : ℕ) :
    iGet (insOne cfg n s i) i' =
      if i' = i ∧ i < s.inters.length then
        { iGet s i' with rows := insert n (iGet s i').rows }
      else iGet s i' := by
  unfold insOne
  have h2 : ∀ (s' : AState),
      iGet ((setsContaining cfg i).foldl
        (fun s j => updT s j (fun e => { e with rows := insert n e.rows })) s') i'
      = iGet s' i' := by
    intro s'
    refine foldl_proj_const (fun s => iGet s i') _ _ s' ?_
    intro s j _
    rfl
  rw [h2]
  have hb := (lensEq_bumpSingles cfg s (interSingles cfg i)
    (fun e => { e with rows := insert n e.rows })).2.1
  have hbi : ∀ i2, iGet (bumpSingles cfg s (interSingles cfg i)
      (fun e => { e with rows := insert n e.rows })) i2 = iGet s i2 := by
    intro i2
    have : (bumpSingles cfg s (interSingles cfg i)
        (fun e => { e with rows := insert n e.rows })).inters = s.inters :=
      bumpSingles_inters cfg s _ _
    simp [iGet, this]
  rw [iGet_updInter, hb]
  simp only [hbi]

theorem insOne_tGet (n : ℕ) (s : AState) (i : ℕ) (j : ℕ)
    (hj : j < s.tsets.length) :
    tGet (insOne cfg n s i) j =
      if j ∈ setsContaining cfg i then
        { tGet s j with rows := insert n (tGet s j).rows }
      else tGet s j := by
  unfold insOne
  have hbt : (bumpSingles cfg s (interSingles cfg i)
      (fun e => { e with rows := insert n e.rows })).tsets = s.tsets :=
    bumpSingles_tsets cfg s _ _
  have hte : ∀ j2, tGet (updInter (bumpSingles cfg s (interSingles cfg i)
      (fun e => { e with rows := insert n e.rows })) i
      (fun e => { e with rows := insert n e.rows })) j2 = tGet s j2 := by
    intro j2
    simp [tGet, hbt]
  have htl : (updInter (bumpSingles cfg s (interSingles cfg i)
      (fun e => { e with rows := insert n e.rows })) i
      (fun e => { e with rows := insert n e.rows })).tsets.length
      = s.tsets.length := by
    simp [hbt]
  refine Eq.trans (foldl_proj_point_inv (fun s => tGet s j) _
    (fun e => { e with rows := insert n e.rows }) j
    (fun s' => s'.tsets.length = s.tsets.length)
    (setsContaining cfg i) ((List.nodup_range _).filter _) _ htl ?_ ?_ ?_) ?_
  · intro s' j2 _ hI
    rw [(lensEq_updT s' j2 _).2.2, hI]
  · intro s' j2 _ _ hne
    exact tGet_updT_ne s' j2 _ j (Ne.symm hne)
  · intro s' hI
    exact tGet_updT_self s' j _ (by rw [hI]; exact hj)
  · simp only [hte]

theorem insertPhase_sGet_rows (s : AState) (rowI : List ℕ) (n : ℕ) (sp : SP)
    (hsp : sp ∈ allSingles cfg)
    (hlen : s.singles.length = (allSingles cfg).length)
    (hsub : ∀ i ∈ rowI, i < (allInteractions cfg).length) :
    (sGet (insertPhase cfg s rowI n) (singleIdx cfg sp)).rows =
      if ∃ i ∈ rowI, sp ∈ interSingles cfg i then
        insert n (sGet s (singleIdx cfg sp)).rows
      else (sGet s (singleIdx cfg sp)).rows := by
  unfold insertPhase
  refine foldl_proj_idem_inv (fun s => (sGet s (singleIdx cfg sp)).rows)
    (insOne cfg n) (insert n) (fun i => sp ∈ interSingles cfg i)
    (fun s' => s'.singles.length = (allSingles cfg).length)
    (fun b => Finset.insert_idem n b) rowI s hlen ?_ ?_ ?_
  · intro s' i _ hI
    rw [(lensEq_insOne cfg n s' i).1, hI]
  · intro s' i hi hI hP
    dsimp only
    rw [insOne_sGet_rows cfg n s' i (singleIdx cfg sp), if_neg]
    rintro ⟨sp', hsp', he, -⟩
    exact hP (singleIdx_inj cfg (interSingles_sub cfg i (hsub i hi) sp' hsp')
      hsp he ▸ hsp')
  · intro s' i hi hI hP
    dsimp only
    rw [insOne_sGet_rows cfg n s' i (singleIdx cfg sp), if_pos]
    exact ⟨sp, hP, rfl, by rw [hI]; exact (singleIdx_spec cfg hsp).1⟩

theorem insertPhase_iGet (s : AState) (rowI : List ℕ) (n : ℕ) (i : ℕ)
    (hnd : rowI.Nodup) (hi : i < s.inters.length) :
    iGet (insertPhase cfg s rowI n) i =
      if i ∈ rowI then { iGet s i with rows := insert n (iGet s i).rows }
      else iGet s i := by
  unfold insertPhase
  refine foldl_proj_point_inv (fun s => iGet s i) (insOne cfg n)
    (fun e => { e with rows := insert n e.rows }) i
    (fun s' => s'.inters.length = s.inters.length) rowI hnd s rfl ?_ ?_ ?_
  · intro s' i2 _ hI
    rw [(lensEq_insOne cfg n s' i2).2.1, hI]
  · intro s' i2 _ hI hne
    dsimp only
    rw [insOne_iGet cfg n s' i2 i, if_neg (fun hc => hne hc.1.symm)]
  · intro s' hI
    dsimp only
    rw [insOne_iGet cfg n s' i i, if_pos ⟨rfl, by rw [hI]; exact hi⟩]

theorem insertPhase_tGet (s : AState) (rowI : List ℕ) (n : ℕ) (j : ℕ)
    (hj : j < s.tsets.length) :
    tGet (insertPhase cfg s rowI n) j =
      if ∃ i ∈ rowI, j ∈ setsContaining cfg i then
        { tGet s j with rows := insert n (tGet s j).rows }
      else tGet s j := by
  unfold insertPhase
  refine foldl_proj_idem_inv (fun s => tGet s j) (insOne cfg n)
    (fun e => { e with rows := insert n e.rows })
    (fun i => j ∈ setsContaining cfg i)
    (fun s' => s'.tsets.length = s.tsets.length)
    (fun e => by cases e; simp [Finset.insert_idem]) rowI s rfl ?_ ?_ ?_
  · intro s' i _ hI
    rw [(lensEq_insOne cfg n s' i).2.2, hI]
  · intro s' i _ hI hP
    dsimp only
    rw [insOne_tGet cfg n s' i j (by rw [hI]; exact hj), if_neg hP]
  · intro s' i _ hI hP
    dsimp only
    rw [insOne_tGet cfg n s' i j (by rw [hI]; exact hj), if_pos hP]

theorem insertPhase_sGet_field {δ : Type} (s : AState) (rowI : List ℕ)
    (n : ℕ) (φ : SingleSt → δ) (hf : ∀ e r, φ { e with rows := r } = φ e)
    (k : ℕ) :
    φ (sGet (insertPhase cfg s rowI n) k) = φ (sGet s k) := by
  unfold insertPhase
  refine foldl_proj_const (fun s => φ (sGet s k)) _ rowI s ?_
  intro s' i _
  exact insOne_sGet_field cfg n s' i φ hf k

end InsertPhase


/-! ## Association-list lemmas and pure views of the detection passes -/

section AssocDeltas

theorem aSet_cons (e : ℕ × ℤ) (l : List (ℕ × ℤ)) (k : ℕ) (v : ℤ) :
    aSet (e :: l) k v = (if e.1 = k then (k, v) else e) :: aSet l k v := rfl

theorem aGet_cons (e : ℕ × ℤ) (l : List (ℕ × ℤ)) (k : ℕ) :
    aGet (e :: l) k = if e.1 = k then e.2 else aGet l k := by
  simp only [aGet, List.find?]
  by_cases he : e.1 = k
  · simp [he]
  · simp [he]

theorem map_fst_aSet (l : List (ℕ × ℤ)) (k : ℕ) (v : ℤ) :
    (aSet l k v).map Prod.fst = l.map Prod.fst := by
  induction l with
  | nil => rfl
  | cons e l ih =>
    rw [aSet_cons, List.map_cons, List.map_cons, ih]
    by_cases he : e.1 = k
    · simp [he]
    · simp [he]

theorem aGet_aSet_ne (l : List (ℕ × ℤ)) (k : ℕ) (v : ℤ) (k' : ℕ)
    (h : k' ≠ k) : aGet (aSet l k v) k' = aGet l k' := by
  induction l with
  | nil => rfl
  | cons e l ih =>
    rw [aSet_cons, aGet_cons, aGet_cons]
    by_cases he : e.1 = k
    · rw [if_pos he]
      have h1 : ¬ (((k, v) : ℕ × ℤ).1 = k') := Ne.symm h
      have h2 : ¬ (e.1 = k') := fun hc => h (by rw [← hc, he])
      rw [if_neg h1, if_neg h2, ih]
    · rw [if_neg he]
      by_cases he2 : e.1 = k'
      · rw [if_pos he2, if_pos he2]
      · rw [if_neg he2, if_neg he2, ih]

theorem aGet_aSet_self (l : List (ℕ × ℤ)) (k : ℕ) (v : ℤ)
    (h : k ∈ l.map Prod.fst) : aGet (aSet l k v) k = v := by
  induction l with
  | nil => simp at h
  | cons e l ih =>
    rw [aSet_cons, aGet_cons]
    by_cases he : e.1 = k
    · rw [if_pos he]
      simp
    · rw [if_neg he, if_neg he]
      simp only [List.map_cons, List.mem_cons] at h
      rcases h with h | h
      · exact absurd h.symm he
      · exact ih h

theorem all_congr_mem {α : Type} {l : List α} {p q : α → Bool}
    (h : ∀ x ∈ l, p x = q x) : l.all p = l.all q := by
  induction l with
  | nil => rfl
  | cons a l ih =>
    simp only [List.all_cons]
    rw [h a (List.mem_cons_self _ _),
        ih (fun x hx => h x (List.mem_cons_of_mem _ hx))]

/-- Pure view of the `other_sets` pass over an interaction's deltas. -/
def pass1D (others : List ℕ) (dl : List (ℕ × ℤ)) : List (ℕ × ℤ) :=
  others.foldl (fun dl j => aSet dl j (aGet dl j - 1)) dl

/-- Pure view of the `for (auto& kv : deltas)` pass, threading the
`is_detectable` verdict. -/
def pass2DB (dv : ℤ) (keys : List ℕ) (dlb : List (ℕ × ℤ) × Bool) :
    List (ℕ × ℤ) × Bool :=
  keys.foldl (fun dlb j =>
    let v := aGet dlb.1 j + 1
    (aSet dlb.1 j v, dlb.2 && !(decide (v < dv)))) dlb

theorem map_fst_pass1D (others : List ℕ) (dl : List (ℕ × ℤ)) :
    (pass1D others dl).map Prod.fst = dl.map Prod.fst := by
  unfold pass1D
  induction others generalizing dl with
  | nil => rfl
  | cons j others ih =>
    simp only [List.foldl_cons]
    rw [ih, map_fst_aSet]

theorem aGet_pass1D (others : List ℕ) (hnd : others.Nodup)
    (dl : List (ℕ × ℤ)) (hsub : ∀ x ∈ others, x ∈ dl.map Prod.fst) (k : ℕ) :
    aGet (pass1D others dl) k =
      if k ∈ others then aGet dl k - 1 else aGet dl k := by
  unfold pass1D
  induction others generalizing dl with
  | nil => simp
  | cons j others ih =>
    simp only [List.foldl_cons]
    have hsub' : ∀ x ∈ others, x ∈ (aSet dl j (aGet dl j - 1)).map Prod.fst := by
      intro x hx
      rw [map_fst_aSet]
      exact hsub x (List.mem_cons_of_mem _ hx)
    by_cases hk : k = j
    · subst hk
      have hnotin : k ∉ others := (List.nodup_cons.mp hnd).1
      rw [ih hnd.of_cons _ hsub', if_neg hnotin,
          aGet_aSet_self dl k _ (hsub k (List.mem_cons_self _ _)),
          if_pos (List.mem_cons_self _ _)]
    · rw [ih hnd.of_cons _ hsub', aGet_aSet_ne dl j _ k hk]
      have : (k ∈ j :: others) ↔ (k ∈ others) := by
        constructor
        · intro h
          rcases List.mem_cons.mp h with h1 | h1
          · exact absurd h1 hk
          · exact h1
        · exact fun h => List.mem_cons_of_mem _ h
      simp only [this]

theorem pass2DB_char (dv : ℤ) :
    ∀ (keys : List ℕ) (dl : List (ℕ × ℤ)) (b : Bool), keys.Nodup →
      ((pass2DB dv keys (dl, b)).1.map Prod.fst = dl.map Prod.fst) ∧
      (∀ k, k ∈ dl.map Prod.fst →
        aGet (pass2DB dv keys (dl, b)).1 k =
          if k ∈ keys then aGet dl k + 1 else aGet dl k) ∧
      ((pass2DB dv keys (dl, b)).2 =
        (b && keys.all fun k => !(decide (aGet dl k + 1 < dv)))) := by
  intro keys
  induction keys with
  | nil => intro dl b _; exact ⟨rfl, fun k _ => by simp [pass2DB], by simp [pass2DB]⟩
  | cons j keys ih =>
    intro dl b hnd
    have hstep : pass2DB dv (j :: keys) (dl, b) =
        pass2DB dv keys (aSet dl j (aGet dl j + 1),
          b && !(decide (aGet dl j + 1 < dv))) := rfl
    obtain ⟨ih1, ih2, ih3⟩ := ih (aSet dl j (aGet dl j + 1))
      (b && !(decide (aGet dl j + 1 < dv))) hnd.of_cons
    have hjne : j ∉ keys := (List.nodup_cons.mp hnd).1
    refine ⟨?_, ?_, ?_⟩
    · rw [hstep, ih1, map_fst_aSet]
    · intro k hk
      rw [hstep, ih2 k (by rw [map_fst_aSet]; exact hk)]
      by_cases hkj : k = j
      · subst hkj
        rw [if_neg hjne, if_pos (List.mem_cons_self _ _),
            aGet_aSet_self dl k _ hk]
      · rw [aGet_aSet_ne dl j _ k hkj]
        have : (k ∈ j :: keys) ↔ (k ∈ keys) := by
          constructor
          · intro h
            rcases List.mem_cons.mp h with h1 | h1
            · exact absurd h1 hkj
            · exact h1
          · exact fun h => List.mem_cons_of_mem _ h
        simp only [this]
    · rw [hstep, ih3]
      simp only [List.all_cons, Bool.and_assoc]
      have hcg : (keys.all fun k =>
            !decide (aGet (aSet dl j (aGet dl j + 1)) k + 1 < dv))
          = (keys.all fun k => !decide (aGet dl k + 1 < dv)) := by
        refine all_congr_mem ?_
        intro k hk
        rw [aGet_aSet_ne dl j _ k (fun hc => hjne (hc ▸ hk))]
      rw [hcg]

end AssocDeltas


/-! ## Coverage / detection phase characterization -/

section CoverDetect

variable (cfg : Config)

/-- Pure entry-level effect of the coverage branch on the interaction's own
record. -/
def covEntry (e : InterSt) : InterSt :=
  if e.is_covered then e else { e with is_covered := true }

/-- Pure entry-level effect of the detection branch on the interaction's own
record. -/
def detEntry (i : ℕ) (rowS : List ℕ) (e : InterSt) : InterSt :=
  if e.is_detectable then e else
    let others := rowS.filter fun j => i ∉ (allSets cfg).getD j []
    let dl1 := pass1D others e.deltas
    let r := pass2DB (cfg.delta : ℤ) (dl1.map Prod.fst) (dl1, true)
    { e with deltas := r.1, is_detectable := r.2 }

/-- Pure entry-level effect of one `coverDetectOne` iteration. -/
def cdEntry (i : ℕ) (rowS : List ℕ) (e : InterSt) : InterSt :=
  if cfg.p = PMode.all then detEntry cfg i rowS (covEntry e) else covEntry e

/-- Everything the coverage/detection loop leaves alone. -/
def CDFrame (s s' : AState) : Prop :=
  s'.rows = s.rows ∧ s'.num_tests = s.num_tests ∧
  s'.dont_cares = s.dont_cares ∧ s'.permutation = s.permutation ∧
  s'.is_locating = s.is_locating ∧
  (∀ k, (sGet s' k).rows = (sGet s k).rows) ∧
  (∀ j, tGet s' j = tGet s j) ∧ LensEq s s'

theorem cdFrame_refl (s : AState) : CDFrame s s :=
  ⟨rfl, rfl, rfl, rfl, rfl, fun _ => rfl, fun _ => rfl, lensEq_refl s⟩

theorem cdFrame_trans {a b c : AState} (h1 : CDFrame a b) (h2 : CDFrame b c) :
    CDFrame a c := by
  obtain ⟨a1, a2, a3, a4, a5, a6, a7, a8⟩ := h1
  obtain ⟨b1, b2, b3, b4, b5, b6, b7, b8⟩ := h2
  exact ⟨b1.trans a1, b2.trans a2, b3.trans a3, b4.trans a4, b5.trans a5,
    fun k => (b6 k).trans (a6 k), fun j => (b7 j).trans (a7 j),
    lensEq_trans a8 b8⟩

theorem cdFrame_updInter (s : AState) (i : ℕ) (f : InterSt → InterSt) :
    CDFrame s (updInter s i f) :=
  ⟨rfl, rfl, rfl, rfl, rfl, fun _ => rfl, fun _ => rfl, lensEq_updInter s i f⟩

theorem cdFrame_bumpSinglesScore (s : AState) (sps : List SP)
    (f : SingleSt → SingleSt) (ds : ℤ) (hf : ∀ e, (f e).rows = e.rows) :
    CDFrame s (bumpSinglesScore cfg s sps f ds) := by
  refine ⟨bumpSinglesScore_rows cfg s sps f ds,
    bumpSinglesScore_num_tests cfg s sps f ds, ?_, ?_, ?_,
    fun k => bumpSinglesScore_sGet_rows cfg s sps f ds hf k, ?_,
    lensEq_bumpSinglesScore cfg s sps f ds⟩
  · unfold bumpSinglesScore
    exact foldl_proj_const AState.dont_cares _ sps s (fun s sp _ => rfl)
  · unfold bumpSinglesScore
    exact foldl_proj_const AState.permutation _ sps s (fun s sp _ => rfl)
  · unfold bumpSinglesScore
    exact foldl_proj_const AState.is_locating _ sps s (fun s sp _ => rfl)
  · intro j
    unfold bumpSinglesScore
    exact foldl_proj_const (fun s => tGet s j) _ sps s (fun s sp _ => rfl)

/-- Replacing only counters and the `is_covering`/`is_detecting` flags keeps
the coverage/detection frame. -/
theorem cdFrame_fields (s : AState) (scv tpv cpv lpv dpv : ℤ)
    (covv detv : Bool) :
    CDFrame s { s with score := scv, total_problems := tpv,
                       coverage_problems := cpv, location_problems := lpv,
                       detection_problems := dpv, is_covering := covv,
                       is_detecting := detv } :=
  ⟨rfl, rfl, rfl, rfl, rfl, fun _ => rfl, fun _ => rfl, lensEq_refl _⟩

theorem cdFrame_coverTail (s2 : AState) :
    CDFrame s2 (
      let s3 : AState := { s2 with score := s2.score - 1,
                                   coverage_problems := s2.coverage_problems - 1 }
      if s3.coverage_problems = 0 then { s3 with is_covering := true }
      else s3) := by
  dsimp only
  split
  · exact cdFrame_fields s2 _ _ _ _ _ _ _
  · exact cdFrame_fields s2 _ _ _ _ _ _ _

theorem cdFrame_coverOne (s : AState) (i : ℕ) :
    CDFrame s (coverOne cfg s i) := by
  unfold coverOne
  split
  · exact cdFrame_refl s
  · refine cdFrame_trans
      (cdFrame_updInter s i (fun e => { e with is_covered := true })) ?_
    refine cdFrame_trans (cdFrame_bumpSinglesScore cfg
      (updInter s i (fun e => { e with is_covered := true }))
      (interSingles cfg i) (fun e => { e with c_issues := e.c_issues - 1 })
      (-1) (fun e => rfl)) ?_
    exact cdFrame_coverTail _

theorem coverOne_iGet_ne (s : AState) (i i' : ℕ) (h : i' ≠ i) :
    iGet (coverOne cfg s i) i' = iGet s i' := by
  unfold coverOne
  split
  · rfl
  · have hb := bumpSinglesScore_inters cfg
      (updInter s i (fun e => { e with is_covered := true }))
      (interSingles cfg i) (fun e => { e with c_issues := e.c_issues - 1 }) (-1)
    dsimp only
    split
    · simp only [iGet, hb, updInter_inters_eq]
      exact getD_updN_ne _ _ _ _ _ h
    · simp only [iGet, hb, updInter_inters_eq]
      exact getD_updN_ne _ _ _ _ _ h

theorem coverOne_iGet_self (s : AState) (i : ℕ) (hi : i < s.inters.length) :
    iGet (coverOne cfg s i) i = covEntry (iGet s i) := by
  unfold coverOne covEntry
  split
  · rfl
  · have hb := bumpSinglesScore_inters cfg
      (updInter s i (fun e => { e with is_covered := true }))
      (interSingles cfg i) (fun e => { e with c_issues := e.c_issues - 1 }) (-1)
    dsimp only
    split
    · simp only [iGet, hb, updInter_inters_eq]
      rw [getD_updN_self s.inters i _ default hi]
    · simp only [iGet, hb, updInter_inters_eq]
      rw [getD_updN_self s.inters i _ default hi]

end CoverDetect


section DetectPhase

variable (cfg : Config)

/-- Replace an Interaction entry's deltas map. -/
def withDeltas (e : InterSt) (dl : List (ℕ × ℤ)) : InterSt :=
  { e with deltas := dl }

/-- One `other_sets`-loop decrement on the entry's own deltas map. -/
def deltaDec (e : InterSt) (j : ℕ) : InterSt :=
  withDeltas e (aSet e.deltas j (aGet e.deltas j - 1))

theorem withDeltas_self (e : InterSt) : withDeltas e e.deltas = e := by
  cases e
  rfl

theorem withDeltas_deltas (e : InterSt) (dl : List (ℕ × ℤ)) :
    (withDeltas e dl).deltas = dl := rfl

theorem cdFrame_pass1Step (i : ℕ) (s : AState) (j : ℕ) :
    CDFrame s (pass1Step cfg i s j) := by
  unfold pass1Step
  dsimp only
  refine cdFrame_trans (b := if aGet (iGet s i).deltas j ≤ (cfg.delta : ℤ) then
      bumpSinglesScore cfg s (interSingles cfg i)
        (fun e => { e with d_issues := e.d_issues + 1 }) 1 else s) ?_ ?_
  · split
    · exact cdFrame_bumpSinglesScore cfg s (interSingles cfg i) _ 1
        (fun e => rfl)
    · exact cdFrame_refl s
  · exact cdFrame_updInter _ i _

theorem pass1Step_iGet_ne (i : ℕ) (s : AState) (j : ℕ) (i' : ℕ)
    (h : i' ≠ i) : iGet (pass1Step cfg i s j) i' = iGet s i' := by
  unfold pass1Step
  dsimp only
  have hb : ∀ (s2 : AState), iGet (bumpSinglesScore cfg s2
      (interSingles cfg i) (fun e => { e with d_issues := e.d_issues + 1 })
      1) i' = iGet s2 i' := by
    intro s2
    have := bumpSinglesScore_inters cfg s2 (interSingles cfg i)
      (fun e => { e with d_issues := e.d_issues + 1 }) 1
    simp [iGet, this]
  split
  · rw [iGet_updInter_ne _ i _ i' h, hb]
  · rw [iGet_updInter_ne _ i _ i' h]

theorem pass1Step_iGet_self (i : ℕ) (s : AState) (j : ℕ)
    (hi : i < s.inters.length) :
    iGet (pass1Step cfg i s j) i = deltaDec (iGet s i) j := by
  unfold pass1Step deltaDec withDeltas
  dsimp only
  have hb : ∀ (s2 : AState), iGet (bumpSinglesScore cfg s2
      (interSingles cfg i) (fun e => { e with d_issues := e.d_issues + 1 })
      1) i = iGet s2 i := by
    intro s2
    have := bumpSinglesScore_inters cfg s2 (interSingles cfg i)
      (fun e => { e with d_issues := e.d_issues + 1 }) 1
    simp [iGet, this]
  split
  · have hlen : (bumpSinglesScore cfg s (interSingles cfg i)
        (fun e => { e with d_issues := e.d_issues + 1 }) 1).inters.length
        = s.inters.length := by
      rw [bumpSinglesScore_inters]
    rw [iGet_updInter_self _ i _ (by rw [hlen]; exact hi), hb]
  · rw [iGet_updInter_self _ i _ hi]

theorem pass1_fold (i : ℕ) (others : List ℕ) :
    ∀ (s : AState), i < s.inters.length →
      iGet (others.foldl (pass1Step cfg i) s) i =
        withDeltas (iGet s i) (pass1D others (iGet s i).deltas) := by
  induction others with
  | nil =>
    intro s _
    show iGet s i = _
    rw [show pass1D [] (iGet s i).deltas = (iGet s i).deltas from rfl,
        withDeltas_self]
  | cons j others ih =>
    intro s hi
    simp only [List.foldl_cons]
    have hlen : i < (pass1Step cfg i s j).inters.length := by
      rw [(cdFrame_pass1Step cfg i s j).2.2.2.2.2.2.2.2.1]
      exact hi
    rw [ih (pass1Step cfg i s j) hlen, pass1Step_iGet_self cfg i s j hi]
    rfl

theorem cdFrame_pass1_fold (i : ℕ) (others : List ℕ) (s : AState) :
    CDFrame s (others.foldl (pass1Step cfg i) s) :=
  foldl_rel CDFrame cdFrame_refl (fun h1 h2 => cdFrame_trans h1 h2) _ others s
    (fun s j _ => cdFrame_pass1Step cfg i s j)

theorem pass1_fold_iGet_ne (i : ℕ) (others : List ℕ) (s : AState) (i' : ℕ)
    (h : i' ≠ i) :
    iGet (others.foldl (pass1Step cfg i) s) i' = iGet s i' := by
  refine foldl_proj_const (fun s => iGet s i') _ others s ?_
  intro s j _
  exact pass1Step_iGet_ne cfg i s j i' h

end DetectPhase


theorem withDeltas_withDeltas (e : InterSt) (a b : List (ℕ × ℤ)) :
    withDeltas (withDeltas e a) b = withDeltas e b := rfl

theorem cdFrame_pass2Step (cfg : Config) (i : ℕ) (sd : AState × Bool)
    (j : ℕ) : CDFrame sd.1 (pass2Step cfg i sd j).1 := by
  unfold pass2Step
  dsimp only
  split
  · refine cdFrame_trans (cdFrame_updInter sd.1 i (fun e =>
      { e with deltas := aSet e.deltas j (aGet (iGet sd.1 i).deltas j + 1) })) ?_
    exact cdFrame_bumpSinglesScore cfg _ (interSingles cfg i) _ (-1)
      (fun e => rfl)
  · exact cdFrame_updInter sd.1 i _

theorem pass2Step_snd (cfg : Config) (i : ℕ) (sd : AState × Bool) (j : ℕ) :
    (pass2Step cfg i sd j).2 =
      (sd.2 && !(decide (aGet (iGet sd.1 i).deltas j + 1 < (cfg.delta : ℤ)))) := rfl

theorem pass2Step_fst_ne (cfg : Config) (i : ℕ) (sd : AState × Bool) (j : ℕ)
    (i' : ℕ) (h : i' ≠ i) :
    iGet (pass2Step cfg i sd j).1 i' = iGet sd.1 i' := by
  unfold pass2Step
  dsimp only
  have hb : ∀ (s2 : AState), iGet (bumpSinglesScore cfg s2
      (interSingles cfg i) (fun e => { e with d_issues := e.d_issues - 1 })
      (-1)) i' = iGet s2 i' := by
    intro s2
    have := bumpSinglesScore_inters cfg s2 (interSingles cfg i)
      (fun e => { e with d_issues := e.d_issues - 1 }) (-1)
    simp [iGet, this]
  split
  · rw [hb, iGet_updInter_ne _ i _ i' h]
  · rw [iGet_updInter_ne _ i _ i' h]

theorem pass2Step_fst_self (cfg : Config) (i : ℕ) (sd : AState × Bool)
    (j : ℕ) (hi : i < sd.1.inters.length) :
    iGet (pass2Step cfg i sd j).1 i =
      withDeltas (iGet sd.1 i)
        (aSet (iGet sd.1 i).deltas j (aGet (iGet sd.1 i).deltas j + 1)) := by
  unfold pass2Step withDeltas
  dsimp only
  have hb : ∀ (s2 : AState), iGet (bumpSinglesScore cfg s2
      (interSingles cfg i) (fun e => { e with d_issues := e.d_issues - 1 })
      (-1)) i = iGet s2 i := by
    intro s2
    have := bumpSinglesScore_inters cfg s2 (interSingles cfg i)
      (fun e => { e with d_issues := e.d_issues - 1 }) (-1)
    simp [iGet, this]
  split
  · rw [hb, iGet_updInter_self _ i _ hi]
  · rw [iGet_updInter_self _ i _ hi]

theorem pass2_fold (cfg : Config) (i : ℕ) (keys : List ℕ) :
    ∀ (s : AState) (b : Bool), i < s.inters.length →
      iGet (keys.foldl (pass2Step cfg i) (s, b)).1 i =
        withDeltas (iGet s i)
          ((pass2DB (cfg.delta : ℤ) keys ((iGet s i).deltas, b)).1) ∧
      (keys.foldl (pass2Step cfg i) (s, b)).2 =
        (pass2DB (cfg.delta : ℤ) keys ((iGet s i).deltas, b)).2 ∧
      CDFrame s (keys.foldl (pass2Step cfg i) (s, b)).1 ∧
      (∀ i', i' ≠ i →
        iGet (keys.foldl (pass2Step cfg i) (s, b)).1 i' = iGet s i') := by
  induction keys with
  | nil =>
    intro s b _
    exact ⟨(withDeltas_self (iGet s i)).symm, rfl, cdFrame_refl s,
      fun _ _ => rfl⟩
  | cons j keys ih =>
    intro s b hi
    have hfr : CDFrame s (pass2Step cfg i (s, b) j).1 :=
      cdFrame_pass2Step cfg i (s, b) j
    have hi' : i < (pass2Step cfg i (s, b) j).1.inters.length := by
      rw [hfr.2.2.2.2.2.2.2.2.1]
      exact hi
    have hstep_fst := pass2Step_fst_self cfg i (s, b) j hi
    have hstep_snd := pass2Step_snd cfg i (s, b) j
    have hfold : (j :: keys).foldl (pass2Step cfg i) (s, b) =
        keys.foldl (pass2Step cfg i) (pass2Step cfg i (s, b) j) := rfl
    have hpair : pass2Step cfg i (s, b) j =
        ((pass2Step cfg i (s, b) j).1, (pass2Step cfg i (s, b) j).2) := rfl
    obtain ⟨ih1, ih2, ih3, ih4⟩ :=
      ih (pass2Step cfg i (s, b) j).1 (pass2Step cfg i (s, b) j).2 hi'
    have hDB : pass2DB (cfg.delta : ℤ) (j :: keys) ((iGet s i).deltas, b) =
        pass2DB (cfg.delta : ℤ) keys
          (aSet (iGet s i).deltas j (aGet (iGet s i).deltas j + 1),
           b && !(decide (aGet (iGet s i).deltas j + 1 < (cfg.delta : ℤ)))) :=
      rfl
    refine ⟨?_, ?_, ?_, ?_⟩
    · rw [hfold, hpair, ih1, hstep_fst, hDB, hstep_snd, withDeltas_deltas,
          withDeltas_withDeltas]
    · rw [hfold, hpair, ih2, hstep_fst, hDB, hstep_snd, withDeltas_deltas]
    · rw [hfold, hpair]
      exact cdFrame_trans hfr ih3
    · intro i' hne
      rw [hfold, hpair, ih4 i' hne, pass2Step_fst_ne cfg i (s, b) j i' hne]


theorem cdFrame_pass2_fold (cfg : Config) (i : ℕ) (keys : List ℕ) :
    ∀ (sd : AState × Bool),
      CDFrame sd.1 (keys.foldl (pass2Step cfg i) sd).1 := by
  induction keys with
  | nil => intro sd; exact cdFrame_refl sd.1
  | cons j keys ih =>
    intro sd
    exact cdFrame_trans (cdFrame_pass2Step cfg i sd j) (ih _)

theorem pass2_fold_iGet_ne (cfg : Config) (i : ℕ) (keys : List ℕ)
    (i' : ℕ) (h : i' ≠ i) :
    ∀ (sd : AState × Bool),
      iGet (keys.foldl (pass2Step cfg i) sd).1 i' = iGet sd.1 i' := by
  induction keys with
  | nil => intro sd; rfl
  | cons j keys ih =>
    intro sd
    rw [show (j :: keys).foldl (pass2Step cfg i) sd =
        keys.foldl (pass2Step cfg i) (pass2Step cfg i sd j) from rfl,
      ih (pass2Step cfg i sd j), pass2Step_fst_ne cfg i sd j i' h]

theorem cdFrame_detectTail (s4 : AState) (bb : Bool) :
    CDFrame s4 (if bb then
      (let s5 : AState := { s4 with score := s4.score - 1,
                                    detection_problems := s4.detection_problems - 1 }
       if s5.detection_problems = 0 then { s5 with is_detecting := true }
       else s5)
    else s4) := by
  split
  · dsimp only
    split
    · exact cdFrame_fields s4 _ _ _ _ _ _ _
    · exact cdFrame_fields s4 _ _ _ _ _ _ _
  · exact cdFrame_refl s4

theorem cdFrame_detectEnd (sd : AState × Bool) (i : ℕ) :
    CDFrame sd.1
      (let s : AState := updInter sd.1 i
        (fun e => { e with is_detectable := sd.2 })
       if sd.2 then
         let s : AState := { s with score := s.score - 1,
                                    detection_problems := s.detection_problems - 1 }
         if s.detection_problems = 0 then { s with is_detecting := true } else s
       else s) := by
  refine cdFrame_trans
    (cdFrame_updInter sd.1 i (fun e => { e with is_detectable := sd.2 })) ?_
  exact cdFrame_detectTail
    (updInter sd.1 i (fun e => { e with is_detectable := sd.2 })) sd.2

theorem cdFrame_detectOne (cfg : Config) (s : AState) (i : ℕ)
    (rowS : List ℕ) : CDFrame s (detectOne cfg s i rowS) := by
  unfold detectOne
  split
  · exact cdFrame_refl s
  · dsimp only
    refine cdFrame_trans (cdFrame_pass1_fold cfg i
      (rowS.filter fun j => i ∉ (allSets cfg).getD j []) s) ?_
    refine cdFrame_trans (cdFrame_pass2_fold cfg i
      ((iGet (List.foldl (pass1Step cfg i) s
        (rowS.filter fun j => i ∉ (allSets cfg).getD j [])) i).deltas.map
          Prod.fst)
      (List.foldl (pass1Step cfg i) s
        (rowS.filter fun j => i ∉ (allSets cfg).getD j []), true)) ?_
    exact cdFrame_detectEnd
      (List.foldl (pass2Step cfg i)
        (List.foldl (pass1Step cfg i) s
          (rowS.filter fun j => i ∉ (allSets cfg).getD j []), true)
        ((iGet (List.foldl (pass1Step cfg i) s
          (rowS.filter fun j => i ∉ (allSets cfg).getD j [])) i).deltas.map
            Prod.fst)) i

theorem detectOne_iGet_ne (cfg : Config) (s : AState) (i : ℕ)
    (rowS : List ℕ) (i' : ℕ) (h : i' ≠ i) :
    iGet (detectOne cfg s i rowS) i' = iGet s i' := by
  unfold detectOne
  split
  · rfl
  · dsimp only
    have h1 := pass1_fold_iGet_ne cfg i
      (rowS.filter fun j => i ∉ (allSets cfg).getD j []) s i' h
    have h2 := pass2_fold_iGet_ne cfg i
      ((iGet (List.foldl (pass1Step cfg i) s
        (rowS.filter fun j => i ∉ (allSets cfg).getD j [])) i).deltas.map
          Prod.fst) i' h
      (List.foldl (pass1Step cfg i) s
        (rowS.filter fun j => i ∉ (allSets cfg).getD j []), true)
    split
    · split
      · show iGet (updInter _ i _) i' = iGet s i'
        rw [iGet_updInter_ne _ i _ i' h]
        rw [h2, h1]
      · show iGet (updInter _ i _) i' = iGet s i'
        rw [iGet_updInter_ne _ i _ i' h]
        rw [h2, h1]
    · rw [iGet_updInter_ne _ i _ i' h]
      rw [h2, h1]

theorem detectOne_iGet_self (cfg : Config) (s : AState) (i : ℕ)
    (rowS : List ℕ) (hi : i < s.inters.length) :
    iGet (detectOne cfg s i rowS) i = detEntry cfg i rowS (iGet s i) := by
  unfold detectOne detEntry
  split
  · rfl
  · dsimp only
    have hS1 := pass1_fold cfg i
      (rowS.filter fun j => i ∉ (allSets cfg).getD j []) s hi
    have hi1 : i < (List.foldl (pass1Step cfg i) s
        (rowS.filter fun j => i ∉ (allSets cfg).getD j [])).inters.length := by
      rw [(cdFrame_pass1_fold cfg i _ s).2.2.2.2.2.2.2.2.1]
      exact hi
    obtain ⟨h21, h22, h23, h24⟩ := pass2_fold cfg i
      ((iGet (List.foldl (pass1Step cfg i) s
        (rowS.filter fun j => i ∉ (allSets cfg).getD j [])) i).deltas.map
          Prod.fst)
      (List.foldl (pass1Step cfg i) s
        (rowS.filter fun j => i ∉ (allSets cfg).getD j [])) true hi1
    have hi2 : i < (List.foldl (pass2Step cfg i)
        (List.foldl (pass1Step cfg i) s
          (rowS.filter fun j => i ∉ (allSets cfg).getD j []), true)
        ((iGet (List.foldl (pass1Step cfg i) s
          (rowS.filter fun j => i ∉ (allSets cfg).getD j [])) i).deltas.map
            Prod.fst)).1.inters.length := by
      rw [h23.2.2.2.2.2.2.2.2.1]
      exact hi1
    have hEnd : ∀ (s4 : AState) (bb : Bool), iGet (if bb then
        (let s5 : AState := { s4 with score := s4.score - 1,
                                      detection_problems := s4.detection_problems - 1 }
         if s5.detection_problems = 0 then { s5 with is_detecting := true }
         else s5)
      else s4) i = iGet s4 i := by
      intro s4 bb
      split
      · dsimp only
        split
        · rfl
        · rfl
      · rfl
    rw [hEnd, iGet_updInter_self _ i _ hi2, h22, h21, hS1]
    rfl


theorem cdFrame_coverDetectOne (cfg : Config) (s : AState) (i : ℕ)
    (rowS : List ℕ) : CDFrame s (coverDetectOne cfg s i rowS) := by
  unfold coverDetectOne
  dsimp only
  split
  · exact cdFrame_trans (cdFrame_coverOne cfg s i)
      (cdFrame_detectOne cfg (coverOne cfg s i) i rowS)
  · exact cdFrame_coverOne cfg s i

theorem coverDetectOne_iGet_ne (cfg : Config) (s : AState) (i : ℕ)
    (rowS : List ℕ) (i' : ℕ) (h : i' ≠ i) :
    iGet (coverDetectOne cfg s i rowS) i' = iGet s i' := by
  unfold coverDetectOne
  dsimp only
  split
  · rw [detectOne_iGet_ne cfg (coverOne cfg s i) i rowS i' h,
      coverOne_iGet_ne cfg s i i' h]
  · exact coverOne_iGet_ne cfg s i i' h

theorem coverDetectOne_iGet_self (cfg : Config) (s : AState) (i : ℕ)
    (rowS : List ℕ) (hi : i < s.inters.length) :
    iGet (coverDetectOne cfg s i rowS) i = cdEntry cfg i rowS (iGet s i) := by
  unfold coverDetectOne cdEntry
  dsimp only
  split
  · have hi1 : i < (coverOne cfg s i).inters.length := by
      rw [(cdFrame_coverOne cfg s i).2.2.2.2.2.2.2.2.1]
      exact hi
    rw [detectOne_iGet_self cfg (coverOne cfg s i) i rowS hi1,
      coverOne_iGet_self cfg s i hi]
  · exact coverOne_iGet_self cfg s i hi

theorem cdFrame_cdFold (cfg : Config) (rowS : List ℕ) :
    ∀ (rowI : List ℕ) (s : AState),
      CDFrame s (rowI.foldl (fun s i => coverDetectOne cfg s i rowS) s) := by
  intro rowI
  induction rowI with
  | nil => intro s; exact cdFrame_refl s
  | cons a rowI ih =>
    intro s
    exact cdFrame_trans (cdFrame_coverDetectOne cfg s a rowS)
      (ih (coverDetectOne cfg s a rowS))

theorem cdFold_iGet (cfg : Config) (rowS : List ℕ) (rowI : List ℕ)
    (hnd : rowI.Nodup) (s : AState) (i : ℕ) (hi : i < s.inters.length) :
    iGet (rowI.foldl (fun s i => coverDetectOne cfg s i rowS) s) i =
      if i ∈ rowI then cdEntry cfg i rowS (iGet s i) else iGet s i := by
  refine foldl_proj_point_inv (fun s => iGet s i)
    (fun s i2 => coverDetectOne cfg s i2 rowS) (cdEntry cfg i rowS) i
    (fun s => i < s.inters.length) rowI hnd s hi ?_ ?_ ?_
  · intro s x _ hI
    show i < (coverDetectOne cfg s x rowS).inters.length
    rw [(cdFrame_coverDetectOne cfg s x rowS).2.2.2.2.2.2.2.2.1]
    exact hI
  · intro s x _ _ hne
    exact coverDetectOne_iGet_ne cfg s x rowS i hne.symm
  · intro s hI
    exact coverDetectOne_iGet_self cfg s i rowS hI


/-! ## Frame of the location phase

The location update (lines 557-613) touches `score`, `location_problems`,
`is_locating`, T-set `location_conflicts`/`is_locatable`, and Singles'
`l_issues`.  `LocFrame s s'` records everything it leaves unchanged. -/

def LocFrame (s s' : AState) : Prop :=
  s'.rows = s.rows ∧ s'.num_tests = s.num_tests ∧
  s'.dont_cares = s.dont_cares ∧ s'.permutation = s.permutation ∧
  s'.is_covering = s.is_covering ∧ s'.is_detecting = s.is_detecting ∧
  (∀ k, (sGet s' k).rows = (sGet s k).rows) ∧
  (∀ i, iGet s' i = iGet s i) ∧
  (∀ j, (tGet s' j).rows = (tGet s j).rows) ∧ LensEq s s'

theorem locFrame_refl (s : AState) : LocFrame s s :=
  ⟨rfl, rfl, rfl, rfl, rfl, rfl, fun _ => rfl, fun _ => rfl, fun _ => rfl,
    lensEq_refl s⟩

theorem locFrame_trans {a b c : AState} (h1 : LocFrame a b)
    (h2 : LocFrame b c) : LocFrame a c := by
  obtain ⟨a1, a2, a3, a4, a5, a6, a7, a8, a9, a10⟩ := h1
  obtain ⟨b1, b2, b3, b4, b5, b6, b7, b8, b9, b10⟩ := h2
  exact ⟨b1.trans a1, b2.trans a2, b3.trans a3, b4.trans a4, b5.trans a5,
    b6.trans a6, fun k => (b7 k).trans (a7 k), fun i => (b8 i).trans (a8 i),
    fun j => (b9 j).trans (a9 j), lensEq_trans a10 b10⟩

theorem locFrame_updT (s : AState) (j : ℕ) (f : TSt → TSt)
    (hf : ∀ e, (f e).rows = e.rows) : LocFrame s (updT s j f) := by
  refine ⟨rfl, rfl, rfl, rfl, rfl, rfl, fun _ => rfl, fun _ => rfl, ?_,
    lensEq_updT s j f⟩
  intro j2
  rw [tGet_updT]
  split
  · exact hf _
  · rfl

theorem locFrame_bumpSinglesScore (cfg : Config) (s : AState) (sps : List SP)
    (f : SingleSt → SingleSt) (ds : ℤ) (hf : ∀ e, (f e).rows = e.rows) :
    LocFrame s (bumpSinglesScore cfg s sps f ds) := by
  refine ⟨bumpSinglesScore_rows cfg s sps f ds,
    bumpSinglesScore_num_tests cfg s sps f ds, ?_, ?_, ?_, ?_,
    fun k => bumpSinglesScore_sGet_rows cfg s sps f ds hf k, ?_, ?_,
    lensEq_bumpSinglesScore cfg s sps f ds⟩
  · unfold bumpSinglesScore
    exact foldl_proj_const AState.dont_cares _ sps s (fun s sp _ => rfl)
  · unfold bumpSinglesScore
    exact foldl_proj_const AState.permutation _ sps s (fun s sp _ => rfl)
  · unfold bumpSinglesScore
    exact foldl_proj_const AState.is_covering _ sps s (fun s sp _ => rfl)
  · unfold bumpSinglesScore
    exact foldl_proj_const AState.is_detecting _ sps s (fun s sp _ => rfl)
  · intro i
    simp only [iGet, bumpSinglesScore_inters]
  · intro j
    simp only [tGet, bumpSinglesScore_tsets]

theorem locFrame_locConflictStep (cfg : Config) (j : ℕ) (s : AState)
    (j2 : ℕ) : LocFrame s (locConflictStep cfg j s j2) := by
  unfold locConflictStep
  split
  · exact locFrame_refl s
  · dsimp only
    refine locFrame_trans (locFrame_updT s j
      (fun e => { e with location_conflicts := insert j2 e.location_conflicts })
      (fun e => rfl)) ?_
    exact locFrame_bumpSinglesScore cfg _ (tSingles cfg j)
      (fun e => { e with l_issues := e.l_issues + 1 }) 1 (fun e => rfl)

theorem locFrame_conflictFold (cfg : Config) (j : ℕ) :
    ∀ (L : List ℕ) (s : AState),
      LocFrame s (L.foldl (locConflictStep cfg j) s) := by
  intro L
  induction L with
  | nil => intro s; exact locFrame_refl s
  | cons a L ih =>
    intro s
    exact locFrame_trans (locFrame_locConflictStep cfg j s a)
      (ih (locConflictStep cfg j s a))

theorem locFrame_locSolveStep (cfg : Config) (j : ℕ) (rowS : List ℕ)
    (s : AState) (j2 : ℕ) : LocFrame s (locSolveStep cfg j rowS s j2) := by
  unfold locSolveStep
  split
  · exact locFrame_refl s
  · split
    · dsimp only
      refine locFrame_trans (locFrame_updT s j2
        (fun e => { e with location_conflicts := e.location_conflicts.erase j })
        (fun e => rfl)) ?_
      refine locFrame_trans (locFrame_bumpSinglesScore cfg _ (tSingles cfg j2)
        (fun e => { e with l_issues := e.l_issues - 1 }) (-1) (fun e => rfl)) ?_
      split
      · refine locFrame_trans (locFrame_updT _ j2
          (fun e => { e with is_locatable := true }) (fun e => rfl)) ?_
        exact ⟨rfl, rfl, rfl, rfl, rfl, rfl, fun _ => rfl, fun _ => rfl,
          fun _ => rfl, lensEq_refl _⟩
      · exact locFrame_refl _
    · exact locFrame_refl s

theorem locFrame_solveFold (cfg : Config) (j : ℕ) (rowS : List ℕ) :
    ∀ (L : List ℕ) (s : AState),
      LocFrame s (L.foldl (locSolveStep cfg j rowS) s) := by
  intro L
  induction L with
  | nil => intro s; exact locFrame_refl s
  | cons a L ih =>
    intro s
    exact locFrame_trans (locFrame_locSolveStep cfg j rowS s a)
      (ih (locSolveStep cfg j rowS s a))

theorem locFrame_locTail (cfg : Config) (j : ℕ) (s2 : AState) :
    LocFrame s2 (if (tGet s2 j).location_conflicts = ∅ then
      (let s3 : AState := updT s2 j (fun e => { e with is_locatable := true })
       let s4 : AState := { s3 with score := s3.score - 1,
                                    location_problems := s3.location_problems - 1 }
       if s4.location_problems = 0 then { s4 with is_locating := true } else s4)
    else s2) := by
  split
  · refine locFrame_trans (locFrame_updT s2 j
      (fun e => { e with is_locatable := true }) (fun e => rfl)) ?_
    dsimp only
    split
    · exact ⟨rfl, rfl, rfl, rfl, rfl, rfl, fun _ => rfl, fun _ => rfl,
        fun _ => rfl, lensEq_refl _⟩
    · exact ⟨rfl, rfl, rfl, rfl, rfl, rfl, fun _ => rfl, fun _ => rfl,
        fun _ => rfl, lensEq_refl _⟩
  · exact locFrame_refl s2

theorem locFrame_locOne (cfg : Config) (s : AState) (j : ℕ)
    (rowS : List ℕ) : LocFrame s (locOne cfg s j rowS) := by
  unfold locOne
  split
  · exact locFrame_refl s
  · dsimp only
    split
    · refine locFrame_trans ?_ (locFrame_locTail cfg j _)
      refine locFrame_trans (locFrame_bumpSinglesScore cfg s (tSingles cfg j)
        (fun e => { e with
          l_issues := e.l_issues - ((allSets cfg).length : ℤ) })
        (-((allSets cfg).length : ℤ)) (fun e => rfl)) ?_
      exact locFrame_conflictFold cfg j rowS _
    · refine locFrame_trans ?_ (locFrame_locTail cfg j _)
      refine locFrame_trans (locFrame_solveFold cfg j rowS
        ((List.range (allSets cfg).length).filter
          (fun j2 => j2 ∈ (tGet s j).location_conflicts)) s) ?_
      refine locFrame_trans (locFrame_bumpSinglesScore cfg _ (tSingles cfg j)
        (fun e => { e with l_issues := e.l_issues -
          (((tGet s j).location_conflicts.filter
            fun j2 => j2 ∉ rowS).card : ℤ) })
        (-(((tGet s j).location_conflicts.filter
            fun j2 => j2 ∉ rowS).card : ℤ)) (fun e => rfl)) ?_
      exact locFrame_updT _ j
        (fun e => { e with location_conflicts :=
          (tGet s j).location_conflicts.filter fun j2 => j2 ∈ rowS })
        (fun e => rfl)

theorem locFrame_locFold (cfg : Config) (rowS : List ℕ) :
    ∀ (L : List ℕ) (s : AState),
      LocFrame s (L.foldl (fun s j => locOne cfg s j rowS) s) := by
  intro L
  induction L with
  | nil => intro s; exact locFrame_refl s
  | cons a L ih =>
    intro s
    exact locFrame_trans (locFrame_locOne cfg s a rowS)
      (ih (locOne cfg s a rowS))


/-! ## Row-set step lemmas and the card-difference function -/

theorem hitRows_nil (pred : List ℕ → Bool) : hitRows [] pred = ∅ := by
  simp [hitRows]

theorem sRowSet_append (rs : List (List ℕ)) (r : List ℕ) (sp : SP) :
    sRowSet (rs ++ [r]) sp =
      if r.get? sp.1 = some sp.2 then insert (rs.length + 1) (sRowSet rs sp)
      else sRowSet rs sp := by
  unfold sRowSet
  rw [hitRows_append]
  by_cases h : r.get? sp.1 = some sp.2
  · rw [if_pos (decide_eq_true h), if_pos h]
  · rw [if_neg (by simpa using h), if_neg h]

theorem iRowSet_append (cfg : Config) (rs : List (List ℕ)) (r : List ℕ)
    (i : ℕ) :
    iRowSet cfg (rs ++ [r]) i =
      if containsInter r (interSingles cfg i) = true then
        insert (rs.length + 1) (iRowSet cfg rs i)
      else iRowSet cfg rs i := by
  unfold iRowSet
  rw [hitRows_append]

theorem tRowSet_append (cfg : Config) (rs : List (List ℕ)) (r : List ℕ)
    (j : ℕ) :
    tRowSet cfg (rs ++ [r]) j =
      if (((allSets cfg).getD j []).any fun i =>
          containsInter r (interSingles cfg i)) = true then
        insert (rs.length + 1) (tRowSet cfg rs j)
      else tRowSet cfg rs j := by
  unfold tRowSet
  rw [hitRows_append]

theorem not_mem_sRowSet_succ (rs : List (List ℕ)) (sp : SP) :
    rs.length + 1 ∉ sRowSet rs sp := succ_not_mem_hitRows

theorem not_mem_iRowSet_succ (cfg : Config) (rs : List (List ℕ)) (i : ℕ) :
    rs.length + 1 ∉ iRowSet cfg rs i := succ_not_mem_hitRows

theorem not_mem_tRowSet_succ (cfg : Config) (rs : List (List ℕ)) (j : ℕ) :
    rs.length + 1 ∉ tRowSet cfg rs j := succ_not_mem_hitRows

/-- `|I.rows \ T.rows|` computed from the committed row list: the number of
committed rows containing interaction `i` but no member of T-set `j`. -/
def diffCard (cfg : Config) (rs : List (List ℕ)) (i j : ℕ) : ℕ :=
  (iRowSet cfg rs i \ tRowSet cfg rs j).card

theorem diffCard_append (cfg : Config) (rs : List (List ℕ)) (r : List ℕ)
    (i j : ℕ) :
    diffCard cfg (rs ++ [r]) i j =
      if containsInter r (interSingles cfg i) = true ∧
          ¬ (((allSets cfg).getD j []).any fun i2 =>
              containsInter r (interSingles cfg i2)) = true
      then diffCard cfg rs i j + 1 else diffCard cfg rs i j := by
  unfold diffCard
  rw [iRowSet_append, tRowSet_append]
  have hnI := not_mem_iRowSet_succ cfg rs i
  have hnT := not_mem_tRowSet_succ cfg rs j
  by_cases hI : containsInter r (interSingles cfg i) = true
  · by_cases hT : (((allSets cfg).getD j []).any fun i2 =>
        containsInter r (interSingles cfg i2)) = true
    · have hcon : ¬ (containsInter r (interSingles cfg i) = true ∧
          ¬ (((allSets cfg).getD j []).any fun i2 =>
              containsInter r (interSingles cfg i2)) = true) :=
        fun hc => hc.2 hT
      rw [if_pos hI, if_pos hT, if_neg hcon]
      have he : insert (rs.length + 1) (iRowSet cfg rs i) \
          insert (rs.length + 1) (tRowSet cfg rs j) =
          iRowSet cfg rs i \ tRowSet cfg rs j := by
        ext x
        simp only [Finset.mem_sdiff, Finset.mem_insert, not_or]
        constructor
        · rintro ⟨hx1 | hx1, hx2, hx3⟩
          · exact absurd hx1 hx2
          · exact ⟨hx1, hx3⟩
        · rintro ⟨hx1, hx2⟩
          exact ⟨Or.inr hx1, fun hc => hnI (hc ▸ hx1), hx2⟩
      rw [he]
    · rw [if_pos hI, if_neg hT, if_pos ⟨hI, hT⟩]
      rw [Finset.insert_sdiff_of_not_mem _ (fun hc => hnT hc)]
      rw [Finset.card_insert_of_not_mem
        (fun hc => hnI (Finset.mem_sdiff.mp hc).1)]
  · have hcon : ¬ (containsInter r (interSingles cfg i) = true ∧
        ¬ (((allSets cfg).getD j []).any fun i2 =>
            containsInter r (interSingles cfg i2)) = true) :=
      fun hc => hI hc.1
    rw [if_neg hI, if_neg hcon]
    by_cases hT : (((allSets cfg).getD j []).any fun i2 =>
        containsInter r (interSingles cfg i2)) = true
    · rw [if_pos hT]
      have he : iRowSet cfg rs i \ insert (rs.length + 1) (tRowSet cfg rs j) =
          iRowSet cfg rs i \ tRowSet cfg rs j := by
        ext x
        simp only [Finset.mem_sdiff, Finset.mem_insert, not_or]
        constructor
        · rintro ⟨hx1, hx2, hx3⟩
          exact ⟨hx1, hx3⟩
        · rintro ⟨hx1, hx2⟩
          exact ⟨hx1, fun hc => hnI (hc ▸ hx1), hx2⟩
      rw [he]
    · rw [if_neg hT]

theorem diffCard_le_append (cfg : Config) (rs : List (List ℕ)) (r : List ℕ)
    (i j : ℕ) : diffCard cfg rs i j ≤ diffCard cfg (rs ++ [r]) i j := by
  rw [diffCard_append]
  split
  · omega
  · omega

theorem aGet_map_zero :
    ∀ (keys : List ℕ) (k : ℕ), k ∈ keys →
      aGet (keys.map fun j => (j, (0 : ℤ))) k = 0 := by
  intro keys
  induction keys with
  | nil => intro k hk; cases hk
  | cons j keys ih =>
    intro k hk
    rw [List.map_cons, aGet_cons]
    by_cases hkj : j = k
    · rw [if_pos hkj]
    · rw [if_neg hkj]
      rcases List.mem_cons.mp hk with h | h
      · exact absurd h.symm hkj
      · exact ih k h

/-! ## Entry-transformer projections -/

theorem covEntry_rows (e : InterSt) : (covEntry e).rows = e.rows := by
  unfold covEntry
  split
  · rfl
  · rfl

theorem covEntry_is_covered (e : InterSt) :
    (covEntry e).is_covered = true := by
  unfold covEntry
  split
  · assumption
  · rfl

theorem covEntry_deltas (e : InterSt) : (covEntry e).deltas = e.deltas := by
  unfold covEntry
  split
  · rfl
  · rfl

theorem covEntry_is_detectable (e : InterSt) :
    (covEntry e).is_detectable = e.is_detectable := by
  unfold covEntry
  split
  · rfl
  · rfl

theorem detEntry_rows (cfg : Config) (i : ℕ) (rowS : List ℕ) (e : InterSt) :
    (detEntry cfg i rowS e).rows = e.rows := by
  unfold detEntry
  split
  · rfl
  · rfl

theorem detEntry_is_covered (cfg : Config) (i : ℕ) (rowS : List ℕ)
    (e : InterSt) : (detEntry cfg i rowS e).is_covered = e.is_covered := by
  unfold detEntry
  split
  · rfl
  · rfl

theorem cdEntry_rows (cfg : Config) (i : ℕ) (rowS : List ℕ) (e : InterSt) :
    (cdEntry cfg i rowS e).rows = e.rows := by
  unfold cdEntry
  split
  · rw [detEntry_rows, covEntry_rows]
  · rw [covEntry_rows]

theorem cdEntry_is_covered (cfg : Config) (i : ℕ) (rowS : List ℕ)
    (e : InterSt) : (cdEntry cfg i rowS e).is_covered = true := by
  unfold cdEntry
  split
  · rw [detEntry_is_covered, covEntry_is_covered]
  · rw [covEntry_is_covered]

/-! ## Touched-entity predicates of a committed row -/

theorem exists_rowI_single_iff (cfg : Config) (r : List ℕ)
    (hr : validRow cfg r) (ht1 : 1 ≤ cfg.t) (htF : cfg.t ≤ cfg.nf)
    (sp : SP) (hsp : sp ∈ allSingles cfg) :
    (∃ i ∈ build_row_interactions cfg r, sp ∈ interSingles cfg i) ↔
      r.get? sp.1 = some sp.2 := by
  constructor
  · rintro ⟨i, hi, hm⟩
    exact row_inter_matches cfg hi sp hm
  · intro hget
    have hf : sp.1 < cfg.nf := ((mem_allSingles cfg).mp hsp).1
    have hv : sp.2 = r.getD sp.1 0 := by
      have h2 : r.get? sp.1 = some (r.getD sp.1 0) :=
        get?_eq_some_getD (by rw [hr.1]; exact hf)
      have := hget.symm.trans h2
      exact Option.some.inj this
    obtain ⟨i, hi, hm⟩ := exists_row_inter cfg r hr ht1 htF sp.1 hf
    refine ⟨i, hi, ?_⟩
    have : sp = (sp.1, r.getD sp.1 0) := by
      cases sp
      simpa using hv
    rw [this]
    exact hm

theorem exists_rowI_tset_iff (cfg : Config) (r : List ℕ) (j : ℕ)
    (hj : j < (allSets cfg).length) :
    (∃ i ∈ build_row_interactions cfg r, j ∈ setsContaining cfg i) ↔
      (((allSets cfg).getD j []).any fun i =>
        containsInter r (interSingles cfg i)) = true := by
  constructor
  · rintro ⟨i, hi, hm⟩
    rw [List.any_eq_true]
    exact ⟨i, ((mem_setsContaining cfg).mp hm).2,
      ((mem_build_row_interactions cfg).mp hi).2⟩
  · intro h
    rw [List.any_eq_true] at h
    obtain ⟨i, hi, hc⟩ := h
    refine ⟨i, (mem_build_row_interactions cfg).mpr
      ⟨allSets_members cfg j hj i hi, hc⟩,
      (mem_setsContaining cfg).mpr ⟨hj, hi⟩⟩

theorem mem_rowI_iff (cfg : Config) (r : List ℕ) (i : ℕ) :
    i ∈ build_row_interactions cfg r ↔
      i < (allInteractions cfg).length ∧
        containsInter r (interSingles cfg i) = true :=
  mem_build_row_interactions cfg

theorem mem_rowS_iff_any (cfg : Config) (r : List ℕ) (j : ℕ)
    (hj : j < (allSets cfg).length) :
    j ∈ rowTSets cfg (build_row_interactions cfg r) ↔
      (((allSets cfg).getD j []).any fun i =>
        containsInter r (interSingles cfg i)) = true := by
  rw [mem_rowTSets, List.any_eq_true]
  constructor
  · rintro ⟨-, i, hi, hri⟩
    exact ⟨i, hi, ((mem_build_row_interactions cfg).mp hri).2⟩
  · rintro ⟨i, hi, hc⟩
    exact ⟨hj, i, hi, (mem_build_row_interactions cfg).mpr
      ⟨allSets_members cfg j hj i hi, hc⟩⟩

/-! ## The reachability invariant -/

/-- The reachable-state invariant: the state obtained by constructing the
array and committing the (valid) rows `rs` has the canonical list lengths,
committed-row bookkeeping, canonical row sets for every entity, and — in the
`all` phase — detection bookkeeping: the deltas keys are exactly the T-sets
not containing the interaction, `is_detectable` is equivalent to coverage
plus all card-differences reaching `delta`, and while not yet detectable the
stored deltas are exactly the card-differences. -/
def Inv (cfg : Config) (rs : List (List ℕ)) (S : AState) : Prop :=
  S.rows = rs ∧ S.num_tests = rs.length ∧
  S.singles.length = (allSingles cfg).length ∧
  S.inters.length = (allInteractions cfg).length ∧
  S.tsets.length = (allSets cfg).length ∧
  (∀ sp ∈ allSingles cfg, (sGet S (singleIdx cfg sp)).rows = sRowSet rs sp) ∧
  (∀ i < (allInteractions cfg).length,
    (iGet S i).rows = iRowSet cfg rs i) ∧
  (∀ j < (allSets cfg).length, (tGet S j).rows = tRowSet cfg rs j) ∧
  (cfg.p = PMode.all → ∀ i < (allInteractions cfg).length,
    ((iGet S i).deltas.map Prod.fst = deltaKeys cfg i) ∧
    ((iGet S i).is_detectable = true ↔
      ((iGet S i).is_covered = true ∧ ∀ j ∈ deltaKeys cfg i,
        (cfg.delta : ℤ) ≤ (diffCard cfg rs i j : ℤ))) ∧
    ((iGet S i).is_detectable = false → ∀ j ∈ deltaKeys cfg i,
      aGet (iGet S i).deltas j = (diffCard cfg rs i j : ℤ)))


/-! ## Constructor-state characterization -/

theorem getD_map_default {α β : Type} (l : List α) (b : β) (k : ℕ) :
    (l.map (fun _ => b)).getD k b = b := by
  rw [List.getD_eq_getElem?_getD, List.getElem?_map]
  cases l[k]?
  · rfl
  · rfl

theorem updSingle_sGet_rows (s : AState) (k : ℕ) (f : SingleSt → SingleSt)
    (hf : ∀ e, (f e).rows = e.rows) (k' : ℕ) :
    (sGet (updSingle s k f) k').rows = (sGet s k').rows := by
  rw [sGet_updSingle]
  split
  · exact hf _
  · rfl

theorem buildPhase_proj_const {δ : Type} (cfg : Config) (π : AState → δ)
    (h : ∀ s sp, π (buildSingleStep cfg s sp) = π s) (s : AState) :
    π (buildPhase cfg s) = π s := by
  unfold buildPhase
  refine foldl_proj_const π (buildInterStep cfg) _ s ?_
  intro s i _
  unfold buildInterStep
  exact foldl_proj_const π (buildSingleStep cfg) _ s (fun s sp _ => h s sp)

theorem buildPhase_rows (cfg : Config) (s : AState) :
    (buildPhase cfg s).rows = s.rows :=
  buildPhase_proj_const cfg AState.rows (fun _ _ => rfl) s

theorem buildPhase_num_tests (cfg : Config) (s : AState) :
    (buildPhase cfg s).num_tests = s.num_tests :=
  buildPhase_proj_const cfg AState.num_tests (fun _ _ => rfl) s

theorem buildPhase_tsets (cfg : Config) (s : AState) :
    (buildPhase cfg s).tsets = s.tsets :=
  buildPhase_proj_const cfg AState.tsets (fun _ _ => rfl) s

theorem buildPhase_inters (cfg : Config) (s : AState) :
    (buildPhase cfg s).inters = s.inters :=
  buildPhase_proj_const cfg AState.inters (fun _ _ => rfl) s

theorem buildPhase_dont_cares (cfg : Config) (s : AState) :
    (buildPhase cfg s).dont_cares = s.dont_cares :=
  buildPhase_proj_const cfg AState.dont_cares (fun _ _ => rfl) s

theorem buildPhase_permutation (cfg : Config) (s : AState) :
    (buildPhase cfg s).permutation = s.permutation :=
  buildPhase_proj_const cfg AState.permutation (fun _ _ => rfl) s

theorem buildPhase_singles_length (cfg : Config) (s : AState) :
    (buildPhase cfg s).singles.length = s.singles.length := by
  refine buildPhase_proj_const cfg (fun s => s.singles.length) ?_ s
  intro s sp
  show (updSingle s (singleIdx cfg sp) _).singles.length = s.singles.length
  simp [updSingle, updN_length]

theorem buildPhase_sGet_rows (cfg : Config) (s : AState) (k : ℕ) :
    (sGet (buildPhase cfg s) k).rows = (sGet s k).rows := by
  refine buildPhase_proj_const cfg (fun s => (sGet s k).rows) ?_ s
  intro s sp
  exact updSingle_sGet_rows s (singleIdx cfg sp)
    (fun e => { e with c_issues := e.c_issues + 1 }) (fun e => rfl) k

theorem ctorLocFold_proj_const {δ : Type} (cfg : Config) (nT : ℤ)
    (π : AState → δ) (h : ∀ s sp, π (ctorLocStep cfg nT s sp) = π s)
    (L : List ℕ) (s : AState) :
    π (L.foldl (ctorLocOuter cfg nT) s) = π s := by
  refine foldl_proj_const π (ctorLocOuter cfg nT) L s ?_
  intro s j _
  unfold ctorLocOuter
  exact foldl_proj_const π (ctorLocStep cfg nT) _ s (fun s sp _ => h s sp)

theorem ctorDetIter_proj_const {δ : Type} (cfg : Config) (i : ℕ)
    (π : AState → δ) (h1 : ∀ s f, π (updInter s i f) = π s)
    (h2 : ∀ s sp, π (ctorDetStep cfg s sp) = π s) (s : AState) (j : ℕ) :
    π (ctorDetIter cfg i s j) = π s := by
  unfold ctorDetIter
  dsimp only
  rw [foldl_proj_const π (ctorDetStep cfg) _ _ (fun s sp _ => h2 s sp), h1]

theorem ctorDetFold_proj_const {δ : Type} (cfg : Config) (π : AState → δ)
    (h1 : ∀ s i f, π (updInter s i f) = π s)
    (h2 : ∀ s sp, π (ctorDetStep cfg s sp) = π s)
    (L : List ℕ) (s : AState) :
    π (L.foldl (ctorDetOuter cfg) s) = π s := by
  refine foldl_proj_const π (ctorDetOuter cfg) L s ?_
  intro s i _
  unfold ctorDetOuter
  exact foldl_proj_const π (ctorDetIter cfg i) _ s
    (fun s j _ => ctorDetIter_proj_const cfg i π (fun s f => h1 s i f)
      (fun s sp => h2 s sp) s j)

/-- Everything of the detection-budget fold except Interaction deltas,
the Singles counters, `score` and `total_problems`. -/
theorem ctorDetFold_rows (cfg : Config) (L : List ℕ) (s : AState) :
    (L.foldl (ctorDetOuter cfg) s).rows = s.rows :=
  ctorDetFold_proj_const cfg AState.rows (fun _ _ _ => rfl) (fun _ _ => rfl) L s

theorem ctorDetFold_num_tests (cfg : Config) (L : List ℕ) (s : AState) :
    (L.foldl (ctorDetOuter cfg) s).num_tests = s.num_tests :=
  ctorDetFold_proj_const cfg AState.num_tests (fun _ _ _ => rfl)
    (fun _ _ => rfl) L s

theorem ctorDetFold_tsets (cfg : Config) (L : List ℕ) (s : AState) :
    (L.foldl (ctorDetOuter cfg) s).tsets = s.tsets :=
  ctorDetFold_proj_const cfg AState.tsets (fun _ _ _ => rfl)
    (fun _ _ => rfl) L s

theorem ctorDetFold_dont_cares (cfg : Config) (L : List ℕ) (s : AState) :
    (L.foldl (ctorDetOuter cfg) s).dont_cares = s.dont_cares :=
  ctorDetFold_proj_const cfg AState.dont_cares (fun _ _ _ => rfl)
    (fun _ _ => rfl) L s

theorem ctorDetFold_permutation (cfg : Config) (L : List ℕ) (s : AState) :
    (L.foldl (ctorDetOuter cfg) s).permutation = s.permutation :=
  ctorDetFold_proj_const cfg AState.permutation (fun _ _ _ => rfl)
    (fun _ _ => rfl) L s

theorem ctorDetFold_singles_length (cfg : Config) (L : List ℕ) (s : AState) :
    (L.foldl (ctorDetOuter cfg) s).singles.length = s.singles.length := by
  refine ctorDetFold_proj_const cfg (fun s => s.singles.length) ?_ ?_ L s
  · intro s i f
    rfl
  · intro s sp
    show (updSingle s (singleIdx cfg sp) _).singles.length = s.singles.length
    simp [updSingle, updN_length]

theorem ctorDetFold_inters_length (cfg : Config) (L : List ℕ) (s : AState) :
    (L.foldl (ctorDetOuter cfg) s).inters.length = s.inters.length := by
  refine ctorDetFold_proj_const cfg (fun s => s.inters.length) ?_ ?_ L s
  · intro s i f
    show (updInter s i f).inters.length = s.inters.length
    simp [updInter, updN_length]
  · intro s sp
    rfl

theorem ctorDetFold_sGet_rows (cfg : Config) (L : List ℕ) (s : AState)
    (k : ℕ) : (sGet (L.foldl (ctorDetOuter cfg) s) k).rows
      = (sGet s k).rows := by
  refine ctorDetFold_proj_const cfg (fun s => (sGet s k).rows) ?_ ?_ L s
  · intro s i f
    rfl
  · intro s sp
    exact updSingle_sGet_rows s (singleIdx cfg sp)
      (fun e => { e with d_issues := e.d_issues + (cfg.delta : ℤ) })
      (fun e => rfl) k

/-- The per-interaction detection-budget initialization appends the zero
entries for every key of `L`, in order, to one interaction. -/
theorem ctorDetIter_fold (cfg : Config) (i : ℕ) :
    ∀ (L : List ℕ) (s : AState), i < s.inters.length →
      iGet (L.foldl (ctorDetIter cfg i) s) i =
        { iGet s i with deltas :=
            (iGet s i).deltas ++ L.map (fun j => (j, (0 : ℤ))) } := by
  intro L
  induction L with
  | nil =>
    intro s hi
    rcases hE : iGet s i with ⟨r, cov, det, dd⟩
    rw [List.foldl_nil, hE]
    simp
  | cons j L ih =>
    intro s hi
    have hstep : iGet (ctorDetIter cfg i s j) i =
        { iGet s i with deltas := (iGet s i).deltas ++ [(j, (0 : ℤ))] } := by
      unfold ctorDetIter
      dsimp only
      rw [foldl_proj_const (fun s => iGet s i) (ctorDetStep cfg) _ _
        (fun s sp _ => rfl)]
      exact iGet_updInter_self s i _ hi
    have hlen : (ctorDetIter cfg i s j).inters.length = s.inters.length := by
      refine ctorDetIter_proj_const cfg i (fun s => s.inters.length) ?_ ?_ s j
      · intro s f
        show (updInter s i f).inters.length = s.inters.length
        simp [updInter, updN_length]
      · intro s sp
        rfl
    rw [List.foldl_cons, ih (ctorDetIter cfg i s j) (by rw [hlen]; exact hi),
        hstep]
    simp [List.append_assoc]

theorem ctorDetIter_iGet_ne (cfg : Config) (i : ℕ) (i' : ℕ) (h : i' ≠ i)
    (s : AState) (j : ℕ) :
    iGet (ctorDetIter cfg i s j) i' = iGet s i' := by
  refine ctorDetIter_proj_const cfg i (fun s => iGet s i') ?_ ?_ s j
  · intro s f
    exact iGet_updInter_ne s i f i' h
  · intro s sp
    rfl

/-- Per-interaction effect of the whole detection-budget fold. -/
theorem ctorDetFold_iGet (cfg : Config) (s : AState) (i : ℕ)
    (hi : i < s.inters.length)
    (hlen : s.inters.length = (allInteractions cfg).length) :
    iGet ((List.range (allInteractions cfg).length).foldl
        (ctorDetOuter cfg) s) i =
      { iGet s i with deltas := (iGet s i).deltas ++
          (deltaKeys cfg i).map (fun j => (j, (0 : ℤ))) } := by
  have key : iGet ((List.range (allInteractions cfg).length).foldl
      (ctorDetOuter cfg) s) i =
      if i ∈ List.range (allInteractions cfg).length then
        { iGet s i with deltas := (iGet s i).deltas ++
            (deltaKeys cfg i).map (fun j => (j, (0 : ℤ))) }
      else iGet s i := by
    refine foldl_proj_point_inv (fun s => iGet s i) (ctorDetOuter cfg)
      (fun e => { e with deltas := e.deltas ++
        (deltaKeys cfg i).map (fun j => (j, (0 : ℤ))) }) i
      (fun s' => s'.inters.length = s.inters.length)
      (List.range (allInteractions cfg).length) (List.nodup_range _) s rfl
      ?_ ?_ ?_
    · intro s' x _ hI
      exact (ctorDetFold_inters_length cfg [x] s').trans hI
    · intro s' x _ hI hne
      show iGet ((deltaKeys cfg x).foldl (ctorDetIter cfg x) s') i = iGet s' i
      refine foldl_proj_const (fun s => iGet s i) (ctorDetIter cfg x) _ s' ?_
      intro s2 j _
      exact ctorDetIter_iGet_ne cfg x i (Ne.symm hne) s2 j
    · intro s' hI
      show iGet ((deltaKeys cfg i).foldl (ctorDetIter cfg i) s') i = _
      exact ctorDetIter_fold cfg i (deltaKeys cfg i) s' (by rw [hI]; exact hi)
  rw [key, if_pos (List.mem_range.mpr (by rw [← hlen]; exact hi))]

theorem diffCard_nil (cfg : Config) (i j : ℕ) : diffCard cfg [] i j = 0 := by
  unfold diffCard iRowSet
  rw [hitRows_nil]
  simp


theorem ctorLocFold_rows (cfg : Config) (nT : ℤ) (L : List ℕ) (s : AState) :
    (L.foldl (ctorLocOuter cfg nT) s).rows = s.rows :=
  ctorLocFold_proj_const cfg nT AState.rows (fun _ _ => rfl) L s

theorem ctorLocFold_num_tests (cfg : Config) (nT : ℤ) (L : List ℕ)
    (s : AState) : (L.foldl (ctorLocOuter cfg nT) s).num_tests = s.num_tests :=
  ctorLocFold_proj_const cfg nT AState.num_tests (fun _ _ => rfl) L s

theorem ctorLocFold_tsets (cfg : Config) (nT : ℤ) (L : List ℕ) (s : AState) :
    (L.foldl (ctorLocOuter cfg nT) s).tsets = s.tsets :=
  ctorLocFold_proj_const cfg nT AState.tsets (fun _ _ => rfl) L s

theorem ctorLocFold_inters (cfg : Config) (nT : ℤ) (L : List ℕ) (s : AState) :
    (L.foldl (ctorLocOuter cfg nT) s).inters = s.inters :=
  ctorLocFold_proj_const cfg nT AState.inters (fun _ _ => rfl) L s

theorem ctorLocFold_dont_cares (cfg : Config) (nT : ℤ) (L : List ℕ)
    (s : AState) :
    (L.foldl (ctorLocOuter cfg nT) s).dont_cares = s.dont_cares :=
  ctorLocFold_proj_const cfg nT AState.dont_cares (fun _ _ => rfl) L s

theorem ctorLocFold_permutation (cfg : Config) (nT : ℤ) (L : List ℕ)
    (s : AState) :
    (L.foldl (ctorLocOuter cfg nT) s).permutation = s.permutation :=
  ctorLocFold_proj_const cfg nT AState.permutation (fun _ _ => rfl) L s

theorem ctorLocFold_singles_length (cfg : Config) (nT : ℤ) (L : List ℕ)
    (s : AState) :
    (L.foldl (ctorLocOuter cfg nT) s).singles.length = s.singles.length := by
  refine ctorLocFold_proj_const cfg nT (fun s => s.singles.length) ?_ L s
  intro s sp
  show (updSingle _ (singleIdx cfg sp) _).singles.length = s.singles.length
  simp [updSingle, updN_length]

theorem ctorLocFold_sGet_rows (cfg : Config) (nT : ℤ) (L : List ℕ)
    (s : AState) (k : ℕ) :
    (sGet (L.foldl (ctorLocOuter cfg nT) s) k).rows = (sGet s k).rows := by
  refine ctorLocFold_proj_const cfg nT (fun s => (sGet s k).rows) ?_ L s
  intro s sp
  exact updSingle_sGet_rows _ (singleIdx cfg sp)
    (fun e => { e with l_issues := e.l_issues + nT }) (fun e => rfl) k

theorem freshSingles_length (cfg : Config) :
    (freshSingles cfg).length = (allSingles cfg).length := by
  simp [freshSingles]

theorem freshInters_length (cfg : Config) :
    (freshInters cfg).length = (allInteractions cfg).length := by
  simp [freshInters]

theorem freshTSets_length (cfg : Config) :
    (freshTSets cfg).length = (allSets cfg).length := by
  simp [freshTSets]

/-- The basic bookkeeping of the freshly constructed array. -/
theorem ctor_entities (cfg : Config) :
    (ctor_state cfg).rows = [] ∧ (ctor_state cfg).num_tests = 0 ∧
    (ctor_state cfg).singles.length = (allSingles cfg).length ∧
    (ctor_state cfg).inters.length = (allInteractions cfg).length ∧
    (ctor_state cfg).tsets = freshTSets cfg ∧
    (∀ k, (sGet (ctor_state cfg) k).rows = ∅) := by
  unfold ctor_state
  dsimp only
  split
  · refine ⟨?_, ?_, ?_, ?_, ?_, ?_⟩
    · show (buildPhase cfg _).rows = []
      rw [buildPhase_rows]
    · show (buildPhase cfg _).num_tests = 0
      rw [buildPhase_num_tests]
    · show (buildPhase cfg _).singles.length = _
      rw [buildPhase_singles_length]
      show (freshSingles cfg).length = _
      rw [freshSingles_length]
    · show (buildPhase cfg _).inters.length = _
      rw [buildPhase_inters]
      show (freshInters cfg).length = _
      rw [freshInters_length]
    · show (buildPhase cfg _).tsets = _
      rw [buildPhase_tsets]
    · intro k
      show (sGet (buildPhase cfg _) k).rows = ∅
      rw [buildPhase_sGet_rows]
      show ((freshSingles cfg).getD k default).rows = ∅
      rw [freshSingles, getD_map_default]
      rfl
  · split
    · refine ⟨?_, ?_, ?_, ?_, ?_, ?_⟩
      · show ((List.range (allSets cfg).length).foldl
          (ctorLocOuter cfg _) _).rows = []
        rw [ctorLocFold_rows]
        show (buildPhase cfg _).rows = []
        rw [buildPhase_rows]
      · show ((List.range (allSets cfg).length).foldl
          (ctorLocOuter cfg _) _).num_tests = 0
        rw [ctorLocFold_num_tests]
        show (buildPhase cfg _).num_tests = 0
        rw [buildPhase_num_tests]
      · show ((List.range (allSets cfg).length).foldl
          (ctorLocOuter cfg _) _).singles.length = _
        rw [ctorLocFold_singles_length]
        show (buildPhase cfg _).singles.length = _
        rw [buildPhase_singles_length]
        show (freshSingles cfg).length = _
        rw [freshSingles_length]
      · show ((List.range (allSets cfg).length).foldl
          (ctorLocOuter cfg _) _).inters.length = _
        rw [ctorLocFold_inters]
        show (buildPhase cfg _).inters.length = _
        rw [buildPhase_inters]
        show (freshInters cfg).length = _
        rw [freshInters_length]
      · show ((List.range (allSets cfg).length).foldl
          (ctorLocOuter cfg _) _).tsets = _
        rw [ctorLocFold_tsets]
        show (buildPhase cfg _).tsets = _
        rw [buildPhase_tsets]
      · intro k
        show (sGet ((List.range (allSets cfg).length).foldl
          (ctorLocOuter cfg _) _) k).rows = ∅
        rw [ctorLocFold_sGet_rows]
        show (sGet (buildPhase cfg _) k).rows = ∅
        rw [buildPhase_sGet_rows]
        show ((freshSingles cfg).getD k default).rows = ∅
        rw [freshSingles, getD_map_default]
        rfl
    · refine ⟨?_, ?_, ?_, ?_, ?_, ?_⟩
      · show ((List.range (allInteractions cfg).length).foldl
          (ctorDetOuter cfg) _).rows = []
        rw [ctorDetFold_rows]
        show ((List.range (allSets cfg).length).foldl
          (ctorLocOuter cfg _) _).rows = []
        rw [ctorLocFold_rows]
        show (buildPhase cfg _).rows = []
        rw [buildPhase_rows]
      · show ((List.range (allInteractions cfg).length).foldl
          (ctorDetOuter cfg) _).num_tests = 0
        rw [ctorDetFold_num_tests]
        show ((List.range (allSets cfg).length).foldl
          (ctorLocOuter cfg _) _).num_tests = 0
        rw [ctorLocFold_num_tests]
        show (buildPhase cfg _).num_tests = 0
        rw [buildPhase_num_tests]
      · show ((List.range (allInteractions cfg).length).foldl
          (ctorDetOuter cfg) _).singles.length = _
        rw [ctorDetFold_singles_length]
        show ((List.range (allSets cfg).length).foldl
          (ctorLocOuter cfg _) _).singles.length = _
        rw [ctorLocFold_singles_length]
        show (buildPhase cfg _).singles.length = _
        rw [buildPhase_singles_length]
        show (freshSingles cfg).length = _
        rw [freshSingles_length]
      · show ((List.range (allInteractions cfg).length).foldl
          (ctorDetOuter cfg) _).inters.length = _
        rw [ctorDetFold_inters_length]
        show ((List.range (allSets cfg).length).foldl
          (ctorLocOuter cfg _) _).inters.length = _
        rw [ctorLocFold_inters]
        show (buildPhase cfg _).inters.length = _
        rw [buildPhase_inters]
        show (freshInters cfg).length = _
        rw [freshInters_length]
      · show ((List.range (allInteractions cfg).length).foldl
          (ctorDetOuter cfg) _).tsets = _
        rw [ctorDetFold_tsets]
        show ((List.range (allSets cfg).length).foldl
          (ctorLocOuter cfg _) _).tsets = _
        rw [ctorLocFold_tsets]
        show (buildPhase cfg _).tsets = _
        rw [buildPhase_tsets]
      · intro k
        show (sGet ((List.range (allInteractions cfg).length).foldl
          (ctorDetOuter cfg) _) k).rows = ∅
        rw [ctorDetFold_sGet_rows]
        show (sGet ((List.range (allSets cfg).length).foldl
          (ctorLocOuter cfg _) _) k).rows = ∅
        rw [ctorLocFold_sGet_rows]
        show (sGet (buildPhase cfg _) k).rows = ∅
        rw [buildPhase_sGet_rows]
        show ((freshSingles cfg).getD k default).rows = ∅
        rw [freshSingles, getD_map_default]
        rfl

/-- The T-set states of the fresh array are all default. -/
theorem ctor_tGet (cfg : Config) (j : ℕ) :
    tGet (ctor_state cfg) j = default := by
  have h := (ctor_entities cfg).2.2.2.2.1
  show (ctor_state cfg).tsets.getD j default = default
  rw [h, freshTSets, getD_map_default]

/-- The detection-budget fold applied to a state with fresh Interactions
produces the zero-initialized delta maps. -/
theorem detPhase_iGet_of_fresh (cfg : Config) (s6 : AState)
    (h : s6.inters = freshInters cfg) (i : ℕ)
    (hi : i < (allInteractions cfg).length) :
    iGet ((List.range (allInteractions cfg).length).foldl
        (ctorDetOuter cfg) s6) i =
      { (default : InterSt) with
          deltas := (deltaKeys cfg i).map (fun j => (j, (0 : ℤ))) } := by
  have hlen : s6.inters.length = (allInteractions cfg).length := by
    rw [h, freshInters_length]
  have hdef : iGet s6 i = default := by
    show s6.inters.getD i default = default
    rw [h, freshInters, getD_map_default]
  rw [ctorDetFold_iGet cfg s6 i (by rw [hlen]; exact hi) hlen, hdef]
  simp
  rfl

/-- The Interaction states of the fresh array: default, except that in the
`all` phase the delta map is initialized with a zero entry per non-containing
T-set. -/
theorem ctor_iGet (cfg : Config) (i : ℕ) :
    iGet (ctor_state cfg) i =
      if cfg.p = PMode.all ∧ i < (allInteractions cfg).length then
        { (default : InterSt) with
            deltas := (deltaKeys cfg i).map (fun j => (j, (0 : ℤ))) }
      else default := by
  unfold ctor_state
  dsimp only
  split
  · next hp =>
    rw [if_neg (fun hc => by rw [hp] at hc; exact absurd hc.1 (by decide))]
    show ((buildPhase cfg _).inters).getD i default = default
    rw [buildPhase_inters]
    show ((freshInters cfg).getD i default) = default
    rw [freshInters, getD_map_default]
  · next hp =>
    split
    · next hp2 =>
      rw [if_neg (fun hc => hp2 hc.1)]
      show ((List.range (allSets cfg).length).foldl
        (ctorLocOuter cfg _) _).inters.getD i default = default
      rw [ctorLocFold_inters]
      show ((buildPhase cfg _).inters).getD i default = default
      rw [buildPhase_inters]
      show ((freshInters cfg).getD i default) = default
      rw [freshInters, getD_map_default]
    · next hp2 =>
      have hpall : cfg.p = PMode.all := not_not.mp hp2
      by_cases hi : i < (allInteractions cfg).length
      · rw [if_pos ⟨hpall, hi⟩]
        exact detPhase_iGet_of_fresh cfg _
          (by
            show ((List.range (allSets cfg).length).foldl
              (ctorLocOuter cfg _) _).inters = freshInters cfg
            rw [ctorLocFold_inters, buildPhase_inters]) i hi
      · rw [if_neg (fun hc => hi hc.2)]
        show ((List.range (allInteractions cfg).length).foldl
          (ctorDetOuter cfg) _).inters.getD i default = default
        rw [List.getD_eq_getElem?_getD, List.getElem?_eq_none]
        · rfl
        · show ((List.range (allInteractions cfg).length).foldl
            (ctorDetOuter cfg) _).inters.length ≤ i
          rw [ctorDetFold_inters_length]
          show ((List.range (allSets cfg).length).foldl
            (ctorLocOuter cfg _) _).inters.length ≤ i
          rw [ctorLocFold_inters]
          show (buildPhase cfg _).inters.length ≤ i
          rw [buildPhase_inters]
          show (freshInters cfg).length ≤ i
          rw [freshInters_length]
          omega


/-- The freshly constructed array satisfies the invariant with no committed
rows. -/
theorem Inv_init (cfg : Config) : Inv cfg [] (ctor_state cfg) := by
  obtain ⟨h1, h2, h3, h4, h5, h6⟩ := ctor_entities cfg
  refine ⟨h1, by rw [h2]; rfl, h3, h4,
    by rw [h5]; exact freshTSets_length cfg, ?_, ?_, ?_, ?_⟩
  · intro sp hsp
    rw [h6]
    unfold sRowSet
    rw [hitRows_nil]
  · intro i hi
    rw [ctor_iGet]
    unfold iRowSet
    rw [hitRows_nil]
    split
    · rfl
    · rfl
  · intro j hj
    rw [ctor_tGet]
    unfold tRowSet
    rw [hitRows_nil]
    rfl
  · intro hp i hi
    rw [ctor_iGet, if_pos ⟨hp, hi⟩]
    refine ⟨?_, ?_, ?_⟩
    · show ((deltaKeys cfg i).map (fun j => (j, (0 : ℤ)))).map Prod.fst
        = deltaKeys cfg i
      simp
      exact List.map_id _
    · show false = true ↔ (false = true ∧ _)
      simp
    · intro hdet j hj2
      show aGet ((deltaKeys cfg i).map (fun j => (j, (0 : ℤ)))) j
        = (diffCard cfg [] i j : ℤ)
      rw [aGet_map_zero _ j hj2, diffCard_nil]
      rfl


/-! ## `updateCore` characterization -/

theorem updateCore_rows (cfg : Config) (S : AState) (r : List ℕ) :
    (updateCore cfg S r).rows = S.rows ++ [r] := by
  unfold updateCore
  dsimp only
  have hloc : ∀ s3 : AState, (if cfg.p ≠ PMode.c_only ∧ s3.is_locating = false
      then (rowTSets cfg (build_row_interactions cfg r)).foldl
        (fun s j => locOne cfg s j
          (rowTSets cfg (build_row_interactions cfg r))) s3
      else s3).rows = s3.rows := by
    intro s3
    split
    · exact (locFrame_locFold cfg _ _ s3).1
    · rfl
  rw [hloc, (cdFrame_cdFold cfg _ _ _).1]
  exact (nonEnt_insertPhase cfg _ _ _).2.2.2.2.2.2.1

theorem updateCore_num_tests (cfg : Config) (S : AState) (r : List ℕ) :
    (updateCore cfg S r).num_tests = S.num_tests + 1 := by
  unfold updateCore
  dsimp only
  have hloc : ∀ s3 : AState, (if cfg.p ≠ PMode.c_only ∧ s3.is_locating = false
      then (rowTSets cfg (build_row_interactions cfg r)).foldl
        (fun s j => locOne cfg s j
          (rowTSets cfg (build_row_interactions cfg r))) s3
      else s3).num_tests = s3.num_tests := by
    intro s3
    split
    · exact (locFrame_locFold cfg _ _ s3).2.1
    · rfl
  rw [hloc, (cdFrame_cdFold cfg _ _ _).2.1]
  exact (nonEnt_insertPhase cfg _ _ _).2.2.2.2.2.1

theorem updateCore_lensEq (cfg : Config) (S : AState) (r : List ℕ) :
    LensEq S (updateCore cfg S r) := by
  unfold updateCore
  dsimp only
  have hloc : ∀ s3 : AState, LensEq s3
      (if cfg.p ≠ PMode.c_only ∧ s3.is_locating = false
      then (rowTSets cfg (build_row_interactions cfg r)).foldl
        (fun s j => locOne cfg s j
          (rowTSets cfg (build_row_interactions cfg r))) s3
      else s3) := by
    intro s3
    split
    · exact (locFrame_locFold cfg _ _ s3).2.2.2.2.2.2.2.2.2
    · exact lensEq_refl s3
  refine lensEq_trans ?_ (hloc _)
  refine lensEq_trans ?_ ((cdFrame_cdFold cfg _ _ _).2.2.2.2.2.2.2)
  exact lensEq_insertPhase cfg _ _ _

theorem updateCore_sGet_rows (cfg : Config) (S : AState) (r : List ℕ)
    (sp : SP) (hsp : sp ∈ allSingles cfg)
    (hlen : S.singles.length = (allSingles cfg).length) :
    (sGet (updateCore cfg S r) (singleIdx cfg sp)).rows =
      if ∃ i ∈ build_row_interactions cfg r, sp ∈ interSingles cfg i then
        insert (S.num_tests + 1) (sGet S (singleIdx cfg sp)).rows
      else (sGet S (singleIdx cfg sp)).rows := by
  unfold updateCore
  dsimp only
  have hloc : ∀ s3 : AState,
      (sGet (if cfg.p ≠ PMode.c_only ∧ s3.is_locating = false
      then (rowTSets cfg (build_row_interactions cfg r)).foldl
        (fun s j => locOne cfg s j
          (rowTSets cfg (build_row_interactions cfg r))) s3
      else s3) (singleIdx cfg sp)).rows = (sGet s3 (singleIdx cfg sp)).rows := by
    intro s3
    split
    · exact (locFrame_locFold cfg _ _ s3).2.2.2.2.2.2.1 (singleIdx cfg sp)
    · rfl
  rw [hloc, (cdFrame_cdFold cfg _ _ _).2.2.2.2.2.1 (singleIdx cfg sp)]
  exact insertPhase_sGet_rows cfg _ _ _ sp hsp hlen
    (fun i hi => ((mem_build_row_interactions cfg).mp hi).1)

theorem updateCore_iGet (cfg : Config) (S : AState) (r : List ℕ) (i : ℕ)
    (hi : i < S.inters.length) :
    iGet (updateCore cfg S r) i =
      if i ∈ build_row_interactions cfg r then
        cdEntry cfg i (rowTSets cfg (build_row_interactions cfg r))
          { iGet S i with rows := insert (S.num_tests + 1) (iGet S i).rows }
      else iGet S i := by
  unfold updateCore
  dsimp only
  have hloc : ∀ s3 : AState,
      iGet (if cfg.p ≠ PMode.c_only ∧ s3.is_locating = false
      then (rowTSets cfg (build_row_interactions cfg r)).foldl
        (fun s j => locOne cfg s j
          (rowTSets cfg (build_row_interactions cfg r))) s3
      else s3) i = iGet s3 i := by
    intro s3
    split
    · exact (locFrame_locFold cfg _ _ s3).2.2.2.2.2.2.2.1 i
    · rfl
  rw [hloc]
  rw [cdFold_iGet cfg (rowTSets cfg (build_row_interactions cfg r))
    (build_row_interactions cfg r) (build_row_interactions_nodup cfg r)
    (insertPhase cfg
      { S with rows := S.rows ++ [r], num_tests := S.num_tests + 1 }
      (build_row_interactions cfg r) (S.num_tests + 1)) i
    (by rw [(lensEq_insertPhase cfg _ _ _).2.1]; exact hi)]
  rw [insertPhase_iGet cfg
    { S with rows := S.rows ++ [r], num_tests := S.num_tests + 1 }
    (build_row_interactions cfg r) (S.num_tests + 1) i
    (build_row_interactions_nodup cfg r) hi]
  split
  · rfl
  · rfl

theorem updateCore_tGet_rows (cfg : Config) (S : AState) (r : List ℕ)
    (j : ℕ) (hj : j < S.tsets.length) :
    (tGet (updateCore cfg S r) j).rows =
      if ∃ i ∈ build_row_interactions cfg r, j ∈ setsContaining cfg i then
        insert (S.num_tests + 1) (tGet S j).rows
      else (tGet S j).rows := by
  unfold updateCore
  dsimp only
  have hloc : ∀ s3 : AState,
      (tGet (if cfg.p ≠ PMode.c_only ∧ s3.is_locating = false
      then (rowTSets cfg (build_row_interactions cfg r)).foldl
        (fun s j2 => locOne cfg s j2
          (rowTSets cfg (build_row_interactions cfg r))) s3
      else s3) j).rows = (tGet s3 j).rows := by
    intro s3
    split
    · exact (locFrame_locFold cfg _ _ s3).2.2.2.2.2.2.2.2.1 j
    · rfl
  rw [hloc, congrArg TSt.rows ((cdFrame_cdFold cfg _ _ _).2.2.2.2.2.2.1 j)]
  rw [insertPhase_tGet cfg
    { S with rows := S.rows ++ [r], num_tests := S.num_tests + 1 }
    (build_row_interactions cfg r) (S.num_tests + 1) j hj]
  split
  · rfl
  · rfl


theorem all_not_lt_iff (dv : ℤ) (keys : List ℕ) (f : ℕ → ℤ) :
    (keys.all fun k => !(decide (f k < dv))) = true ↔ ∀ k ∈ keys, dv ≤ f k := by
  rw [List.all_eq_true]
  constructor
  · intro h k hk
    have h2 := h k hk
    rw [Bool.not_eq_true'] at h2
    have h3 := of_decide_eq_false h2
    omega
  · intro h k hk
    show (!(decide (f k < dv))) = true
    rw [Bool.not_eq_true']
    exact decide_eq_false (by have := h k hk; omega)

theorem detEntry_skip (cfg : Config) (i : ℕ) (rowS : List ℕ) (e : InterSt)
    (h : e.is_detectable = true) : detEntry cfg i rowS e = e := by
  unfold detEntry
  rw [if_pos h]

/-- The verdict and delta updates of the detection branch, for an entry whose
delta keys are exactly the T-sets not containing the interaction. -/
theorem detEntry_char (cfg : Config) (i : ℕ) (rowS : List ℕ)
    (hndS : rowS.Nodup) (hbound : ∀ x ∈ rowS, x < (allSets cfg).length)
    (e : InterSt) (hdet : e.is_detectable = false)
    (hk : e.deltas.map Prod.fst = deltaKeys cfg i) :
    (detEntry cfg i rowS e).deltas.map Prod.fst = deltaKeys cfg i ∧
    (∀ j ∈ deltaKeys cfg i,
      aGet (detEntry cfg i rowS e).deltas j =
        if j ∈ rowS then aGet e.deltas j else aGet e.deltas j + 1) ∧
    ((detEntry cfg i rowS e).is_detectable = true ↔
      ∀ j ∈ deltaKeys cfg i, (cfg.delta : ℤ) ≤
        (if j ∈ rowS then aGet e.deltas j else aGet e.deltas j + 1)) := by
  unfold detEntry
  rw [if_neg (by rw [hdet]; exact Bool.false_ne_true)]
  dsimp only
  have hndO : (rowS.filter fun j => i ∉ (allSets cfg).getD j []).Nodup :=
    hndS.filter _
  have hsub : ∀ x ∈ rowS.filter fun j => i ∉ (allSets cfg).getD j [],
      x ∈ e.deltas.map Prod.fst := by
    intro x hx
    rw [List.mem_filter] at hx
    rw [hk, mem_deltaKeys]
    exact ⟨hbound x hx.1, of_decide_eq_true hx.2⟩
  have he : (pass1D (rowS.filter fun j => i ∉ (allSets cfg).getD j [])
      e.deltas).map Prod.fst = deltaKeys cfg i := by
    rw [map_fst_pass1D, hk]
  have hOmem : ∀ j ∈ deltaKeys cfg i,
      (j ∈ rowS.filter fun j => i ∉ (allSets cfg).getD j []) ↔ j ∈ rowS := by
    intro j hj
    rw [List.mem_filter]
    constructor
    · exact fun h => h.1
    · intro h
      refine ⟨h, ?_⟩
      have := ((mem_deltaKeys cfg).mp hj).2
      exact decide_eq_true this
  have hget1 : ∀ j ∈ deltaKeys cfg i,
      aGet (pass1D (rowS.filter fun j => i ∉ (allSets cfg).getD j [])
        e.deltas) j =
        if j ∈ rowS then aGet e.deltas j - 1 else aGet e.deltas j := by
    intro j hj
    rw [aGet_pass1D _ hndO _ hsub j]
    by_cases hjr : j ∈ rowS
    · rw [if_pos ((hOmem j hj).mpr hjr), if_pos hjr]
    · rw [if_neg (fun hc => hjr ((hOmem j hj).mp hc)), if_neg hjr]
  rw [he]
  obtain ⟨hc1, hc2, hc3⟩ := pass2DB_char (cfg.delta : ℤ) (deltaKeys cfg i)
    (pass1D (rowS.filter fun j => i ∉ (allSets cfg).getD j []) e.deltas)
    true (deltaKeys_nodup cfg i)
  refine ⟨?_, ?_, ?_⟩
  · show (pass2DB _ _ _).1.map Prod.fst = _
    rw [hc1, he]
  · intro j hj
    show aGet (pass2DB _ _ _).1 j = _
    rw [hc2 j (by rw [he]; exact hj), if_pos hj, hget1 j hj]
    by_cases hjr : j ∈ rowS
    · rw [if_pos hjr, if_pos hjr]
      omega
    · rw [if_neg hjr, if_neg hjr]
  · show (pass2DB _ _ _).2 = true ↔ _
    rw [hc3, Bool.true_and,
      all_not_lt_iff (cfg.delta : ℤ) (deltaKeys cfg i)
        (fun k => aGet (pass1D (rowS.filter fun j =>
          i ∉ (allSets cfg).getD j []) e.deltas) k + 1)]
    constructor
    · intro h j hj
      have h2 := h j hj
      rw [hget1 j hj] at h2
      by_cases hjr : j ∈ rowS
      · rw [if_pos hjr] at h2
        rw [if_pos hjr]
        omega
      · rw [if_neg hjr] at h2
        rw [if_neg hjr]
        omega
    · intro h j hj
      have h2 := h j hj
      rw [hget1 j hj]
      by_cases hjr : j ∈ rowS
      · rw [if_pos hjr] at h2
        rw [if_pos hjr]
        omega
      · rw [if_neg hjr] at h2
        rw [if_neg hjr]
        omega


/-- Committing a valid row with `keep = true` preserves the invariant. -/
theorem Inv_step (cfg : Config) (ht1 : 1 ≤ cfg.t) (htF : cfg.t ≤ cfg.nf)
    (rs : List (List ℕ)) (r : List ℕ) (hr : validRow cfg r) (S : AState)
    (h : Inv cfg rs S) : Inv cfg (rs ++ [r]) (update_array cfg S r true) := by
  obtain ⟨hrows, hnt, hsl, hil, htl, hsr, hir, htr, hdetc⟩ := h
  show Inv cfg (rs ++ [r]) (updateCore cfg S r)
  have hnlen : S.num_tests + 1 = rs.length + 1 := by rw [hnt]
  refine ⟨?_, ?_, ?_, ?_, ?_, ?_, ?_, ?_, ?_⟩
  · rw [updateCore_rows, hrows]
  · rw [updateCore_num_tests, hnt, List.length_append]
    rfl
  · rw [(updateCore_lensEq cfg S r).1, hsl]
  · rw [(updateCore_lensEq cfg S r).2.1, hil]
  · rw [(updateCore_lensEq cfg S r).2.2, htl]
  · intro sp hsp
    rw [updateCore_sGet_rows cfg S r sp hsp hsl, sRowSet_append,
      hsr sp hsp, hnlen]
    have hiff := exists_rowI_single_iff cfg r hr ht1 htF sp hsp
    by_cases hx : r.get? sp.1 = some sp.2
    · rw [if_pos (hiff.mpr hx), if_pos hx]
    · rw [if_neg (fun hc => hx (hiff.mp hc)), if_neg hx]
  · intro i hi
    have hi2 : i < S.inters.length := by rw [hil]; exact hi
    rw [updateCore_iGet cfg S r i hi2]
    by_cases him : i ∈ build_row_interactions cfg r
    · rw [if_pos him, cdEntry_rows]
      show insert (S.num_tests + 1) (iGet S i).rows = _
      rw [hir i hi, hnlen, iRowSet_append,
        if_pos ((mem_build_row_interactions cfg).mp him).2]
    · have hcI : ¬ containsInter r (interSingles cfg i) = true :=
        fun hc => him ((mem_build_row_interactions cfg).mpr ⟨hi, hc⟩)
      rw [if_neg him, hir i hi, iRowSet_append, if_neg hcI]
  · intro j hj
    have hj2 : j < S.tsets.length := by rw [htl]; exact hj
    rw [updateCore_tGet_rows cfg S r j hj2, htr j hj, tRowSet_append]
    have hiff := exists_rowI_tset_iff cfg r j hj
    by_cases hx : (((allSets cfg).getD j []).any fun i =>
        containsInter r (interSingles cfg i)) = true
    · rw [if_pos (hiff.mpr hx), if_pos hx, hnlen]
    · rw [if_neg (fun hc => hx (hiff.mp hc)), if_neg hx]
  · intro hp i hi
    have hi2 : i < S.inters.length := by rw [hil]; exact hi
    obtain ⟨hk, hflag, hvals⟩ := hdetc hp i hi
    rw [updateCore_iGet cfg S r i hi2]
    by_cases him : i ∈ build_row_interactions cfg r
    · rw [if_pos him]
      have hcd : cdEntry cfg i (rowTSets cfg (build_row_interactions cfg r))
          { iGet S i with
              rows := insert (S.num_tests + 1) (iGet S i).rows } =
          detEntry cfg i (rowTSets cfg (build_row_interactions cfg r))
            (covEntry { iGet S i with
              rows := insert (S.num_tests + 1) (iGet S i).rows }) := by
        unfold cdEntry
        rw [if_pos hp]
      rw [hcd]
      have hndS := rowTSets_nodup cfg (build_row_interactions cfg r)
      have hbound : ∀ x ∈ rowTSets cfg (build_row_interactions cfg r),
          x < (allSets cfg).length :=
        fun x hx => ((mem_rowTSets cfg).mp hx).1
      have hdiff : ∀ j ∈ deltaKeys cfg i,
          (diffCard cfg (rs ++ [r]) i j : ℤ) =
            if j ∈ rowTSets cfg (build_row_interactions cfg r) then
              (diffCard cfg rs i j : ℤ)
            else (diffCard cfg rs i j : ℤ) + 1 := by
        intro j hj
        obtain ⟨hjlt, hjni⟩ := (mem_deltaKeys cfg).mp hj
        have hanyiff := mem_rowS_iff_any cfg r j hjlt
        rw [diffCard_append]
        by_cases hjr : j ∈ rowTSets cfg (build_row_interactions cfg r)
        · rw [if_neg (fun hc => hc.2 (hanyiff.mp hjr)), if_pos hjr]
        · rw [if_pos ⟨((mem_build_row_interactions cfg).mp him).2,
            fun hc => hjr (hanyiff.mpr hc)⟩, if_neg hjr]
          push_cast
          ring
      cases hdet : (iGet S i).is_detectable with
      | true =>
        have hskip : detEntry cfg i
            (rowTSets cfg (build_row_interactions cfg r))
            (covEntry { iGet S i with
              rows := insert (S.num_tests + 1) (iGet S i).rows }) =
            covEntry { iGet S i with
              rows := insert (S.num_tests + 1) (iGet S i).rows } :=
          detEntry_skip cfg i _ _ (by rw [covEntry_is_detectable]; exact hdet)
        rw [hskip]
        obtain ⟨hcov, hge⟩ := hflag.mp hdet
        refine ⟨?_, ?_, ?_⟩
        · rw [covEntry_deltas]
          exact hk
        · rw [covEntry_is_detectable, covEntry_is_covered]
          show (iGet S i).is_detectable = true ↔ _
          rw [hdet]
          constructor
          · intro hx
            refine ⟨rfl, ?_⟩
            intro j hj
            have h1 := hge j hj
            have h2 := diffCard_le_append cfg rs r i j
            omega
          · intro hx
            rfl
        · intro habs
          rw [covEntry_is_detectable] at habs
          have habs2 : (iGet S i).is_detectable = false := habs
          rw [hdet] at habs2
          cases habs2
      | false =>
        have hdet2 : (covEntry { iGet S i with
            rows := insert (S.num_tests + 1) (iGet S i).rows }).is_detectable
            = false := by
          rw [covEntry_is_detectable]
          exact hdet
        have hk2 : (covEntry { iGet S i with
            rows := insert (S.num_tests + 1) (iGet S i).rows }).deltas.map
              Prod.fst = deltaKeys cfg i := by
          rw [covEntry_deltas]
          exact hk
        obtain ⟨hd1, hd2, hd3⟩ := detEntry_char cfg i
          (rowTSets cfg (build_row_interactions cfg r)) hndS hbound
          (covEntry { iGet S i with
            rows := insert (S.num_tests + 1) (iGet S i).rows }) hdet2 hk2
        have hvv : ∀ j ∈ deltaKeys cfg i,
            (if j ∈ rowTSets cfg (build_row_interactions cfg r) then
              aGet (covEntry { iGet S i with
                rows := insert (S.num_tests + 1) (iGet S i).rows }).deltas j
            else aGet (covEntry { iGet S i with
                rows := insert (S.num_tests + 1) (iGet S i).rows }).deltas j
              + 1) = (diffCard cfg (rs ++ [r]) i j : ℤ) := by
          intro j hj
          have hOld : aGet (covEntry { iGet S i with
              rows := insert (S.num_tests + 1) (iGet S i).rows }).deltas j
              = (diffCard cfg rs i j : ℤ) := by
            rw [covEntry_deltas]
            exact hvals hdet j hj
          rw [hOld, hdiff j hj]
        refine ⟨hd1, ?_, ?_⟩
        · rw [hd3, detEntry_is_covered, covEntry_is_covered]
          constructor
          · intro hh
            refine ⟨rfl, ?_⟩
            intro j hj
            rw [← hvv j hj]
            exact hh j hj
          · rintro ⟨-, hh⟩ j hj
            rw [hvv j hj]
            exact hh j hj
        · intro hfl j hj
          rw [hd2 j hj, hvv j hj]
    · rw [if_neg him]
      have hdiffsame : ∀ j, diffCard cfg (rs ++ [r]) i j
          = diffCard cfg rs i j := by
        intro j
        rw [diffCard_append, if_neg (fun hc =>
          him ((mem_build_row_interactions cfg).mpr ⟨hi, hc.1⟩))]
      refine ⟨hk, ?_, ?_⟩
      · constructor
        · intro hx
          obtain ⟨ha, hb⟩ := hflag.mp hx
          refine ⟨ha, ?_⟩
          intro j hj
          rw [hdiffsame j]
          exact hb j hj
        · rintro ⟨ha, hb⟩
          refine hflag.mpr ⟨ha, ?_⟩
          intro j hj
          rw [← hdiffsame j]
          exact hb j hj
      · intro hfl j hj
        rw [hdiffsame j]
        exact hvals hfl j hj


/-- Every reachable committed state satisfies the invariant. -/
theorem Inv_commit (cfg : Config) (ht1 : 1 ≤ cfg.t) (htF : cfg.t ≤ cfg.nf)
    (rs : List (List ℕ)) (hv : ∀ r ∈ rs, validRow cfg r) :
    Inv cfg rs (commit_rows cfg rs) := by
  revert hv
  induction rs using List.reverseRecOn with
  | nil =>
    intro hv
    exact Inv_init cfg
  | append_singleton l a ih =>
    intro hv
    have h1 := ih (fun r hr => hv r (by simp [hr]))
    have h2 := Inv_step cfg ht1 htF l a (hv a (by simp))
      (commit_rows cfg l) h1
    show Inv cfg (l ++ [a]) (commit_rows cfg (l ++ [a]))
    unfold commit_rows
    rw [List.foldl_append]
    exact h2


/-! ## Rollback (`keep = false`) characterization -/

theorem bumpSingles_erase_sGet (cfg : Config) (s : AState) (sps : List SP)
    (n : ℕ) (k : ℕ) :
    (sGet (bumpSingles cfg s sps
        (fun e => { e with rows := e.rows.erase n })) k).rows =
      if ∃ sp ∈ sps, singleIdx cfg sp = k ∧ k < s.singles.length then
        (sGet s k).rows.erase n
      else (sGet s k).rows := by
  unfold bumpSingles
  refine foldl_proj_idem_inv (fun s => (sGet s k).rows) _ (fun b => b.erase n)
    (fun sp => singleIdx cfg sp = k ∧ k < s.singles.length)
    (fun s' => s'.singles.length = s.singles.length)
    (fun b => Finset.erase_idem) sps s rfl ?_ ?_ ?_
  · intro s' sp _ hI
    have := (lensEq_updSingle s' (singleIdx cfg sp)
      (fun e => { e with rows := e.rows.erase n })).1
    rw [this, hI]
  · intro s' sp _ hI hP
    show (sGet (updSingle s' (singleIdx cfg sp) _) k).rows = (sGet s' k).rows
    rw [sGet_updSingle]
    rw [if_neg]
    intro hc
    exact hP ⟨hc.1.symm, by rw [← hI]; exact hc.1 ▸ hc.2⟩
  · intro s' sp _ hI hP
    show (sGet (updSingle s' (singleIdx cfg sp) _) k).rows
        = (sGet s' k).rows.erase n
    rw [sGet_updSingle, if_pos ⟨hP.1.symm, by rw [hI]; exact hP.1.symm ▸ hP.2⟩]

theorem lensEq_eraseOne (cfg : Config) (n : ℕ) (s : AState) (i : ℕ) :
    LensEq s (eraseOne cfg n s i) := by
  unfold eraseOne
  exact lensEq_trans
    (lensEq_bumpSingles cfg s (interSingles cfg i)
      (fun e => { e with rows := e.rows.erase n }))
    (lensEq_updInter _ i _)

theorem eraseOne_sGet_rows (cfg : Config) (n : ℕ) (s : AState) (i : ℕ)
    (k : ℕ) :
    (sGet (eraseOne cfg n s i) k).rows =
      if ∃ sp ∈ interSingles cfg i, singleIdx cfg sp = k ∧
          k < s.singles.length then
        (sGet s k).rows.erase n
      else (sGet s k).rows := by
  unfold eraseOne
  dsimp only
  show (sGet (bumpSingles cfg s (interSingles cfg i)
    (fun e => { e with rows := e.rows.erase n })) k).rows = _
  exact bumpSingles_erase_sGet cfg s (interSingles cfg i) n k

theorem eraseOne_iGet (cfg : Config) (n : ℕ) (s : AState) (i : ℕ) (i' : ℕ) :
    iGet (eraseOne cfg n s i) i' =
      if i' = i ∧ i < s.inters.length then
        { iGet s i' with rows := (iGet s i').rows.erase n }
      else iGet s i' := by
  unfold eraseOne
  dsimp only
  have hbi : ∀ i2, iGet (bumpSingles cfg s (interSingles cfg i)
      (fun e => { e with rows := e.rows.erase n })) i2 = iGet s i2 := by
    intro i2
    have hbe : (bumpSingles cfg s (interSingles cfg i)
        (fun e => { e with rows := e.rows.erase n })).inters = s.inters :=
      bumpSingles_inters cfg s _ _
    simp [iGet, hbe]
  rw [iGet_updInter, (lensEq_bumpSingles cfg s (interSingles cfg i)
    (fun e => { e with rows := e.rows.erase n })).2.1]
  simp only [hbi]

theorem eraseFold_sGet_rows (cfg : Config) (s : AState) (rowI : List ℕ)
    (n : ℕ) (sp : SP) (hsp : sp ∈ allSingles cfg)
    (hlen : s.singles.length = (allSingles cfg).length)
    (hsub : ∀ i ∈ rowI, i < (allInteractions cfg).length) :
    (sGet (rowI.foldl (eraseOne cfg n) s) (singleIdx cfg sp)).rows =
      if ∃ i ∈ rowI, sp ∈ interSingles cfg i then
        (sGet s (singleIdx cfg sp)).rows.erase n
      else (sGet s (singleIdx cfg sp)).rows := by
  refine foldl_proj_idem_inv (fun s => (sGet s (singleIdx cfg sp)).rows)
    (eraseOne cfg n) (fun b => b.erase n)
    (fun i => sp ∈ interSingles cfg i)
    (fun s' => s'.singles.length = (allSingles cfg).length)
    (fun b => Finset.erase_idem) rowI s hlen ?_ ?_ ?_
  · intro s' i _ hI
    rw [(lensEq_eraseOne cfg n s' i).1, hI]
  · intro s' i hi hI hP
    dsimp only
    rw [eraseOne_sGet_rows cfg n s' i (singleIdx cfg sp), if_neg]
    rintro ⟨sp2, hsp2, he, -⟩
    exact hP (singleIdx_inj cfg (interSingles_sub cfg i (hsub i hi) sp2 hsp2)
      hsp he ▸ hsp2)
  · intro s' i hi hI hP
    dsimp only
    rw [eraseOne_sGet_rows cfg n s' i (singleIdx cfg sp), if_pos]
    exact ⟨sp, hP, rfl, by rw [hI]; exact (singleIdx_spec cfg hsp).1⟩

theorem eraseFold_iGet (cfg : Config) (s : AState) (rowI : List ℕ) (n : ℕ)
    (i : ℕ) (hnd : rowI.Nodup) (hi : i < s.inters.length) :
    iGet (rowI.foldl (eraseOne cfg n) s) i =
      if i ∈ rowI then
        { iGet s i with rows := (iGet s i).rows.erase n }
      else iGet s i := by
  refine foldl_proj_point_inv (fun s => iGet s i) (eraseOne cfg n)
    (fun e => { e with rows := e.rows.erase n }) i
    (fun s' => s'.inters.length = s.inters.length) rowI hnd s rfl ?_ ?_ ?_
  · intro s' i2 _ hI
    rw [(lensEq_eraseOne cfg n s' i2).2.1, hI]
  · intro s' i2 _ hI hne
    dsimp only
    rw [eraseOne_iGet cfg n s' i2 i, if_neg (fun hc => hne hc.1.symm)]
  · intro s' hI
    dsimp only
    rw [eraseOne_iGet cfg n s' i i, if_pos ⟨rfl, by rw [hI]; exact hi⟩]

theorem tEraseFold_tGet_rows (cfg : Config) (s : AState) (rowS : List ℕ)
    (n : ℕ) (j : ℕ) (hnd : rowS.Nodup) (hj : j < s.tsets.length) :
    (tGet (rowS.foldl (eraseT n) s) j).rows =
      if j ∈ rowS then (tGet s j).rows.erase n else (tGet s j).rows := by
  refine foldl_proj_point_inv (fun s => (tGet s j).rows) (eraseT n)
    (fun b => b.erase n) j
    (fun s' => s'.tsets.length = s.tsets.length) rowS hnd s rfl
    ?_ ?_ ?_
  · intro s' j2 _ hI
    show (updT s' j2 _).tsets.length = s.tsets.length
    rw [(lensEq_updT s' j2 _).2.2, hI]
  · intro s' j2 _ hI hne
    show (tGet (updT s' j2 _) j).rows = (tGet s' j).rows
    rw [tGet_updT_ne s' j2 _ j (Ne.symm hne)]
  · intro s' hI
    show (tGet (updT s' j _) j).rows = (tGet s' j).rows.erase n
    rw [tGet_updT_self s' j _ (by rw [hI]; exact hj)]

theorem update_false_proj {δ : Type} (cfg : Config) (S : AState)
    (r : List ℕ) (π : AState → δ)
    (hS : ∀ (s : AState) (k n : ℕ),
      π (updSingle s k (fun e => { e with rows := e.rows.erase n })) = π s)
    (hI : ∀ (s : AState) (i n : ℕ),
      π (updInter s i (fun e => { e with rows := e.rows.erase n })) = π s)
    (hT : ∀ (s : AState) (j n : ℕ),
      π (updT s j (fun e => { e with rows := e.rows.erase n })) = π s)
    (hR : ∀ (s : AState) (nt : ℕ) (rw2 : List (List ℕ)),
      π { s with num_tests := nt, rows := rw2 } = π s) :
    π (update_array cfg S r false) = π (updateCore cfg S r) := by
  unfold update_array
  rw [if_neg Bool.false_ne_true]
  dsimp only
  rw [hR]
  have hE : ∀ (s : AState) (n i : ℕ), π (eraseOne cfg n s i) = π s := by
    intro s n i
    unfold eraseOne
    dsimp only
    rw [hI]
    unfold bumpSingles
    refine foldl_proj_const π _ _ s ?_
    intro s' sp _
    exact hS s' (singleIdx cfg sp) n
  refine Eq.trans (foldl_proj_const π _ _ _ ?_) ?_
  · intro s' j _
    exact hT s' j _
  refine foldl_proj_const π (eraseOne cfg (updateCore cfg S r).num_tests) _ _ ?_
  intro s' i _
  exact hE s' _ i

theorem update_false_sGet_field {δ : Type} (cfg : Config) (S : AState)
    (r : List ℕ) (φ : SingleSt → δ)
    (hφ : ∀ (e : SingleSt) (rw2 : Finset ℕ), φ { e with rows := rw2 } = φ e)
    (k : ℕ) :
    φ (sGet (update_array cfg S r false) k) =
      φ (sGet (updateCore cfg S r) k) := by
  refine update_false_proj cfg S r (fun s => φ (sGet s k)) ?_ ?_ ?_ ?_
  · intro s k2 n
    show φ (sGet (updSingle s k2 _) k) = φ (sGet s k)
    rw [sGet_updSingle]
    split
    · exact hφ _ _
    · rfl
  · intro s i n
    rfl
  · intro s j n
    rfl
  · intro s nt rw2
    rfl


theorem update_false_iGet_field {δ : Type} (cfg : Config) (S : AState)
    (r : List ℕ) (φ : InterSt → δ)
    (hφ : ∀ (e : InterSt) (rw2 : Finset ℕ), φ { e with rows := rw2 } = φ e)
    (i : ℕ) :
    φ (iGet (update_array cfg S r false) i) =
      φ (iGet (updateCore cfg S r) i) := by
  refine update_false_proj cfg S r (fun s => φ (iGet s i)) ?_ ?_ ?_ ?_
  · intro s k n
    rfl
  · intro s i2 n
    show φ (iGet (updInter s i2 _) i) = φ (iGet s i)
    rw [iGet_updInter]
    split
    · exact hφ _ _
    · rfl
  · intro s j n
    rfl
  · intro s nt rw2
    rfl

theorem update_false_tGet_field {δ : Type} (cfg : Config) (S : AState)
    (r : List ℕ) (φ : TSt → δ)
    (hφ : ∀ (e : TSt) (rw2 : Finset ℕ), φ { e with rows := rw2 } = φ e)
    (j : ℕ) :
    φ (tGet (update_array cfg S r false) j) =
      φ (tGet (updateCore cfg S r) j) := by
  refine update_false_proj cfg S r (fun s => φ (tGet s j)) ?_ ?_ ?_ ?_
  · intro s k n
    rfl
  · intro s i2 n
    rfl
  · intro s j2 n
    show φ (tGet (updT s j2 _) j) = φ (tGet s j)
    rw [tGet_updT]
    split
    · exact hφ _ _
    · rfl
  · intro s nt rw2
    rfl

theorem eraseTFold_rows (n : ℕ) (L : List ℕ) (s : AState) :
    (L.foldl (eraseT n) s).rows = s.rows :=
  foldl_proj_const AState.rows (eraseT n) L s (fun _ _ _ => rfl)

theorem eraseTFold_num_tests (n : ℕ) (L : List ℕ) (s : AState) :
    (L.foldl (eraseT n) s).num_tests = s.num_tests :=
  foldl_proj_const AState.num_tests (eraseT n) L s (fun _ _ _ => rfl)

theorem eraseTFold_sGet (n : ℕ) (L : List ℕ) (s : AState) (k : ℕ) :
    sGet (L.foldl (eraseT n) s) k = sGet s k :=
  foldl_proj_const (fun s => sGet s k) (eraseT n) L s (fun _ _ _ => rfl)

theorem eraseTFold_iGet (n : ℕ) (L : List ℕ) (s : AState) (i : ℕ) :
    iGet (L.foldl (eraseT n) s) i = iGet s i :=
  foldl_proj_const (fun s => iGet s i) (eraseT n) L s (fun _ _ _ => rfl)

theorem eraseFold_rows (cfg : Config) (n : ℕ) (L : List ℕ) (s : AState) :
    (L.foldl (eraseOne cfg n) s).rows = s.rows := by
  refine foldl_proj_const AState.rows (eraseOne cfg n) L s ?_
  intro s i _
  show (updInter (bumpSingles cfg s (interSingles cfg i)
    (fun e => { e with rows := e.rows.erase n })) i
    (fun e => { e with rows := e.rows.erase n })).rows = s.rows
  exact (nonEnt_bumpSingles cfg s (interSingles cfg i)
    (fun e => { e with rows := e.rows.erase n })).2.2.2.2.2.2.1

theorem eraseFold_num_tests (cfg : Config) (n : ℕ) (L : List ℕ)
    (s : AState) : (L.foldl (eraseOne cfg n) s).num_tests = s.num_tests := by
  refine foldl_proj_const AState.num_tests (eraseOne cfg n) L s ?_
  intro s i _
  show (updInter (bumpSingles cfg s (interSingles cfg i)
    (fun e => { e with rows := e.rows.erase n })) i
    (fun e => { e with rows := e.rows.erase n })).num_tests = s.num_tests
  exact (nonEnt_bumpSingles cfg s (interSingles cfg i)
    (fun e => { e with rows := e.rows.erase n })).2.2.2.2.2.1

theorem eraseFold_tGet (cfg : Config) (n : ℕ) (L : List ℕ) (s : AState)
    (j : ℕ) : tGet (L.foldl (eraseOne cfg n) s) j = tGet s j := by
  refine foldl_proj_const (fun s => tGet s j) (eraseOne cfg n) L s ?_
  intro s i _
  show tGet (updInter (bumpSingles cfg s (interSingles cfg i)
    (fun e => { e with rows := e.rows.erase n })) i
    (fun e => { e with rows := e.rows.erase n })) j = tGet s j
  rw [tGet_updInter]
  show ((bumpSingles cfg s (interSingles cfg i)
    (fun e => { e with rows := e.rows.erase n })).tsets).getD j default = _
  rw [bumpSingles_tsets]
  rfl

theorem eraseFold_tsets_length (cfg : Config) (n : ℕ) (L : List ℕ)
    (s : AState) :
    (L.foldl (eraseOne cfg n) s).tsets.length = s.tsets.length := by
  refine foldl_proj_const (fun s => s.tsets.length) (eraseOne cfg n) L s ?_
  intro s i _
  exact (lensEq_eraseOne cfg n s i).2.2

/-- `keep = false` on a reachable state: the committed row list, `num_tests`
and every entity's `rows` set are restored to their pre-call values. -/
theorem update_false_restores (cfg : Config) (rs : List (List ℕ))
    (S : AState) (h : Inv cfg rs S) (r : List ℕ) :
    (update_array cfg S r false).rows = S.rows ∧
    (update_array cfg S r false).num_tests = S.num_tests ∧
    (∀ sp ∈ allSingles cfg,
      (sGet (update_array cfg S r false) (singleIdx cfg sp)).rows
        = (sGet S (singleIdx cfg sp)).rows) ∧
    (∀ i < (allInteractions cfg).length,
      (iGet (update_array cfg S r false) i).rows = (iGet S i).rows) ∧
    (∀ j < (allSets cfg).length,
      (tGet (update_array cfg S r false) j).rows = (tGet S j).rows) := by
  obtain ⟨hrows, hnt, hsl, hil, htl, hsr, hir, htr, -⟩ := h
  have hn := updateCore_num_tests cfg S r
  have hsl2 : (updateCore cfg S r).singles.length
      = (allSingles cfg).length := by
    rw [(updateCore_lensEq cfg S r).1, hsl]
  have hil2 : (updateCore cfg S r).inters.length
      = (allInteractions cfg).length := by
    rw [(updateCore_lensEq cfg S r).2.1, hil]
  have htl2 : (updateCore cfg S r).tsets.length = (allSets cfg).length := by
    rw [(updateCore_lensEq cfg S r).2.2, htl]
  have hsub : ∀ i ∈ build_row_interactions cfg r,
      i < (allInteractions cfg).length :=
    fun i hi => ((mem_build_row_interactions cfg).mp hi).1
  unfold update_array
  rw [if_neg Bool.false_ne_true]
  dsimp only
  refine ⟨?_, ?_, ?_, ?_, ?_⟩
  · rw [eraseTFold_rows, eraseFold_rows, updateCore_rows]
    exact List.dropLast_concat
  · rw [eraseTFold_num_tests, eraseFold_num_tests, hn]
    omega
  · intro sp hsp
    have h1 : sGet ((rowTSets cfg (build_row_interactions cfg r)).foldl
        (eraseT (updateCore cfg S r).num_tests)
        ((build_row_interactions cfg r).foldl
          (eraseOne cfg (updateCore cfg S r).num_tests)
          (updateCore cfg S r))) (singleIdx cfg sp)
        = sGet ((build_row_interactions cfg r).foldl
          (eraseOne cfg (updateCore cfg S r).num_tests)
          (updateCore cfg S r)) (singleIdx cfg sp) :=
      eraseTFold_sGet _ _ _ _
    show (sGet ((rowTSets cfg (build_row_interactions cfg r)).foldl
        (eraseT (updateCore cfg S r).num_tests)
        ((build_row_interactions cfg r).foldl
          (eraseOne cfg (updateCore cfg S r).num_tests)
          (updateCore cfg S r))) (singleIdx cfg sp)).rows
      = (sGet S (singleIdx cfg sp)).rows
    rw [h1, eraseFold_sGet_rows cfg (updateCore cfg S r)
      (build_row_interactions cfg r) (updateCore cfg S r).num_tests sp hsp
      hsl2 hsub]
    rw [updateCore_sGet_rows cfg S r sp hsp hsl]
    by_cases hx : ∃ i ∈ build_row_interactions cfg r, sp ∈ interSingles cfg i
    · rw [if_pos hx, if_pos hx, hn]
      refine Finset.erase_insert ?_
      rw [hsr sp hsp, hnt]
      exact not_mem_sRowSet_succ rs sp
    · rw [if_neg hx, if_neg hx]
  · intro i hi
    have hi2 : i < S.inters.length := by rw [hil]; exact hi
    show (iGet ((rowTSets cfg (build_row_interactions cfg r)).foldl
        (eraseT (updateCore cfg S r).num_tests)
        ((build_row_interactions cfg r).foldl
          (eraseOne cfg (updateCore cfg S r).num_tests)
          (updateCore cfg S r))) i).rows = (iGet S i).rows
    rw [eraseTFold_iGet, eraseFold_iGet cfg (updateCore cfg S r)
      (build_row_interactions cfg r) (updateCore cfg S r).num_tests i
      (build_row_interactions_nodup cfg r) (by rw [hil2]; exact hi)]
    by_cases hx : i ∈ build_row_interactions cfg r
    · rw [if_pos hx]
      show (iGet (updateCore cfg S r) i).rows.erase
        (updateCore cfg S r).num_tests = _
      rw [updateCore_iGet cfg S r i hi2, if_pos hx, cdEntry_rows, hn]
      show (insert (S.num_tests + 1) (iGet S i).rows).erase
        (S.num_tests + 1) = _
      refine Finset.erase_insert ?_
      rw [hir i hi, hnt]
      exact not_mem_iRowSet_succ cfg rs i
    · rw [if_neg hx]
      rw [updateCore_iGet cfg S r i hi2, if_neg hx]
  · intro j hj
    have hj2 : j < S.tsets.length := by rw [htl]; exact hj
    show (tGet ((rowTSets cfg (build_row_interactions cfg r)).foldl
        (eraseT (updateCore cfg S r).num_tests)
        ((build_row_interactions cfg r).foldl
          (eraseOne cfg (updateCore cfg S r).num_tests)
          (updateCore cfg S r))) j).rows = (tGet S j).rows
    rw [tEraseFold_tGet_rows cfg _ _ _ j
      (rowTSets_nodup cfg (build_row_interactions cfg r))
      (by rw [eraseFold_tsets_length, htl2]; exact hj)]
    rw [eraseFold_tGet, updateCore_tGet_rows cfg S r j hj2]
    have hcond : j ∈ rowTSets cfg (build_row_interactions cfg r) ↔
        ∃ i ∈ build_row_interactions cfg r, j ∈ setsContaining cfg i := by
      rw [mem_rowTSets]
      constructor
      · rintro ⟨hlt, i, him, hiI⟩
        exact ⟨i, hiI, (mem_setsContaining cfg).mpr ⟨hlt, him⟩⟩
      · rintro ⟨i, hiI, hm⟩
        obtain ⟨hlt, him⟩ := (mem_setsContaining cfg).mp hm
        exact ⟨hlt, i, him, hiI⟩
    by_cases hx : j ∈ rowTSets cfg (build_row_interactions cfg r)
    · rw [if_pos hx, if_pos (hcond.mp hx), hn]
      refine Finset.erase_insert ?_
      rw [htr j hj, hnt]
      exact not_mem_tRowSet_succ cfg rs j
    · rw [if_neg hx, if_neg (fun hc => hx (hcond.mpr hc))]


/-! ## Flag monotonicity (update_array never clears a flag) -/

theorem iGet_out_of_range (s : AState) (i : ℕ) (h : s.inters.length ≤ i) :
    iGet s i = default := by
  rw [iGet, List.getD_eq_getElem?_getD, List.getElem?_eq_none h]
  rfl

theorem tGet_out_of_range (s : AState) (j : ℕ) (h : s.tsets.length ≤ j) :
    tGet s j = default := by
  rw [tGet, List.getD_eq_getElem?_getD, List.getElem?_eq_none h]
  rfl

theorem iGet_field_updInter {δ : Type} (s : AState) (i : ℕ)
    (f : InterSt → InterSt) (φ : InterSt → δ) (hφ : ∀ e, φ (f e) = φ e)
    (i' : ℕ) : φ (iGet (updInter s i f) i') = φ (iGet s i') := by
  rw [iGet_updInter]
  split
  · exact hφ _
  · rfl

theorem tGet_locatable_updT_mono (s : AState) (j : ℕ) (f : TSt → TSt)
    (hf : ∀ e, e.is_locatable = true → (f e).is_locatable = true) (j' : ℕ)
    (h : (tGet s j').is_locatable = true) :
    (tGet (updT s j f) j').is_locatable = true := by
  rw [tGet_updT]
  split
  · exact hf _ h
  · exact h

theorem bumpSinglesScore_field (cfg : Config) {δ : Type} (s : AState)
    (sps : List SP) (f : SingleSt → SingleSt) (ds : ℤ) (π : AState → δ)
    (hπ1 : ∀ (s : AState) (k : ℕ), π (updSingle s k f) = π s)
    (hπ2 : ∀ (s : AState) (v : ℤ), π { s with score := v } = π s) :
    π (bumpSinglesScore cfg s sps f ds) = π s := by
  unfold bumpSinglesScore
  refine foldl_proj_const π _ sps s ?_
  intro s sp _
  show π { (updSingle s (singleIdx cfg sp) f) with
    score := (updSingle s (singleIdx cfg sp) f).score + ds } = π s
  rw [hπ2, hπ1]

theorem bumpSinglesScore_is_covering (cfg : Config) (s : AState)
    (sps : List SP) (f : SingleSt → SingleSt) (ds : ℤ) :
    (bumpSinglesScore cfg s sps f ds).is_covering = s.is_covering :=
  bumpSinglesScore_field cfg s sps f ds AState.is_covering
    (fun _ _ => rfl) (fun _ _ => rfl)

theorem bumpSinglesScore_is_detecting (cfg : Config) (s : AState)
    (sps : List SP) (f : SingleSt → SingleSt) (ds : ℤ) :
    (bumpSinglesScore cfg s sps f ds).is_detecting = s.is_detecting :=
  bumpSinglesScore_field cfg s sps f ds AState.is_detecting
    (fun _ _ => rfl) (fun _ _ => rfl)

theorem bumpSinglesScore_is_locating2 (cfg : Config) (s : AState)
    (sps : List SP) (f : SingleSt → SingleSt) (ds : ℤ) :
    (bumpSinglesScore cfg s sps f ds).is_locating = s.is_locating :=
  bumpSinglesScore_field cfg s sps f ds AState.is_locating
    (fun _ _ => rfl) (fun _ _ => rfl)

theorem pass1Step_is_covering (cfg : Config) (i : ℕ) (s : AState) (j : ℕ) :
    (pass1Step cfg i s j).is_covering = s.is_covering := by
  unfold pass1Step
  dsimp only
  show (if aGet (iGet s i).deltas j ≤ (cfg.delta : ℤ) then
      bumpSinglesScore cfg s (interSingles cfg i)
        (fun e => { e with d_issues := e.d_issues + 1 }) 1
    else s).is_covering = s.is_covering
  split
  · exact bumpSinglesScore_is_covering cfg s _ _ _
  · rfl

theorem pass1Step_is_detecting (cfg : Config) (i : ℕ) (s : AState) (j : ℕ) :
    (pass1Step cfg i s j).is_detecting = s.is_detecting := by
  unfold pass1Step
  dsimp only
  show (if aGet (iGet s i).deltas j ≤ (cfg.delta : ℤ) then
      bumpSinglesScore cfg s (interSingles cfg i)
        (fun e => { e with d_issues := e.d_issues + 1 }) 1
    else s).is_detecting = s.is_detecting
  split
  · exact bumpSinglesScore_is_detecting cfg s _ _ _
  · rfl

theorem pass2Step_fst_is_covering (cfg : Config) (i : ℕ) (sd : AState × Bool)
    (j : ℕ) : ((pass2Step cfg i sd j).1).is_covering = sd.1.is_covering := by
  unfold pass2Step
  dsimp only
  split
  · show (bumpSinglesScore cfg (updInter sd.1 i _) _ _ _).is_covering = _
    rw [bumpSinglesScore_is_covering]
    rfl
  · rfl

theorem pass2Step_fst_is_detecting (cfg : Config) (i : ℕ)
    (sd : AState × Bool) (j : ℕ) :
    ((pass2Step cfg i sd j).1).is_detecting = sd.1.is_detecting := by
  unfold pass2Step
  dsimp only
  split
  · show (bumpSinglesScore cfg (updInter sd.1 i _) _ _ _).is_detecting = _
    rw [bumpSinglesScore_is_detecting]
    rfl
  · rfl

theorem pass1_fold_is_covering (cfg : Config) (i : ℕ) :
    ∀ (L : List ℕ) (s : AState),
      (L.foldl (pass1Step cfg i) s).is_covering = s.is_covering := by
  intro L
  induction L with
  | nil => intro s; rfl
  | cons j L ih =>
    intro s
    rw [List.foldl_cons, ih, pass1Step_is_covering]

theorem pass1_fold_is_detecting (cfg : Config) (i : ℕ) :
    ∀ (L : List ℕ) (s : AState),
      (L.foldl (pass1Step cfg i) s).is_detecting = s.is_detecting := by
  intro L
  induction L with
  | nil => intro s; rfl
  | cons j L ih =>
    intro s
    rw [List.foldl_cons, ih, pass1Step_is_detecting]

theorem pass2_fold_is_covering (cfg : Config) (i : ℕ) :
    ∀ (L : List ℕ) (sd : AState × Bool),
      ((L.foldl (pass2Step cfg i) sd).1).is_covering = sd.1.is_covering := by
  intro L
  induction L with
  | nil => intro sd; rfl
  | cons j L ih =>
    intro sd
    rw [List.foldl_cons, ih, pass2Step_fst_is_covering]

theorem pass2_fold_is_detecting (cfg : Config) (i : ℕ) :
    ∀ (L : List ℕ) (sd : AState × Bool),
      ((L.foldl (pass2Step cfg i) sd).1).is_detecting = sd.1.is_detecting := by
  intro L
  induction L with
  | nil => intro sd; rfl
  | cons j L ih =>
    intro sd
    rw [List.foldl_cons, ih, pass2Step_fst_is_detecting]

theorem detectOne_is_covering (cfg : Config) (s : AState) (i : ℕ)
    (rowS : List ℕ) :
    (detectOne cfg s i rowS).is_covering = s.is_covering := by
  unfold detectOne
  split
  · rfl
  · dsimp only
    split
    · split
      · show (List.foldl (pass2Step cfg i)
          (List.foldl (pass1Step cfg i) s _, true) _).1.is_covering
            = s.is_covering
        rw [pass2_fold_is_covering, pass1_fold_is_covering]
      · show (List.foldl (pass2Step cfg i)
          (List.foldl (pass1Step cfg i) s _, true) _).1.is_covering
            = s.is_covering
        rw [pass2_fold_is_covering, pass1_fold_is_covering]
    · show (List.foldl (pass2Step cfg i)
        (List.foldl (pass1Step cfg i) s _, true) _).1.is_covering
          = s.is_covering
      rw [pass2_fold_is_covering, pass1_fold_is_covering]

theorem detectOne_is_detecting_mono (cfg : Config) (s : AState) (i : ℕ)
    (rowS : List ℕ) (h : s.is_detecting = true) :
    (detectOne cfg s i rowS).is_detecting = true := by
  unfold detectOne
  split
  · exact h
  · dsimp only
    split
    · split
      · rfl
      · show (List.foldl (pass2Step cfg i)
          (List.foldl (pass1Step cfg i) s _, true) _).1.is_detecting = true
        rw [pass2_fold_is_detecting, pass1_fold_is_detecting]
        exact h
    · show (List.foldl (pass2Step cfg i)
        (List.foldl (pass1Step cfg i) s _, true) _).1.is_detecting = true
      rw [pass2_fold_is_detecting, pass1_fold_is_detecting]
      exact h

theorem detectOne_iGet_det_mono (cfg : Config) (s : AState) (i : ℕ)
    (rowS : List ℕ) (i' : ℕ) (h : (iGet s i').is_detectable = true) :
    (iGet (detectOne cfg s i rowS) i').is_detectable = true := by
  by_cases hii : i' = i
  · subst hii
    unfold detectOne
    rw [if_pos h]
    exact h
  · rw [detectOne_iGet_ne cfg s i rowS i' hii]
    exact h

theorem detectOne_iGet_cov (cfg : Config) (s : AState) (i : ℕ)
    (rowS : List ℕ) (i' : ℕ) :
    (iGet (detectOne cfg s i rowS) i').is_covered
      = (iGet s i').is_covered := by
  by_cases hii : i' = i
  · subst hii
    by_cases hb : i' < s.inters.length
    · rw [detectOne_iGet_self cfg s i' rowS hb, detEntry_is_covered]
    · have h1 : iGet s i' = default := iGet_out_of_range s i' (by omega)
      have h2 : iGet (detectOne cfg s i' rowS) i' = default :=
        iGet_out_of_range _ i'
          (by rw [(cdFrame_detectOne cfg s i' rowS).2.2.2.2.2.2.2.2.1]; omega)
      rw [h1, h2]
  · rw [detectOne_iGet_ne cfg s i rowS i' hii]


theorem coverOne_iGet_cov_mono (cfg : Config) (s : AState) (i : ℕ) (i' : ℕ)
    (h : (iGet s i').is_covered = true) :
    (iGet (coverOne cfg s i) i').is_covered = true := by
  by_cases hii : i' = i
  · subst hii
    unfold coverOne
    split
    · exact h
    · next hg => exact absurd h hg
  · rw [coverOne_iGet_ne cfg s i i' hii]
    exact h

theorem coverOne_iGet_det (cfg : Config) (s : AState) (i : ℕ) (i' : ℕ) :
    (iGet (coverOne cfg s i) i').is_detectable
      = (iGet s i').is_detectable := by
  unfold coverOne
  split
  · rfl
  · dsimp only
    have hb : ∀ i2, iGet (bumpSinglesScore cfg
        (updInter s i (fun e => { e with is_covered := true }))
        (interSingles cfg i) (fun e => { e with c_issues := e.c_issues - 1 })
        (-1)) i2 =
        iGet (updInter s i (fun e => { e with is_covered := true })) i2 := by
      intro i2
      simp [iGet, bumpSinglesScore_inters]
    split
    · show (iGet (bumpSinglesScore cfg
        (updInter s i (fun e => { e with is_covered := true }))
        (interSingles cfg i) (fun e => { e with c_issues := e.c_issues - 1 })
        (-1)) i').is_detectable = _
      rw [hb i']
      exact iGet_field_updInter s i
        (fun e => { e with is_covered := true })
        InterSt.is_detectable (fun e => rfl) i'
    · show (iGet (bumpSinglesScore cfg
        (updInter s i (fun e => { e with is_covered := true }))
        (interSingles cfg i) (fun e => { e with c_issues := e.c_issues - 1 })
        (-1)) i').is_detectable = _
      rw [hb i']
      exact iGet_field_updInter s i
        (fun e => { e with is_covered := true })
        InterSt.is_detectable (fun e => rfl) i'

theorem coverOne_is_covering_mono (cfg : Config) (s : AState) (i : ℕ)
    (h : s.is_covering = true) :
    (coverOne cfg s i).is_covering = true := by
  unfold coverOne
  split
  · exact h
  · dsimp only
    split
    · rfl
    · show (bumpSinglesScore cfg
        (updInter s i (fun e => { e with is_covered := true }))
        (interSingles cfg i) (fun e => { e with c_issues := e.c_issues - 1 })
        (-1)).is_covering = true
      rw [bumpSinglesScore_is_covering]
      exact h

theorem coverOne_is_detecting (cfg : Config) (s : AState) (i : ℕ) :
    (coverOne cfg s i).is_detecting = s.is_detecting := by
  unfold coverOne
  split
  · rfl
  · dsimp only
    split
    · show (bumpSinglesScore cfg
        (updInter s i (fun e => { e with is_covered := true }))
        (interSingles cfg i) (fun e => { e with c_issues := e.c_issues - 1 })
        (-1)).is_detecting = s.is_detecting
      rw [bumpSinglesScore_is_detecting]
      rfl
    · show (bumpSinglesScore cfg
        (updInter s i (fun e => { e with is_covered := true }))
        (interSingles cfg i) (fun e => { e with c_issues := e.c_issues - 1 })
        (-1)).is_detecting = s.is_detecting
      rw [bumpSinglesScore_is_detecting]
      rfl

/-- Everything the claim calls monotone: per-entity and array-level flags. -/
def FlagsLe (a b : AState) : Prop :=
  (∀ i, (iGet a i).is_covered = true → (iGet b i).is_covered = true) ∧
  (∀ i, (iGet a i).is_detectable = true → (iGet b i).is_detectable = true) ∧
  (∀ j, (tGet a j).is_locatable = true → (tGet b j).is_locatable = true) ∧
  (a.is_covering = true → b.is_covering = true) ∧
  (a.is_locating = true → b.is_locating = true) ∧
  (a.is_detecting = true → b.is_detecting = true)

theorem flagsLe_refl (a : AState) : FlagsLe a a :=
  ⟨fun _ h => h, fun _ h => h, fun _ h => h, fun h => h, fun h => h,
    fun h => h⟩

theorem flagsLe_trans {a b c : AState} (h1 : FlagsLe a b) (h2 : FlagsLe b c) :
    FlagsLe a c :=
  ⟨fun i h => h2.1 i (h1.1 i h), fun i h => h2.2.1 i (h1.2.1 i h),
    fun j h => h2.2.2.1 j (h1.2.2.1 j h),
    fun h => h2.2.2.2.1 (h1.2.2.2.1 h),
    fun h => h2.2.2.2.2.1 (h1.2.2.2.2.1 h),
    fun h => h2.2.2.2.2.2 (h1.2.2.2.2.2 h)⟩

theorem flagsLe_coverOne (cfg : Config) (s : AState) (i : ℕ) :
    FlagsLe s (coverOne cfg s i) := by
  refine ⟨fun i' h => coverOne_iGet_cov_mono cfg s i i' h,
    fun i' h => by rw [coverOne_iGet_det]; exact h,
    fun j h => by rw [(cdFrame_coverOne cfg s i).2.2.2.2.2.2.1 j]; exact h,
    fun h => coverOne_is_covering_mono cfg s i h,
    fun h => by rw [(cdFrame_coverOne cfg s i).2.2.2.2.1]; exact h,
    fun h => by rw [coverOne_is_detecting]; exact h⟩

theorem flagsLe_detectOne (cfg : Config) (s : AState) (i : ℕ)
    (rowS : List ℕ) : FlagsLe s (detectOne cfg s i rowS) := by
  refine ⟨fun i' h => by rw [detectOne_iGet_cov]; exact h,
    fun i' h => detectOne_iGet_det_mono cfg s i rowS i' h,
    fun j h => by
      rw [(cdFrame_detectOne cfg s i rowS).2.2.2.2.2.2.1 j]; exact h,
    fun h => by rw [detectOne_is_covering]; exact h,
    fun h => by rw [(cdFrame_detectOne cfg s i rowS).2.2.2.2.1]; exact h,
    fun h => detectOne_is_detecting_mono cfg s i rowS h⟩

theorem flagsLe_coverDetectOne (cfg : Config) (s : AState) (i : ℕ)
    (rowS : List ℕ) : FlagsLe s (coverDetectOne cfg s i rowS) := by
  unfold coverDetectOne
  dsimp only
  split
  · exact flagsLe_trans (flagsLe_coverOne cfg s i)
      (flagsLe_detectOne cfg (coverOne cfg s i) i rowS)
  · exact flagsLe_coverOne cfg s i

theorem flagsLe_cdFold (cfg : Config) (rowS : List ℕ) :
    ∀ (rowI : List ℕ) (s : AState),
      FlagsLe s (rowI.foldl (fun s i => coverDetectOne cfg s i rowS) s) := by
  intro rowI
  induction rowI with
  | nil => intro s; exact flagsLe_refl s
  | cons a rowI ih =>
    intro s
    exact flagsLe_trans (flagsLe_coverDetectOne cfg s a rowS)
      (ih (coverDetectOne cfg s a rowS))


theorem locConflictStep_is_locating (cfg : Config) (j : ℕ) (s : AState)
    (j2 : ℕ) : (locConflictStep cfg j s j2).is_locating = s.is_locating := by
  unfold locConflictStep
  split
  · rfl
  · dsimp only
    show (bumpSinglesScore cfg (updT s j _) (tSingles cfg j) _ 1).is_locating
      = s.is_locating
    rw [bumpSinglesScore_is_locating2]
    rfl

theorem locConflictStep_tGet_loc_mono (cfg : Config) (j : ℕ) (s : AState)
    (j2 : ℕ) (j' : ℕ) (h : (tGet s j').is_locatable = true) :
    (tGet (locConflictStep cfg j s j2) j').is_locatable = true := by
  unfold locConflictStep
  split
  · exact h
  · dsimp only
    have hb : ∀ j3, tGet (bumpSinglesScore cfg
        (updT s j (fun e =>
          { e with location_conflicts := insert j2 e.location_conflicts }))
        (tSingles cfg j)
        (fun e => { e with l_issues := e.l_issues + 1 }) 1) j3
        = tGet (updT s j (fun e =>
          { e with location_conflicts := insert j2 e.location_conflicts }))
            j3 := by
      intro j3
      simp [tGet, bumpSinglesScore_tsets]
    show (tGet (bumpSinglesScore cfg
      (updT s j (fun e =>
        { e with location_conflicts := insert j2 e.location_conflicts }))
      (tSingles cfg j)
      (fun e => { e with l_issues := e.l_issues + 1 }) 1) j').is_locatable
        = true
    rw [hb j']
    exact tGet_locatable_updT_mono s j
      (fun e => { e with location_conflicts := insert j2 e.location_conflicts })
      (fun e he => he) j' h

theorem locSolveStep_is_locating (cfg : Config) (j : ℕ) (rowS : List ℕ)
    (s : AState) (j2 : ℕ) :
    (locSolveStep cfg j rowS s j2).is_locating = s.is_locating := by
  unfold locSolveStep
  split
  · rfl
  · split
    · dsimp only
      split
      · show ({ updT (bumpSinglesScore cfg (updT s j2 _) (tSingles cfg j2) _
          (-1)) j2 (fun e => { e with is_locatable := true }) with
            score := _, location_problems := _ } : AState).is_locating
            = s.is_locating
        show (bumpSinglesScore cfg (updT s j2 _) (tSingles cfg j2) _
          (-1)).is_locating = s.is_locating
        rw [bumpSinglesScore_is_locating2]
        rfl
      · show (bumpSinglesScore cfg (updT s j2 _) (tSingles cfg j2) _
          (-1)).is_locating = s.is_locating
        rw [bumpSinglesScore_is_locating2]
        rfl
    · rfl

theorem locSolveStep_tGet_loc_mono (cfg : Config) (j : ℕ) (rowS : List ℕ)
    (s : AState) (j2 : ℕ) (j' : ℕ) (h : (tGet s j').is_locatable = true) :
    (tGet (locSolveStep cfg j rowS s j2) j').is_locatable = true := by
  unfold locSolveStep
  split
  · exact h
  · split
    · dsimp only
      have hb : ∀ j3, tGet (bumpSinglesScore cfg
          (updT s j2 (fun e =>
            { e with location_conflicts := e.location_conflicts.erase j }))
          (tSingles cfg j2)
          (fun e => { e with l_issues := e.l_issues - 1 }) (-1)) j3
          = tGet (updT s j2 (fun e =>
            { e with location_conflicts := e.location_conflicts.erase j }))
              j3 := by
        intro j3
        simp [tGet, bumpSinglesScore_tsets]
      have hmid : (tGet (bumpSinglesScore cfg
          (updT s j2 (fun e =>
            { e with location_conflicts := e.location_conflicts.erase j }))
          (tSingles cfg j2)
          (fun e => { e with l_issues := e.l_issues - 1 }) (-1))
            j').is_locatable = true := by
        rw [hb j']
        exact tGet_locatable_updT_mono s j2
          (fun e =>
            { e with location_conflicts := e.location_conflicts.erase j })
          (fun e he => he) j' h
      split
      · show (tGet (updT (bumpSinglesScore cfg
          (updT s j2 (fun e =>
            { e with location_conflicts := e.location_conflicts.erase j }))
          (tSingles cfg j2)
          (fun e => { e with l_issues := e.l_issues - 1 }) (-1)) j2
          (fun e => { e with is_locatable := true })) j').is_locatable = true
        exact tGet_locatable_updT_mono _ j2 _ (fun e he => rfl) j' hmid
      · exact hmid
    · exact h

theorem locOne_is_locating_mono (cfg : Config) (s : AState) (j : ℕ)
    (rowS : List ℕ) (h : s.is_locating = true) :
    (locOne cfg s j rowS).is_locating = true := by
  have hcf : ∀ (L : List ℕ) (s : AState),
      (L.foldl (locConflictStep cfg j) s).is_locating = s.is_locating := by
    intro L
    induction L with
    | nil => intro s; rfl
    | cons a L ih =>
      intro s
      rw [List.foldl_cons, ih, locConflictStep_is_locating]
  have hsf : ∀ (L : List ℕ) (s : AState),
      (L.foldl (locSolveStep cfg j rowS) s).is_locating = s.is_locating := by
    intro L
    induction L with
    | nil => intro s; rfl
    | cons a L ih =>
      intro s
      rw [List.foldl_cons, ih, locSolveStep_is_locating]
  have h1 : ∀ s1 : AState, s1.is_locating = true →
      (if (tGet s1 j).location_conflicts = ∅ then
        (let s3 : AState := updT s1 j
          (fun e => { e with is_locatable := true })
         let s4 : AState := { s3 with score := s3.score - 1,
                                      location_problems :=
                                        s3.location_problems - 1 }
         if s4.location_problems = 0 then { s4 with is_locating := true }
         else s4)
      else s1).is_locating = true := by
    intro s1 hs
    split
    · dsimp only
      split
      · rfl
      · exact hs
    · exact hs
  unfold locOne
  split
  · exact h
  · dsimp only
    refine h1 _ ?_
    split
    · show ((rowS.foldl (locConflictStep cfg j)
        (bumpSinglesScore cfg s (tSingles cfg j)
          (fun e => { e with l_issues :=
            e.l_issues - ((allSets cfg).length : ℤ) })
          (-((allSets cfg).length : ℤ))))).is_locating = true
      rw [hcf, bumpSinglesScore_is_locating2]
      exact h
    · show (updT (bumpSinglesScore cfg
        (((List.range (allSets cfg).length).filter
          (fun j2 => j2 ∈ (tGet s j).location_conflicts)).foldl
            (locSolveStep cfg j rowS) s) (tSingles cfg j)
        (fun e => { e with l_issues := e.l_issues -
          (((tGet s j).location_conflicts.filter
            fun j2 => j2 ∉ rowS).card : ℤ) })
        (-(((tGet s j).location_conflicts.filter
            fun j2 => j2 ∉ rowS).card : ℤ))) j
        (fun e => { e with location_conflicts :=
          (tGet s j).location_conflicts.filter fun j2 => j2 ∈ rowS
            })).is_locating = true
      show (bumpSinglesScore cfg
        (((List.range (allSets cfg).length).filter
          (fun j2 => j2 ∈ (tGet s j).location_conflicts)).foldl
            (locSolveStep cfg j rowS) s) (tSingles cfg j)
        (fun e => { e with l_issues := e.l_issues -
          (((tGet s j).location_conflicts.filter
            fun j2 => j2 ∉ rowS).card : ℤ) })
        (-(((tGet s j).location_conflicts.filter
            fun j2 => j2 ∉ rowS).card : ℤ))).is_locating = true
      rw [bumpSinglesScore_is_locating2, hsf]
      exact h

theorem locOne_tGet_loc_mono (cfg : Config) (s : AState) (j : ℕ)
    (rowS : List ℕ) (j' : ℕ) (h : (tGet s j').is_locatable = true) :
    (tGet (locOne cfg s j rowS) j').is_locatable = true := by
  have hcf : ∀ (L : List ℕ) (s : AState),
      (tGet s j').is_locatable = true →
      (tGet (L.foldl (locConflictStep cfg j) s) j').is_locatable = true := by
    intro L
    induction L with
    | nil => intro s hs; exact hs
    | cons a L ih =>
      intro s hs
      rw [List.foldl_cons]
      exact ih _ (locConflictStep_tGet_loc_mono cfg j s a j' hs)
  have hsf : ∀ (L : List ℕ) (s : AState),
      (tGet s j').is_locatable = true →
      (tGet (L.foldl (locSolveStep cfg j rowS) s) j').is_locatable
        = true := by
    intro L
    induction L with
    | nil => intro s hs; exact hs
    | cons a L ih =>
      intro s hs
      rw [List.foldl_cons]
      exact ih _ (locSolveStep_tGet_loc_mono cfg j rowS s a j' hs)
  have hbt : ∀ (s2 : AState) (sps : List SP) (f : SingleSt → SingleSt)
      (ds : ℤ) (j3 : ℕ),
      tGet (bumpSinglesScore cfg s2 sps f ds) j3 = tGet s2 j3 := by
    intro s2 sps f ds j3
    simp [tGet, bumpSinglesScore_tsets]
  have htail2 : ∀ (s3 : AState), (tGet s3 j').is_locatable = true →
      (tGet (let s4 : AState := { s3 with score := s3.score - 1,
                                          location_problems :=
                                            s3.location_problems - 1 }
        if s4.location_problems = 0 then { s4 with is_locating := true }
        else s4) j').is_locatable = true := by
    intro s3 hs
    show (tGet (if ({ s3 with
                      score := s3.score - 1,
                      location_problems := s3.location_problems - 1 }
          : AState).location_problems = 0 then _ else _) j').is_locatable
      = true
    split
    · exact hs
    · exact hs
  have htail : ∀ (s2 : AState), (tGet s2 j').is_locatable = true →
      (tGet (if (tGet s2 j).location_conflicts = ∅ then
        (let s3 : AState := updT s2 j
          (fun e => { e with is_locatable := true })
         let s4 : AState := { s3 with score := s3.score - 1,
                                      location_problems :=
                                        s3.location_problems - 1 }
         if s4.location_problems = 0 then { s4 with is_locating := true }
         else s4)
      else s2) j').is_locatable = true := by
    intro s2 hs
    split
    · exact htail2 (updT s2 j (fun e => { e with is_locatable := true }))
        (tGet_locatable_updT_mono s2 j
          (fun e => { e with is_locatable := true }) (fun e he => rfl) j' hs)
    · exact hs
  unfold locOne
  split
  · exact h
  · dsimp only
    split
    · refine htail _ ?_
      refine hcf rowS _ ?_
      rw [hbt]
      exact h
    · refine htail _ ?_
      refine tGet_locatable_updT_mono _ j
        (fun e => { e with location_conflicts :=
          (tGet s j).location_conflicts.filter fun j2 => j2 ∈ rowS })
        (fun e he => he) j' ?_
      rw [hbt]
      exact hsf _ s h

theorem flagsLe_locOne (cfg : Config) (s : AState) (j : ℕ)
    (rowS : List ℕ) : FlagsLe s (locOne cfg s j rowS) := by
  have hf := locFrame_locOne cfg s j rowS
  refine ⟨fun i' h => by rw [hf.2.2.2.2.2.2.2.1 i']; exact h, ?_, ?_, ?_, ?_, ?_⟩
  · intro i' h
    rw [hf.2.2.2.2.2.2.2.1 i']
    exact h
  · intro j' h
    exact locOne_tGet_loc_mono cfg s j rowS j' h
  · intro h
    rw [hf.2.2.2.2.1]
    exact h
  · intro h
    exact locOne_is_locating_mono cfg s j rowS h
  · intro h
    rw [hf.2.2.2.2.2.1]
    exact h

theorem flagsLe_locFold (cfg : Config) (rowS : List ℕ) :
    ∀ (L : List ℕ) (s : AState),
      FlagsLe s (L.foldl (fun s j => locOne cfg s j rowS) s) := by
  intro L
  induction L with
  | nil => intro s; exact flagsLe_refl s
  | cons a L ih =>
    intro s
    exact flagsLe_trans (flagsLe_locOne cfg s a rowS)
      (ih (locOne cfg s a rowS))

theorem insOne_tGet_loc (cfg : Config) (n : ℕ) (s : AState) (i : ℕ)
    (j : ℕ) : (tGet (insOne cfg n s i) j).is_locatable
      = (tGet s j).is_locatable := by
  unfold insOne
  refine Eq.trans (foldl_proj_const (fun s => (tGet s j).is_locatable) _ _ _
    ?_) ?_
  · intro s' j2 _
    show (tGet (updT s' j2 _) j).is_locatable = _
    rw [tGet_updT]
    split
    · rfl
    · rfl
  · show (tGet (bumpSingles cfg s (interSingles cfg i)
      (fun e => { e with rows := insert n e.rows })) j).is_locatable = _
    simp [tGet, bumpSingles_tsets]

theorem flagsLe_insOne (cfg : Config) (n : ℕ) (s : AState) (i : ℕ) :
    FlagsLe s (insOne cfg n s i) := by
  have hne := nonEnt_insOne cfg n s i
  refine ⟨?_, ?_, ?_, ?_, ?_, ?_⟩
  · intro i' h
    rw [insOne_iGet]
    split
    · exact h
    · exact h
  · intro i' h
    rw [insOne_iGet]
    split
    · exact h
    · exact h
  · intro j h
    rw [insOne_tGet_loc]
    exact h
  · intro h
    rw [hne.2.2.2.2.2.2.2.1]
    exact h
  · intro h
    rw [hne.2.2.2.2.2.2.2.2.1]
    exact h
  · intro h
    rw [hne.2.2.2.2.2.2.2.2.2.1]
    exact h

theorem flagsLe_insertPhase (cfg : Config) (s : AState) (rowI : List ℕ)
    (n : ℕ) : FlagsLe s (insertPhase cfg s rowI n) := by
  unfold insertPhase
  induction rowI generalizing s with
  | nil => exact flagsLe_refl s
  | cons a rowI ih =>
    rw [List.foldl_cons]
    exact flagsLe_trans (flagsLe_insOne cfg n s a) (ih _)

theorem flagsLe_updateCore (cfg : Config) (S : AState) (r : List ℕ) :
    FlagsLe S (updateCore cfg S r) := by
  unfold updateCore
  dsimp only
  have h0 : FlagsLe S { S with rows := S.rows ++ [r],
                               num_tests := S.num_tests + 1 } :=
    ⟨fun _ h => h, fun _ h => h, fun _ h => h, fun h => h, fun h => h,
      fun h => h⟩
  refine flagsLe_trans h0 ?_
  refine flagsLe_trans (flagsLe_insertPhase cfg
    { S with rows := S.rows ++ [r], num_tests := S.num_tests + 1 }
    (build_row_interactions cfg r) (S.num_tests + 1)) ?_
  refine flagsLe_trans (flagsLe_cdFold cfg
    (rowTSets cfg (build_row_interactions cfg r))
    (build_row_interactions cfg r)
    (insertPhase cfg
      { S with rows := S.rows ++ [r], num_tests := S.num_tests + 1 }
      (build_row_interactions cfg r) (S.num_tests + 1))) ?_
  split
  · exact flagsLe_locFold cfg (rowTSets cfg (build_row_interactions cfg r))
      (rowTSets cfg (build_row_interactions cfg r)) _
  · exact flagsLe_refl _

theorem flagsLe_update_array (cfg : Config) (S : AState) (r : List ℕ)
    (keep : Bool) : FlagsLe S (update_array cfg S r keep) := by
  cases keep with
  | true => exact flagsLe_updateCore cfg S r
  | false =>
    refine flagsLe_trans (flagsLe_updateCore cfg S r) ?_
    refine ⟨?_, ?_, ?_, ?_, ?_, ?_⟩
    · intro i h
      rw [update_false_iGet_field cfg S r InterSt.is_covered
        (fun _ _ => rfl) i]
      exact h
    · intro i h
      rw [update_false_iGet_field cfg S r InterSt.is_detectable
        (fun _ _ => rfl) i]
      exact h
    · intro j h
      rw [update_false_tGet_field cfg S r TSt.is_locatable
        (fun _ _ => rfl) j]
      exact h
    · intro h
      rw [update_false_proj cfg S r AState.is_covering (fun _ _ _ => rfl)
        (fun _ _ _ => rfl) (fun _ _ _ => rfl) (fun _ _ _ => rfl)]
      exact h
    · intro h
      rw [update_false_proj cfg S r AState.is_locating (fun _ _ _ => rfl)
        (fun _ _ _ => rfl) (fun _ _ _ => rfl) (fun _ _ _ => rfl)]
      exact h
    · intro h
      rw [update_false_proj cfg S r AState.is_detecting (fun _ _ _ => rfl)
        (fun _ _ _ => rfl) (fun _ _ _ => rfl) (fun _ _ _ => rfl)]
      exact h

theorem flagsLe_commits (cfg : Config) :
    ∀ (L : List (List ℕ)) (s : AState),
      FlagsLe s (L.foldl (fun s r => update_array cfg s r true) s) := by
  intro L
  induction L with
  | nil => intro s; exact flagsLe_refl s
  | cons a L ih =>
    intro s
    rw [List.foldl_cons]
    exact flagsLe_trans (flagsLe_update_array cfg s a true)
      (ih (update_array cfg s a true))


/-! ## Constructor accounting and clone characterization -/

/-- Total of the Singles' coverage issue counters. -/
def sumC (S : AState) : ℤ := (S.singles.map (fun e => e.c_issues)).sum

/-- The per-interaction Singles budget `Σ_i |interSingles i|` that
`build_t_way_interactions` adds to `score` and `total_problems`. -/
def tBudget (cfg : Config) : ℤ :=
  (((List.range (allInteractions cfg).length).map
    (fun i => (interSingles cfg i).length)).sum : ℤ)

theorem sum_map_updN {α : Type} (g : α → ℤ) (f : α → α) (d : ℤ)
    (hf : ∀ a, g (f a) = g a + d) :
    ∀ (l : List α) (k : ℕ), k < l.length →
      ((updN l k f).map g).sum = (l.map g).sum + d := by
  intro l
  induction l with
  | nil => intro k hk; cases hk
  | cons a l ih =>
    intro k hk
    cases k with
    | zero =>
      show ((f a :: l).map g).sum = ((a :: l).map g).sum + d
      simp only [List.map_cons, List.sum_cons, hf a]
      ring
    | succ k =>
      show ((a :: updN l k f).map g).sum = ((a :: l).map g).sum + d
      simp only [List.map_cons, List.sum_cons]
      rw [ih k (by simpa using hk)]
      ring

theorem buildFold_counts (cfg : Config) :
    ∀ (sps : List SP) (s : AState), (∀ sp ∈ sps, sp ∈ allSingles cfg) →
      s.singles.length = (allSingles cfg).length →
      (sps.foldl (buildSingleStep cfg) s).score = s.score + sps.length ∧
      (sps.foldl (buildSingleStep cfg) s).total_problems
        = s.total_problems + sps.length ∧
      sumC (sps.foldl (buildSingleStep cfg) s) = sumC s + sps.length ∧
      (sps.foldl (buildSingleStep cfg) s).singles.length
        = (allSingles cfg).length := by
  intro sps
  induction sps with
  | nil =>
    intro s _ hlen
    refine ⟨by simp, by simp, by simp, hlen⟩
  | cons sp sps ih =>
    intro s hmem hlen
    have hidx : singleIdx cfg sp < s.singles.length := by
      rw [hlen]
      exact (singleIdx_spec cfg (hmem sp (List.mem_cons_self _ _))).1
    have hstep_sc : (buildSingleStep cfg s sp).score = s.score + 1 := rfl
    have hstep_tp : (buildSingleStep cfg s sp).total_problems
        = s.total_problems + 1 := rfl
    have hstep_len : (buildSingleStep cfg s sp).singles.length
        = (allSingles cfg).length := by
      show (updSingle s (singleIdx cfg sp) _).singles.length = _
      rw [(lensEq_updSingle s (singleIdx cfg sp) _).1, hlen]
    have hstep_sum : sumC (buildSingleStep cfg s sp) = sumC s + 1 := by
      show ((updN s.singles (singleIdx cfg sp)
        (fun e => { e with c_issues := e.c_issues + 1 })).map
          (fun e => e.c_issues)).sum = sumC s + 1
      exact sum_map_updN (fun e => e.c_issues)
        (fun e => { e with c_issues := e.c_issues + 1 }) 1
        (fun a => rfl) s.singles (singleIdx cfg sp) hidx
    obtain ⟨ih1, ih2, ih3, ih4⟩ := ih (buildSingleStep cfg s sp)
      (fun sp2 h2 => hmem sp2 (List.mem_cons_of_mem _ h2)) hstep_len
    rw [List.foldl_cons] at *
    refine ⟨?_, ?_, ?_, ih4⟩
    · rw [ih1, hstep_sc]
      push_cast [List.length_cons]
      ring
    · rw [ih2, hstep_tp]
      push_cast [List.length_cons]
      ring
    · rw [ih3, hstep_sum]
      push_cast [List.length_cons]
      ring

theorem buildOuterFold_counts (cfg : Config) :
    ∀ (L : List ℕ) (s : AState),
      (∀ i ∈ L, i < (allInteractions cfg).length) →
      s.singles.length = (allSingles cfg).length →
      ((L.foldl (buildInterStep cfg) s).score
        = s.score + ((L.map (fun i => (interSingles cfg i).length)).sum : ℤ)) ∧
      ((L.foldl (buildInterStep cfg) s).total_problems
        = s.total_problems
          + ((L.map (fun i => (interSingles cfg i).length)).sum : ℤ)) ∧
      (sumC (L.foldl (buildInterStep cfg) s)
        = sumC s + ((L.map (fun i => (interSingles cfg i).length)).sum : ℤ)) ∧
      (L.foldl (buildInterStep cfg) s).singles.length
        = (allSingles cfg).length := by
  intro L
  induction L with
  | nil =>
    intro s _ hlen
    refine ⟨by simp, by simp, by simp, hlen⟩
  | cons i L ih =>
    intro s hmem hlen
    have hi := hmem i (List.mem_cons_self _ _)
    obtain ⟨h1, h2, h3, h4⟩ := buildFold_counts cfg (interSingles cfg i) s
      (interSingles_sub cfg i hi) hlen
    obtain ⟨ih1, ih2, ih3, ih4⟩ := ih (buildInterStep cfg s i)
      (fun i2 h2 => hmem i2 (List.mem_cons_of_mem _ h2)) h4
    rw [List.foldl_cons] at *
    refine ⟨?_, ?_, ?_, ih4⟩
    · rw [ih1]
      show _ = s.score + (((interSingles cfg i).length
        + (L.map (fun i => (interSingles cfg i).length)).sum : ℕ) : ℤ)
      rw [show (buildInterStep cfg s i).score
        = s.score + (interSingles cfg i).length from h1]
      push_cast
      ring
    · rw [ih2]
      show _ = s.total_problems + (((interSingles cfg i).length
        + (L.map (fun i => (interSingles cfg i).length)).sum : ℕ) : ℤ)
      rw [show (buildInterStep cfg s i).total_problems
        = s.total_problems + (interSingles cfg i).length from h2]
      push_cast
      ring
    · rw [ih3]
      show _ = sumC s + (((interSingles cfg i).length
        + (L.map (fun i => (interSingles cfg i).length)).sum : ℕ) : ℤ)
      rw [show sumC (buildInterStep cfg s i)
        = sumC s + (interSingles cfg i).length from h3]
      push_cast
      ring

theorem buildPhase_counts (cfg : Config) (s : AState)
    (hlen : s.singles.length = (allSingles cfg).length) :
    (buildPhase cfg s).score = s.score + tBudget cfg ∧
    (buildPhase cfg s).total_problems = s.total_problems + tBudget cfg ∧
    sumC (buildPhase cfg s) = sumC s + tBudget cfg ∧
    (buildPhase cfg s).singles.length = (allSingles cfg).length := by
  unfold buildPhase tBudget
  exact buildOuterFold_counts cfg (List.range (allInteractions cfg).length) s
    (fun i hi => List.mem_range.mp hi) hlen

theorem buildPhase_coverage_problems (cfg : Config) (s : AState) :
    (buildPhase cfg s).coverage_problems = s.coverage_problems :=
  buildPhase_proj_const cfg AState.coverage_problems (fun _ _ => rfl) s

theorem buildPhase_location_problems (cfg : Config) (s : AState) :
    (buildPhase cfg s).location_problems = s.location_problems :=
  buildPhase_proj_const cfg AState.location_problems (fun _ _ => rfl) s

theorem buildPhase_detection_problems (cfg : Config) (s : AState) :
    (buildPhase cfg s).detection_problems = s.detection_problems :=
  buildPhase_proj_const cfg AState.detection_problems (fun _ _ => rfl) s

theorem buildPhase_flags (cfg : Config) (s : AState) :
    (buildPhase cfg s).is_covering = s.is_covering ∧
    (buildPhase cfg s).is_locating = s.is_locating ∧
    (buildPhase cfg s).is_detecting = s.is_detecting :=
  ⟨buildPhase_proj_const cfg AState.is_covering (fun _ _ => rfl) s,
   buildPhase_proj_const cfg AState.is_locating (fun _ _ => rfl) s,
   buildPhase_proj_const cfg AState.is_detecting (fun _ _ => rfl) s⟩

theorem sumC_fresh (cfg : Config) :
    (((freshSingles cfg).map (fun e => e.c_issues)).sum : ℤ) = 0 := by
  unfold freshSingles
  rw [List.map_map]
  have : ((allSingles cfg).map
      ((fun e : SingleSt => e.c_issues) ∘ fun _ => default))
      = (allSingles cfg).map (fun _ => (0 : ℤ)) := rfl
  rw [this]
  induction allSingles cfg with
  | nil => rfl
  | cons a l ih => simp [ih]


theorem astate_ext {a b : AState}
    (h1 : a.score = b.score) (h2 : a.total_problems = b.total_problems)
    (h3 : a.coverage_problems = b.coverage_problems)
    (h4 : a.location_problems = b.location_problems)
    (h5 : a.detection_problems = b.detection_problems)
    (h6 : a.num_tests = b.num_tests) (h7 : a.rows = b.rows)
    (h8 : a.singles = b.singles) (h9 : a.inters = b.inters)
    (h10 : a.tsets = b.tsets) (h11 : a.is_covering = b.is_covering)
    (h12 : a.is_locating = b.is_locating)
    (h13 : a.is_detecting = b.is_detecting)
    (h14 : a.dont_cares = b.dont_cares)
    (h15 : a.permutation = b.permutation) : a = b := by
  cases a
  cases b
  congr

theorem list_eq_of_getD {α : Type} [Inhabited α] (l1 l2 : List α)
    (hlen : l1.length = l2.length)
    (h : ∀ k, k < l1.length → l1.getD k default = l2.getD k default) :
    l1 = l2 := by
  refine List.ext_getElem hlen ?_
  intro i h1 h2
  have hh := h i h1
  rw [List.getD_eq_getElem?_getD, List.getD_eq_getElem?_getD,
    List.getElem?_eq_getElem h1, List.getElem?_eq_getElem h2] at hh
  exact hh

theorem copy_single_entry (o e : SingleSt) :
    ({ e with rows := o.rows, c_issues := o.c_issues, l_issues := o.l_issues,
              d_issues := o.d_issues } : SingleSt) = o := by
  cases o
  rfl

theorem copy_inter_entry (o : InterSt) (e : InterSt) (hd : e.deltas = []) :
    ({ e with rows := o.rows, is_covered := o.is_covered,
              is_detectable := o.is_detectable,
              deltas := e.deltas ++ o.deltas } : InterSt) = o := by
  cases o
  rw [hd]
  rfl

theorem copy_t_entry (o : TSt) (e : TSt) (hc : e.location_conflicts = ∅) :
    ({ e with rows := o.rows, is_locatable := o.is_locatable,
              location_conflicts :=
                e.location_conflicts ∪ o.location_conflicts } : TSt) = o := by
  cases o
  rw [hc]
  simp

theorem nonEnt_copySFold (S : AState) :
    ∀ (L : List ℕ) (c : AState), NonEnt c (L.foldl (copySingleStep S) c) := by
  intro L
  induction L with
  | nil => intro c; exact nonEnt_refl c
  | cons a L ih =>
    intro c
    exact nonEnt_trans (nonEnt_updSingle c a _) (ih _)

theorem nonEnt_copyIFold (S : AState) :
    ∀ (L : List ℕ) (c : AState), NonEnt c (L.foldl (copyInterStep S) c) := by
  intro L
  induction L with
  | nil => intro c; exact nonEnt_refl c
  | cons a L ih =>
    intro c
    exact nonEnt_trans (nonEnt_updInter c a _) (ih _)

theorem nonEnt_copyTFold (S : AState) :
    ∀ (L : List ℕ) (c : AState), NonEnt c (L.foldl (copyTStep S) c) := by
  intro L
  induction L with
  | nil => intro c; exact nonEnt_refl c
  | cons a L ih =>
    intro c
    exact nonEnt_trans (nonEnt_updT c a _) (ih _)

theorem lensEq_copySFold (S : AState) :
    ∀ (L : List ℕ) (c : AState), LensEq c (L.foldl (copySingleStep S) c) := by
  intro L
  induction L with
  | nil => intro c; exact lensEq_refl c
  | cons a L ih =>
    intro c
    exact lensEq_trans (lensEq_updSingle c a _) (ih _)

theorem lensEq_copyIFold (S : AState) :
    ∀ (L : List ℕ) (c : AState), LensEq c (L.foldl (copyInterStep S) c) := by
  intro L
  induction L with
  | nil => intro c; exact lensEq_refl c
  | cons a L ih =>
    intro c
    exact lensEq_trans (lensEq_updInter c a _) (ih _)

theorem lensEq_copyTFold (S : AState) :
    ∀ (L : List ℕ) (c : AState), LensEq c (L.foldl (copyTStep S) c) := by
  intro L
  induction L with
  | nil => intro c; exact lensEq_refl c
  | cons a L ih =>
    intro c
    exact lensEq_trans (lensEq_updT c a _) (ih _)

theorem copySFold_sGet (S : AState) (L : List ℕ) (hnd : L.Nodup)
    (c : AState) (k : ℕ) (hk : k < c.singles.length) :
    sGet (L.foldl (copySingleStep S) c) k =
      if k ∈ L then sGet S k else sGet c k := by
  refine foldl_proj_point_inv (fun c => sGet c k) (copySingleStep S)
    (fun _ => sGet S k) k (fun c' => c'.singles.length = c.singles.length)
    L hnd c rfl ?_ ?_ ?_
  · intro c' x _ hI
    show (updSingle c' x _).singles.length = c.singles.length
    rw [(lensEq_updSingle c' x _).1, hI]
  · intro c' x _ hI hne
    show sGet (updSingle c' x _) k = sGet c' k
    exact sGet_updSingle_ne c' x _ k (Ne.symm hne)
  · intro c' hI
    show sGet (updSingle c' k _) k = sGet S k
    rw [sGet_updSingle_self c' k _ (by rw [hI]; exact hk)]

theorem copyIFold_iGet (S : AState) (L : List ℕ) (hnd : L.Nodup)
    (c : AState) (k : ℕ) (hk : k < c.inters.length) :
    iGet (L.foldl (copyInterStep S) c) k =
      if k ∈ L then
        { iGet c k with rows := (iGet S k).rows,
                        is_covered := (iGet S k).is_covered,
                        is_detectable := (iGet S k).is_detectable,
                        deltas := (iGet c k).deltas ++ (iGet S k).deltas }
      else iGet c k := by
  refine foldl_proj_point_inv (fun c => iGet c k) (copyInterStep S)
    (fun e => { e with rows := (iGet S k).rows,
                       is_covered := (iGet S k).is_covered,
                       is_detectable := (iGet S k).is_detectable,
                       deltas := e.deltas ++ (iGet S k).deltas }) k
    (fun c' => c'.inters.length = c.inters.length) L hnd c rfl ?_ ?_ ?_
  · intro c' x _ hI
    show (updInter c' x _).inters.length = c.inters.length
    rw [(lensEq_updInter c' x _).2.1, hI]
  · intro c' x _ hI hne
    show iGet (updInter c' x _) k = iGet c' k
    exact iGet_updInter_ne c' x _ k (Ne.symm hne)
  · intro c' hI
    show iGet (updInter c' k _) k = _
    rw [iGet_updInter_self c' k _ (by rw [hI]; exact hk)]

theorem copyTFold_tGet (S : AState) (L : List ℕ) (hnd : L.Nodup)
    (c : AState) (k : ℕ) (hk : k < c.tsets.length) :
    tGet (L.foldl (copyTStep S) c) k =
      if k ∈ L then
        { tGet c k with rows := (tGet S k).rows,
                        is_locatable := (tGet S k).is_locatable,
                        location_conflicts := (tGet c k).location_conflicts
                          ∪ (tGet S k).location_conflicts }
      else tGet c k := by
  refine foldl_proj_point_inv (fun c => tGet c k) (copyTStep S)
    (fun e => { e with rows := (tGet S k).rows,
                       is_locatable := (tGet S k).is_locatable,
                       location_conflicts := e.location_conflicts
                         ∪ (tGet S k).location_conflicts }) k
    (fun c' => c'.tsets.length = c.tsets.length) L hnd c rfl ?_ ?_ ?_
  · intro c' x _ hI
    show (updT c' x _).tsets.length = c.tsets.length
    rw [(lensEq_updT c' x _).2.2, hI]
  · intro c' x _ hI hne
    show tGet (updT c' x _) k = tGet c' k
    exact tGet_updT_ne c' x _ k (Ne.symm hne)
  · intro c' hI
    show tGet (updT c' k _) k = _
    rw [tGet_updT_self c' k _ (by rw [hI]; exact hk)]

theorem copySFold_iGet (S : AState) (L : List ℕ) (c : AState) (k : ℕ) :
    iGet (L.foldl (copySingleStep S) c) k = iGet c k := by
  refine foldl_proj_const (fun c => iGet c k) (copySingleStep S) L c ?_
  intro c' x _
  rfl

theorem copySFold_tGet (S : AState) (L : List ℕ) (c : AState) (k : ℕ) :
    tGet (L.foldl (copySingleStep S) c) k = tGet c k := by
  refine foldl_proj_const (fun c => tGet c k) (copySingleStep S) L c ?_
  intro c' x _
  rfl

theorem copyIFold_sGet (S : AState) (L : List ℕ) (c : AState) (k : ℕ) :
    sGet (L.foldl (copyInterStep S) c) k = sGet c k := by
  refine foldl_proj_const (fun c => sGet c k) (copyInterStep S) L c ?_
  intro c' x _
  rfl

theorem copyIFold_tGet (S : AState) (L : List ℕ) (c : AState) (k : ℕ) :
    tGet (L.foldl (copyInterStep S) c) k = tGet c k := by
  refine foldl_proj_const (fun c => tGet c k) (copyInterStep S) L c ?_
  intro c' x _
  rfl

theorem copyTFold_sGet (S : AState) (L : List ℕ) (c : AState) (k : ℕ) :
    sGet (L.foldl (copyTStep S) c) k = sGet c k := by
  refine foldl_proj_const (fun c => sGet c k) (copyTStep S) L c ?_
  intro c' x _
  rfl

theorem copyTFold_iGet (S : AState) (L : List ℕ) (c : AState) (k : ℕ) :
    iGet (L.foldl (copyTStep S) c) k = iGet c k := by
  refine foldl_proj_const (fun c => iGet c k) (copyTStep S) L c ?_
  intro c' x _
  rfl


theorem cfe_fields (cfg : Config) (total cov loc det : ℤ)
    (rows_o : List (List ℕ)) (ntests : ℕ) :
    (ctor_from_existing cfg total cov loc det rows_o ntests).total_problems
      = total + tBudget cfg ∧
    (ctor_from_existing cfg total cov loc det rows_o
      ntests).coverage_problems = cov ∧
    (ctor_from_existing cfg total cov loc det rows_o
      ntests).location_problems = loc ∧
    (ctor_from_existing cfg total cov loc det rows_o
      ntests).detection_problems = det ∧
    (ctor_from_existing cfg total cov loc det rows_o ntests).num_tests
      = ntests ∧
    (ctor_from_existing cfg total cov loc det rows_o ntests).rows
      = (if cfg.p = PMode.c_only then [] else rows_o) ∧
    (ctor_from_existing cfg total cov loc det rows_o ntests).dont_cares
      = none ∧
    (ctor_from_existing cfg total cov loc det rows_o ntests).permutation
      = none ∧
    (ctor_from_existing cfg total cov loc det rows_o ntests).singles.length
      = (allSingles cfg).length ∧
    (ctor_from_existing cfg total cov loc det rows_o ntests).inters
      = freshInters cfg ∧
    (ctor_from_existing cfg total cov loc det rows_o ntests).tsets
      = freshTSets cfg := by
  have hfr : (freshSingles cfg).length = (allSingles cfg).length :=
    freshSingles_length cfg
  unfold ctor_from_existing
  dsimp only
  split
  · next hp =>
    obtain ⟨-, hT, -, hL⟩ := buildPhase_counts cfg
      { score := 0, total_problems := total, coverage_problems := cov,
        location_problems := loc, detection_problems := det,
        num_tests := ntests, rows := [],
        singles := freshSingles cfg, inters := freshInters cfg,
        tsets := freshTSets cfg,
        is_covering := false, is_locating := false, is_detecting := false,
        dont_cares := none, permutation := none } hfr
    refine ⟨hT, buildPhase_coverage_problems cfg _,
      buildPhase_location_problems cfg _,
      buildPhase_detection_problems cfg _,
      buildPhase_num_tests cfg _, ?_, buildPhase_dont_cares cfg _,
      buildPhase_permutation cfg _, hL, buildPhase_inters cfg _,
      buildPhase_tsets cfg _⟩
    rw [buildPhase_rows]
  · next hp =>
    obtain ⟨-, hT, -, hL⟩ := buildPhase_counts cfg
      { score := 0, total_problems := total, coverage_problems := cov,
        location_problems := loc, detection_problems := det,
        num_tests := ntests, rows := [],
        singles := freshSingles cfg, inters := freshInters cfg,
        tsets := freshTSets cfg,
        is_covering := false, is_locating := false, is_detecting := false,
        dont_cares := none, permutation := none } hfr
    refine ⟨hT, buildPhase_coverage_problems cfg _,
      buildPhase_location_problems cfg _,
      buildPhase_detection_problems cfg _,
      buildPhase_num_tests cfg _, ?_, buildPhase_dont_cares cfg _,
      buildPhase_permutation cfg _, hL, buildPhase_inters cfg _,
      buildPhase_tsets cfg _⟩
    exact List.map_id rows_o

/-- `Array::clone()` in closed form: the clone of a well-formed state is the
state itself except that `total_problems` is inflated by the rebuild of the
interaction graph, the committed rows are dropped in the coverage-only
phase, and the `dont_cares`/`permutation` arrays are null. -/
theorem clone_char (cfg : Config) (S : AState)
    (hsl : S.singles.length = (allSingles cfg).length)
    (hil : S.inters.length = (allInteractions cfg).length)
    (htl : S.tsets.length = (allSets cfg).length) :
    clone cfg S = { S with
      total_problems := S.total_problems + tBudget cfg,
      rows := if cfg.p = PMode.c_only then [] else S.rows,
      dont_cares := none, permutation := none } := by
  obtain ⟨hT, hCov, hLoc, hDet, hNt, hRows, hDc, hPm, hSl, hI, hTs⟩ :=
    cfe_fields cfg S.total_problems S.coverage_problems S.location_problems
      S.detection_problems S.rows S.num_tests
  unfold clone
  dsimp only
  refine astate_ext ?_ ?_ ?_ ?_ ?_ ?_ ?_ ?_ ?_ ?_ ?_ ?_ ?_ ?_ ?_
  · rw [(nonEnt_copyTFold S _ _).1, (nonEnt_copyIFold S _ _).1,
      (nonEnt_copySFold S _ _).1]
  · rw [(nonEnt_copyTFold S _ _).2.1, (nonEnt_copyIFold S _ _).2.1,
      (nonEnt_copySFold S _ _).2.1]
    show (ctor_from_existing cfg S.total_problems S.coverage_problems
      S.location_problems S.detection_problems S.rows
      S.num_tests).total_problems = _
    rw [hT]
  · rw [(nonEnt_copyTFold S _ _).2.2.1, (nonEnt_copyIFold S _ _).2.2.1,
      (nonEnt_copySFold S _ _).2.2.1]
    exact hCov
  · rw [(nonEnt_copyTFold S _ _).2.2.2.1, (nonEnt_copyIFold S _ _).2.2.2.1,
      (nonEnt_copySFold S _ _).2.2.2.1]
    exact hLoc
  · rw [(nonEnt_copyTFold S _ _).2.2.2.2.1,
      (nonEnt_copyIFold S _ _).2.2.2.2.1,
      (nonEnt_copySFold S _ _).2.2.2.2.1]
    exact hDet
  · rw [(nonEnt_copyTFold S _ _).2.2.2.2.2.1,
      (nonEnt_copyIFold S _ _).2.2.2.2.2.1,
      (nonEnt_copySFold S _ _).2.2.2.2.2.1]
    exact hNt
  · rw [(nonEnt_copyTFold S _ _).2.2.2.2.2.2.1,
      (nonEnt_copyIFold S _ _).2.2.2.2.2.2.1,
      (nonEnt_copySFold S _ _).2.2.2.2.2.2.1]
    exact hRows
  · -- singles
    have hlen1 : (ctor_from_existing cfg S.total_problems S.coverage_problems
        S.location_problems S.detection_problems S.rows
        S.num_tests).singles.length = S.singles.length := by
      rw [hSl, hsl]
    have hlenC : ((List.range S.tsets.length).foldl (copyTStep S)
        ((List.range S.inters.length).foldl (copyInterStep S)
          ((List.range S.singles.length).foldl (copySingleStep S)
            { ctor_from_existing cfg S.total_problems S.coverage_problems
                S.location_problems S.detection_problems S.rows S.num_tests
              with
              score := S.score, is_covering := S.is_covering,
              is_locating := S.is_locating,
              is_detecting := S.is_detecting }))).singles.length
        = S.singles.length := by
      rw [(lensEq_copyTFold S _ _).1, (lensEq_copyIFold S _ _).1,
        (lensEq_copySFold S _ _).1]
      exact hlen1
    refine list_eq_of_getD _ _ (by rw [hlenC]) ?_
    intro k hk
    have hk2 : k < S.singles.length := by rw [← hlenC]; exact hk
    show sGet _ k = sGet S k
    rw [copyTFold_sGet, copyIFold_sGet,
      copySFold_sGet S (List.range S.singles.length) (List.nodup_range _) _ k
        (by
          show (ctor_from_existing cfg S.total_problems S.coverage_problems
            S.location_problems S.detection_problems S.rows
            S.num_tests).singles.length > k
          rw [hlen1]
          exact hk2),
      if_pos (List.mem_range.mpr hk2)]
  · -- inters
    have hlen1 : (ctor_from_existing cfg S.total_problems S.coverage_problems
        S.location_problems S.detection_problems S.rows
        S.num_tests).inters.length = S.inters.length := by
      rw [hI, freshInters_length, hil]
    have hlenC : ((List.range S.tsets.length).foldl (copyTStep S)
        ((List.range S.inters.length).foldl (copyInterStep S)
          ((List.range S.singles.length).foldl (copySingleStep S)
            { ctor_from_existing cfg S.total_problems S.coverage_problems
                S.location_problems S.detection_problems S.rows S.num_tests
              with
              score := S.score, is_covering := S.is_covering,
              is_locating := S.is_locating,
              is_detecting := S.is_detecting }))).inters.length
        = S.inters.length := by
      rw [(lensEq_copyTFold S _ _).2.1, (lensEq_copyIFold S _ _).2.1,
        (lensEq_copySFold S _ _).2.1]
      exact hlen1
    refine list_eq_of_getD _ _ (by rw [hlenC]) ?_
    intro k hk
    have hk2 : k < S.inters.length := by rw [← hlenC]; exact hk
    show iGet _ k = iGet S k
    have hkmid : k < ((List.range S.singles.length).foldl (copySingleStep S)
        { ctor_from_existing cfg S.total_problems S.coverage_problems
            S.location_problems S.detection_problems S.rows S.num_tests
          with
          score := S.score, is_covering := S.is_covering,
          is_locating := S.is_locating,
          is_detecting := S.is_detecting }).inters.length := by
      rw [(lensEq_copySFold S _ _).2.1]
      show k < (ctor_from_existing cfg S.total_problems S.coverage_problems
        S.location_problems S.detection_problems S.rows
        S.num_tests).inters.length
      rw [hlen1]
      exact hk2
    rw [copyTFold_iGet,
      copyIFold_iGet S (List.range S.inters.length) (List.nodup_range _) _ k
        hkmid,
      if_pos (List.mem_range.mpr hk2), copySFold_iGet]
    refine copy_inter_entry (iGet S k) _ ?_
    show (iGet (ctor_from_existing cfg S.total_problems S.coverage_problems
      S.location_problems S.detection_problems S.rows
      S.num_tests) k).deltas = []
    show ((ctor_from_existing cfg S.total_problems S.coverage_problems
      S.location_problems S.detection_problems S.rows
      S.num_tests).inters.getD k default).deltas = []
    rw [hI, freshInters, getD_map_default]
    rfl
  · -- tsets
    have hlen1 : (ctor_from_existing cfg S.total_problems S.coverage_problems
        S.location_problems S.detection_problems S.rows
        S.num_tests).tsets.length = S.tsets.length := by
      rw [hTs, freshTSets_length, htl]
    have hlenC : ((List.range S.tsets.length).foldl (copyTStep S)
        ((List.range S.inters.length).foldl (copyInterStep S)
          ((List.range S.singles.length).foldl (copySingleStep S)
            { ctor_from_existing cfg S.total_problems S.coverage_problems
                S.location_problems S.detection_problems S.rows S.num_tests
              with
              score := S.score, is_covering := S.is_covering,
              is_locating := S.is_locating,
              is_detecting := S.is_detecting }))).tsets.length
        = S.tsets.length := by
      rw [(lensEq_copyTFold S _ _).2.2, (lensEq_copyIFold S _ _).2.2,
        (lensEq_copySFold S _ _).2.2]
      exact hlen1
    refine list_eq_of_getD _ _ (by rw [hlenC]) ?_
    intro k hk
    have hk2 : k < S.tsets.length := by rw [← hlenC]; exact hk
    show tGet _ k = tGet S k
    have hkmid : k < ((List.range S.inters.length).foldl (copyInterStep S)
        ((List.range S.singles.length).foldl (copySingleStep S)
          { ctor_from_existing cfg S.total_problems S.coverage_problems
              S.location_problems S.detection_problems S.rows S.num_tests
            with
            score := S.score, is_covering := S.is_covering,
            is_locating := S.is_locating,
            is_detecting := S.is_detecting })).tsets.length := by
      rw [(lensEq_copyIFold S _ _).2.2, (lensEq_copySFold S _ _).2.2]
      show k < (ctor_from_existing cfg S.total_problems S.coverage_problems
        S.location_problems S.detection_problems S.rows
        S.num_tests).tsets.length
      rw [hlen1]
      exact hk2
    rw [copyTFold_tGet S (List.range S.tsets.length) (List.nodup_range _) _ k
        hkmid,
      if_pos (List.mem_range.mpr hk2), copyIFold_tGet, copySFold_tGet]
    refine copy_t_entry (tGet S k) _ ?_
    show ((ctor_from_existing cfg S.total_problems S.coverage_problems
      S.location_problems S.detection_problems S.rows
      S.num_tests).tsets.getD k default).location_conflicts = ∅
    rw [hTs, freshTSets, getD_map_default]
    rfl
  · rw [(nonEnt_copyTFold S _ _).2.2.2.2.2.2.2.1,
      (nonEnt_copyIFold S _ _).2.2.2.2.2.2.2.1,
      (nonEnt_copySFold S _ _).2.2.2.2.2.2.2.1]
  · rw [(nonEnt_copyTFold S _ _).2.2.2.2.2.2.2.2.1,
      (nonEnt_copyIFold S _ _).2.2.2.2.2.2.2.2.1,
      (nonEnt_copySFold S _ _).2.2.2.2.2.2.2.2.1]
  · rw [(nonEnt_copyTFold S _ _).2.2.2.2.2.2.2.2.2.1,
      (nonEnt_copyIFold S _ _).2.2.2.2.2.2.2.2.2.1,
      (nonEnt_copySFold S _ _).2.2.2.2.2.2.2.2.2.1]
  · rw [(nonEnt_copyTFold S _ _).2.2.2.2.2.2.2.2.2.2.1,
      (nonEnt_copyIFold S _ _).2.2.2.2.2.2.2.2.2.2.1,
      (nonEnt_copySFold S _ _).2.2.2.2.2.2.2.2.2.2.1]
    exact hDc
  · rw [(nonEnt_copyTFold S _ _).2.2.2.2.2.2.2.2.2.2.2,
      (nonEnt_copyIFold S _ _).2.2.2.2.2.2.2.2.2.2.2,
      (nonEnt_copySFold S _ _).2.2.2.2.2.2.2.2.2.2.2]
    exact hPm


/-! ## Characterization of heuristic_l_only -/

theorem foldl_congr_mem (L : List γ) (f g : β → γ → β) (b : β)
    (h : ∀ x ∈ L, ∀ acc, f acc x = g acc x) : L.foldl f b = L.foldl g b := by
  induction L generalizing b with
  | nil => rfl
  | cons a L ih =>
    simp only [List.foldl_cons]
    rw [h a (List.mem_cons_self a L) b]
    exact ih _ (fun x hx acc => h x (List.mem_cons_of_mem _ hx) acc)

theorem bump_map_scores (L : List SP) (f : SP → ℕ) (b : SP) :
    ((L.map fun sp => (sp, f sp)).map
      fun e => if e.1 = b then (e.1, e.2 + 1) else e)
    = L.map fun sp => (sp, if sp = b then f sp + 1 else f sp) := by
  rw [List.map_map]
  refine List.map_congr_left ?_
  intro sp _
  by_cases h : sp = b
  · simp [Function.comp, h]
  · simp [Function.comp, h]

theorem bumpFold_scores (L : List SP) (B : List SP) :
    ∀ f : SP → ℕ,
    B.foldl (fun sc sp => sc.map fun e => if e.1 = sp then (e.1, e.2 + 1)
        else e)
      (L.map fun sp => (sp, f sp))
    = L.map fun sp => (sp, f sp + B.count sp) := by
  induction B with
  | nil => intro f; simp
  | cons b B ih =>
    intro f
    simp only [List.foldl_cons]
    rw [bump_map_scores L f b, ih]
    refine List.map_congr_left ?_
    intro sp _
    rcases eq_or_ne sp b with h | h
    · subst h
      rw [List.count_cons_self]
      simp [Nat.add_comm, Nat.add_assoc, Nat.add_left_comm]
    · rw [List.count_cons_of_ne h]
      simp [h]

theorem conflictFold_scores (cfg : Config) (L : List SP) (J : List ℕ) :
    ∀ f : SP → ℕ,
    J.foldl (fun sc j2 => (tSingles cfg j2).foldl
      (fun (sc : List (SP × ℕ)) sp =>
        sc.map fun e => if e.1 = sp then (e.1, e.2 + 1) else e) sc)
      (L.map fun sp => (sp, f sp))
    = L.map fun sp =>
        (sp, f sp + (J.map fun j2 => (tSingles cfg j2).count sp).sum) := by
  induction J with
  | nil => intro f; simp
  | cons j J ih =>
    intro f
    simp only [List.foldl_cons]
    rw [bumpFold_scores L (tSingles cfg j) f, ih]
    refine List.map_congr_left ?_
    intro sp _
    simp only [List.map_cons, List.sum_cons]
    rw [Nat.add_assoc]

theorem scLookup_map (L : List SP) (g : SP → ℕ) (x : SP) :
    x ∈ L →
    ((((L.map fun sp => (sp, g sp)).find? fun e => e.1 = x).map
      fun e => e.2).getD 0) = g x := by
  induction L with
  | nil => intro hx; cases hx
  | cons a L ih =>
    intro hx
    by_cases h : a = x
    · subst h
      rw [List.map_cons, List.find?_cons_of_pos _ (by simp)]
      rfl
    · have hx' : x ∈ L := by
        rcases List.mem_cons.mp hx with h1 | h1
        · exact absurd h1.symm h
        · exact h1
      rw [List.map_cons, List.find?_cons_of_neg _ (by simp [h])]
      exact ih hx'

theorem lockedFold_getD (sps : List SP) :
    ∀ (lf : List Bool) (col : ℕ), col < lf.length →
    ((sps.foldl (fun lf sp => updN lf sp.1 fun _ => true) lf).getD col false)
    = (lf.getD col false || sps.any fun sp => sp.1 = col) := by
  induction sps with
  | nil => intro lf col _; simp
  | cons a sps ih =>
    intro lf col hcol
    simp only [List.foldl_cons]
    rw [ih (updN lf a.1 fun _ => true) col (by rw [updN_length]; exact hcol)]
    by_cases h : a.1 = col
    · rw [h, getD_updN_self _ _ _ _ (h ▸ hcol)]
      simp [List.any_cons, h]
    · rw [getD_updN_ne _ _ _ _ _ (fun hc => h hc.symm)]
      simp [List.any_cons, h]


theorem scores_eq (cfg : Config) (s : AState) (locked : ℕ) :
    ((List.range (allSets cfg).length).filter
      (fun j2 => j2 ∈ (tGet s locked).location_conflicts)).foldl
      (fun sc j2 => (tSingles cfg j2).foldl
        (fun (sc : List (SP × ℕ)) sp =>
          sc.map fun e => if e.1 = sp then (e.1, e.2 + 1) else e) sc)
      ((allSingles cfg).map fun sp => (sp, 0))
    = (allSingles cfg).map fun sp => (sp, conflictScore cfg s locked sp) := by
  have h := conflictFold_scores cfg (allSingles cfg)
    ((List.range (allSets cfg).length).filter
      (fun j2 => j2 ∈ (tGet s locked).location_conflicts)) (fun _ => 0)
  simpa [conflictScore] using h

theorem heuristic_l_only_eq (cfg : Config) (s : AState) (row : List ℕ)
    (locked : ℕ) :
    heuristic_l_only cfg s row locked =
    (List.range cfg.nf).foldl (fun row col =>
      if (tSingles cfg locked).any (fun sp => sp.1 = col) then row
      else if (bestOf cfg s locked col).2 ≠ 0
        then updN row col (fun _ => (bestOf cfg s locked col).1)
        else row) row := by
  unfold heuristic_l_only
  simp only [scores_eq]
  refine foldl_congr_mem _ _ _ _ ?_
  intro col hcol acc
  have hcol2 : col < cfg.nf := List.mem_range.mp hcol
  have hlock : ((tSingles cfg locked).foldl
      (fun lf sp => updN lf sp.1 fun _ => true)
      (List.replicate cfg.nf false)).getD col false
      = (tSingles cfg locked).any (fun sp => sp.1 = col) := by
    rw [lockedFold_getD _ _ _ (by simpa using hcol2)]
    have hrep : (List.replicate cfg.nf false).getD col false = false := by
      rw [List.getD_eq_getElem?_getD, List.getElem?_replicate, if_pos hcol2]
      rfl
    rw [hrep, Bool.false_or]
  rw [hlock]
  have hbv : (List.range (cfg.levels.getD col 0)).foldl
      (fun (bv : ℕ × ℕ) v =>
        let vs := (((((allSingles cfg).map fun sp =>
          (sp, conflictScore cfg s locked sp)).find?
            fun e => e.1 = (col, v)).map
          fun e => e.2).getD 0)
        if vs > bv.2 then (v, vs) else bv) (0, 0)
      = bestOf cfg s locked col := by
    unfold bestOf
    refine foldl_congr_mem _ _ _ _ ?_
    intro v hv acc2
    dsimp only
    rw [scLookup_map (allSingles cfg) (conflictScore cfg s locked)
      ((col, v) : SP)
      ((mem_allSingles cfg).mpr ⟨hcol2, List.mem_range.mp hv⟩)]
  rw [hbv]

theorem heuristic_l_only_length (cfg : Config) (s : AState) (row : List ℕ)
    (locked : ℕ) :
    (heuristic_l_only cfg s row locked).length = row.length := by
  rw [heuristic_l_only_eq]
  refine foldl_proj_const (fun (r : List ℕ) => r.length) _
    (List.range cfg.nf) row ?_
  intro r x _
  dsimp only
  split
  · rfl
  · split
    · rw [updN_length]
    · rfl

theorem heuristic_l_only_getD (cfg : Config) (s : AState) (row : List ℕ)
    (locked : ℕ) (hrl : row.length = cfg.nf) (col : ℕ)
    (hcol : col < cfg.nf) :
    (heuristic_l_only cfg s row locked).getD col 0 =
      if (tSingles cfg locked).any (fun sp => sp.1 = col) then row.getD col 0
      else if (bestOf cfg s locked col).2 ≠ 0 then (bestOf cfg s locked col).1
      else row.getD col 0 := by
  rw [heuristic_l_only_eq]
  refine Eq.trans (foldl_proj_point_inv (fun (r : List ℕ) => r.getD col 0) _
    (fun b => if (tSingles cfg locked).any (fun sp => sp.1 = col) then b
      else if (bestOf cfg s locked col).2 ≠ 0 then (bestOf cfg s locked col).1
      else b) col (fun (r : List ℕ) => r.length = cfg.nf)
    (List.range cfg.nf) (List.nodup_range _) row hrl ?_ ?_ ?_) ?_
  · intro r x _ hr
    dsimp only
    split
    · exact hr
    · split
      · rw [updN_length]; exact hr
      · exact hr
  · intro r x _ _ hxcol
    dsimp only
    split
    · rfl
    · split
      · exact getD_updN_ne _ _ _ _ _ (fun hc => hxcol hc.symm)
      · rfl
  · intro r hr
    dsimp only
    split
    · rfl
    · split
      · exact getD_updN_self r col _ 0 (by rw [hr]; exact hcol)
      · rfl
  · rw [if_pos (List.mem_range.mpr hcol)]

theorem bestKFold_spec (g : ℕ → ℕ) : ∀ k : ℕ,
    (∀ v < k, g v ≤ ((List.range k).foldl
      (fun bv v => if g v > bv.2 then (v, g v) else bv) (0, 0)).2) ∧
    (((List.range k).foldl
        (fun bv v => if g v > bv.2 then (v, g v) else bv) (0, 0)).2 ≠ 0 →
      ((List.range k).foldl
        (fun bv v => if g v > bv.2 then (v, g v) else bv) (0, 0)).1 < k ∧
      g ((List.range k).foldl
        (fun bv v => if g v > bv.2 then (v, g v) else bv) (0, 0)).1
        = ((List.range k).foldl
          (fun bv v => if g v > bv.2 then (v, g v) else bv) (0, 0)).2 ∧
      ∀ v < ((List.range k).foldl
          (fun bv v => if g v > bv.2 then (v, g v) else bv) (0, 0)).1,
        g v < ((List.range k).foldl
          (fun bv v => if g v > bv.2 then (v, g v) else bv) (0, 0)).2) := by
  intro k
  induction k with
  | zero =>
    constructor
    · intro v hv
      exact absurd hv (Nat.not_lt_zero v)
    · intro h
      exact absurd rfl h
  | succ k ih =>
    obtain ⟨ih1, ih2⟩ := ih
    simp only [List.range_succ, List.foldl_append, List.foldl_cons,
      List.foldl_nil] at ih1 ih2 ⊢
    by_cases h : g k > ((List.range k).foldl
        (fun bv v => if g v > bv.2 then (v, g v) else bv) (0, 0)).2
    · rw [if_pos h]
      constructor
      · intro v hv
        rcases Nat.lt_succ_iff_lt_or_eq.mp hv with hv2 | hv2
        · exact Nat.le_of_lt (Nat.lt_of_le_of_lt (ih1 v hv2) h)
        · subst hv2
          exact Nat.le_refl _
      · intro _
        refine ⟨Nat.lt_succ_self k, rfl, ?_⟩
        intro v hv
        exact Nat.lt_of_le_of_lt (ih1 v hv) h
    · rw [if_neg h]
      constructor
      · intro v hv
        rcases Nat.lt_succ_iff_lt_or_eq.mp hv with hv2 | hv2
        · exact ih1 v hv2
        · subst hv2
          exact Nat.le_of_not_lt h
      · intro h2
        obtain ⟨ha, hb, hc⟩ := ih2 h2
        exact ⟨Nat.lt_succ_of_lt ha, hb, hc⟩

theorem bestOf_le (cfg : Config) (s : AState) (locked col : ℕ) :
    ∀ v < cfg.levels.getD col 0,
      conflictScore cfg s locked (col, v) ≤ (bestOf cfg s locked col).2 :=
  (bestKFold_spec (fun v => conflictScore cfg s locked (col, v))
    (cfg.levels.getD col 0)).1

theorem bestOf_pos (cfg : Config) (s : AState) (locked col : ℕ) :
    (bestOf cfg s locked col).2 ≠ 0 →
      (bestOf cfg s locked col).1 < cfg.levels.getD col 0 ∧
      conflictScore cfg s locked (col, (bestOf cfg s locked col).1)
        = (bestOf cfg s locked col).2 ∧
      ∀ v < (bestOf cfg s locked col).1,
        conflictScore cfg s locked (col, v) < (bestOf cfg s locked col).2 :=
  (bestKFold_spec (fun v => conflictScore cfg s locked (col, v))
    (cfg.levels.getD col 0)).2


/-! ## Remaining helper lemmas for the claim theorems -/

theorem interSingles_ne_nil (cfg : Config) (ht1 : 1 ≤ cfg.t) (i : ℕ)
    (hi : i < (allInteractions cfg).length) : interSingles cfg i ≠ [] := by
  intro hc
  have hl := interSingles_length cfg i hi
  rw [hc] at hl
  simp only [List.length_nil] at hl
  omega

theorem ctor_c_only_score (cfg : Config) (hp : cfg.p = PMode.c_only) :
    (ctor_state cfg).score = (ctor_state cfg).coverage_problems
      + 2 * sumC (ctor_state cfg) := by
  obtain ⟨hS, hT, hC, -⟩ := buildPhase_counts cfg
    { score := 0, total_problems := 0, coverage_problems := 0,
      location_problems := 0, detection_problems := 0,
      num_tests := 0, rows := [],
      singles := freshSingles cfg, inters := freshInters cfg,
      tsets := freshTSets cfg,
      is_covering := false, is_locating := false, is_detecting := false,
      dont_cares := some (List.replicate cfg.nf PMode.pnone),
      permutation := some (List.range cfg.nf) } (freshSingles_length cfg)
  have hcov := buildPhase_coverage_problems cfg
    { score := 0, total_problems := 0, coverage_problems := 0,
      location_problems := 0, detection_problems := 0,
      num_tests := 0, rows := [],
      singles := freshSingles cfg, inters := freshInters cfg,
      tsets := freshTSets cfg,
      is_covering := false, is_locating := false, is_detecting := false,
      dont_cares := some (List.replicate cfg.nf PMode.pnone),
      permutation := some (List.range cfg.nf) }
  unfold ctor_state
  dsimp only
  rw [if_pos hp]
  dsimp only [sumC]
  rw [hS, hT, hcov]
  have hC2 : ((buildPhase cfg
      { score := 0, total_problems := 0, coverage_problems := 0,
        location_problems := 0, detection_problems := 0,
        num_tests := 0, rows := [],
        singles := freshSingles cfg, inters := freshInters cfg,
        tsets := freshTSets cfg,
        is_covering := false, is_locating := false, is_detecting := false,
        dont_cares := some (List.replicate cfg.nf PMode.pnone),
        permutation := some (List.range cfg.nf) }).singles.map
      (fun e => e.c_issues)).sum = tBudget cfg := by
    have := hC
    dsimp only [sumC] at this
    rw [this]
    have hz : ((freshSingles cfg).map (fun e => e.c_issues)).sum = 0 :=
      sumC_fresh cfg
    rw [hz, zero_add]
  rw [hC2]
  ring

theorem clone_dont_cares (cfg : Config) (S : AState) :
    (clone cfg S).dont_cares = none := by
  obtain ⟨-, -, -, -, -, -, hDc, -, -, -, -⟩ :=
    cfe_fields cfg S.total_problems S.coverage_problems S.location_problems
      S.detection_problems S.rows S.num_tests
  unfold clone
  dsimp only
  rw [(nonEnt_copyTFold S _ _).2.2.2.2.2.2.2.2.2.2.1,
    (nonEnt_copyIFold S _ _).2.2.2.2.2.2.2.2.2.2.1,
    (nonEnt_copySFold S _ _).2.2.2.2.2.2.2.2.2.2.1]
  exact hDc

theorem clone_permutation (cfg : Config) (S : AState) :
    (clone cfg S).permutation = none := by
  obtain ⟨-, -, -, -, -, -, -, hPm, -, -, -⟩ :=
    cfe_fields cfg S.total_problems S.coverage_problems S.location_problems
      S.detection_problems S.rows S.num_tests
  unfold clone
  dsimp only
  rw [(nonEnt_copyTFold S _ _).2.2.2.2.2.2.2.2.2.2.2,
    (nonEnt_copyIFold S _ _).2.2.2.2.2.2.2.2.2.2.2,
    (nonEnt_copySFold S _ _).2.2.2.2.2.2.2.2.2.2.2]
  exact hPm


/-! ## Concrete instances used to evaluate the claims

Small arrays on which the definitions are fully evaluated: two or three
factors of two or three levels each, strength 1 or 2, `d = 1`. -/

/-- Two binary factors, `t = 2`, coverage-only phase. -/
def cfgC1 : Config := ⟨[2, 2], 2, 1, 0, PMode.c_only⟩

/-- Two binary factors, `t = 1`, `d = 1`, `δ = 0`, full phase. -/
def cfgC2 : Config := ⟨[2, 2], 1, 1, 0, PMode.all⟩

/-- Two binary factors, `t = 1`, `d = 1`, `δ = 0`, full phase. -/
def cfgC3 : Config := ⟨[2, 2], 1, 1, 0, PMode.all⟩

/-- Two binary factors, `t = 1`, coverage+location phase. -/
def cfgC4 : Config := ⟨[2, 2], 1, 1, 0, PMode.c_and_l⟩

/-- Two binary factors, `t = 1`, coverage-only phase. -/
def cfgC5 : Config := ⟨[2, 2], 1, 1, 0, PMode.c_only⟩

/-- A binary and a ternary factor, `t = 2`, coverage-only phase. -/
def cfgC6 : Config := ⟨[2, 3], 2, 1, 0, PMode.c_only⟩

/-- Two binary factors, `t = 1`, `d = 1`, full phase. -/
def cfgC7 : Config := ⟨[2, 2], 1, 1, 0, PMode.all⟩

/-- A state over `cfgC7` whose T-set 0 (the set `{interaction (f0, 0)}`) has
location conflicts with T-sets 2 and 3 (the sets over factor 1), so the two
Singles `(1, 0)` and `(1, 1)` tie at a positive conflict score. -/
def sC7 : AState :=
  { ctor_state cfgC7 with
    tsets := [⟨∅, {2, 3}, false⟩, default, default, default] }


/-! ## The claims -/

/-- C1: the claimed global score identity
`score = coverage_problems + location_problems + detection_problems
+ Σ Single.(c_issues + l_issues + d_issues)` fails already at construction:
on two binary factors with `t = 2` in the coverage-only phase the
constructor leaves `score = 20` while the right-hand side is `12`, because
line 176 adds (`score += total_problems`) on top of the per-Single `score++`
bumps of `build_t_way_interactions` instead of an assignment. -/
theorem C1_score_identity_fails :
    (ctor_state cfgC1).score = 20 ∧
    (ctor_state cfgC1).coverage_problems
      + (ctor_state cfgC1).location_problems
      + (ctor_state cfgC1).detection_problems
      + ((ctor_state cfgC1).singles.map
          (fun e => e.c_issues + e.l_issues + e.d_issues)).sum = 12 := by
  constructor
  · decide
  · decide


/-- C2: row-set consistency holds with the committed rows indexed 1-based:
after any valid committed sequence, a Single's `rows` is exactly
`{ k+1 : row_k[factor] = value }`, an Interaction's `rows` is the
intersection of its member Singles' row sets, a T-set's `rows` is the union
of its member Interactions' row sets, and every stored index lies in
`[1, num_tests]` (not `[0, num_tests)` as claimed: `update_array` inserts
`num_tests + 1` before `num_tests` is incremented). -/
theorem C2_row_set_consistency (cfg : Config) (ht1 : 1 ≤ cfg.t)
    (htF : cfg.t ≤ cfg.nf) (rs : List (List ℕ))
    (hv : ∀ r ∈ rs, validRow cfg r) :
    (commit_rows cfg rs).num_tests = rs.length ∧
    (∀ sp ∈ allSingles cfg,
      (sGet (commit_rows cfg rs) (singleIdx cfg sp)).rows = sRowSet rs sp ∧
      ∀ m ∈ (sGet (commit_rows cfg rs) (singleIdx cfg sp)).rows,
        1 ≤ m ∧ m ≤ rs.length) ∧
    (∀ i < (allInteractions cfg).length,
      (iGet (commit_rows cfg rs) i).rows = iRowSet cfg rs i ∧
      ∀ m, m ∈ (iGet (commit_rows cfg rs) i).rows ↔
        ∀ sp ∈ interSingles cfg i, m ∈ sRowSet rs sp) ∧
    (∀ j < (allSets cfg).length,
      (tGet (commit_rows cfg rs) j).rows = tRowSet cfg rs j ∧
      ∀ m, m ∈ (tGet (commit_rows cfg rs) j).rows ↔
        ∃ i ∈ (allSets cfg).getD j [], m ∈ iRowSet cfg rs i) := by
  obtain ⟨hrows, hnt, hsl, hil, htl, hsr, hir, htr, -⟩ :=
    Inv_commit cfg ht1 htF rs hv
  refine ⟨hnt, ?_, ?_, ?_⟩
  · intro sp hsp
    refine ⟨hsr sp hsp, ?_⟩
    intro m hm
    rw [hsr sp hsp] at hm
    have hm2 : m ∈ hitRows rs (fun r => decide (r.get? sp.1 = some sp.2)) :=
      hm
    obtain ⟨k, hk, -, rfl⟩ := mem_hitRows.mp hm2
    omega
  · intro i hi
    refine ⟨hir i hi, ?_⟩
    intro m
    rw [hir i hi]
    exact iRowSet_eq_inter cfg (interSingles_ne_nil cfg ht1 i hi)
  · intro j hj
    refine ⟨htr j hj, ?_⟩
    intro m
    rw [htr j hj]
    exact tRowSet_eq_union cfg

/-- C2 counterexample to the claimed 0-based indexing: after committing one
row `[0, 0]` the Single `(0, 0)` stores row index `1`, which does not lie in
`[0, num_tests) = [0, 1)`. -/
theorem C2_counterexample :
    (commit_rows cfgC2 [[0, 0]]).num_tests = 1 ∧
    (sGet (commit_rows cfgC2 [[0, 0]]) (singleIdx cfgC2 (0, 0))).rows
      = {1} ∧
    ¬ ∀ m ∈ (sGet (commit_rows cfgC2 [[0, 0]])
        (singleIdx cfgC2 (0, 0))).rows,
        m < (commit_rows cfgC2 [[0, 0]]).num_tests := by
  decide

/-- C2 witness: the row-set consistency theorem applied to a concrete
one-row array. -/
theorem C2_witness :
    (commit_rows cfgC2 [[0, 1]]).num_tests
      = ([[0, 1]] : List (List ℕ)).length :=
  (C2_row_set_consistency cfgC2 (by decide) (by decide) [[0, 1]]
    (by decide)).1


/-- C3: in the full phase, after any valid committed sequence, an
Interaction's `is_detectable` is equivalent to being covered AND
δ-separated from every T-set not containing it (the claimed equivalence
lacks the `is_covered` conjunct: an uncovered interaction is never marked
detectable, even when every separation is at least δ). -/
theorem C3_detectable_iff (cfg : Config) (hp : cfg.p = PMode.all)
    (ht1 : 1 ≤ cfg.t) (htF : cfg.t ≤ cfg.nf) (rs : List (List ℕ))
    (hv : ∀ r ∈ rs, validRow cfg r) (i : ℕ)
    (hi : i < (allInteractions cfg).length) :
    (iGet (commit_rows cfg rs) i).is_detectable = true ↔
      ((iGet (commit_rows cfg rs) i).is_covered = true ∧
        ∀ j ∈ deltaKeys cfg i,
          (cfg.delta : ℤ) ≤ (diffCard cfg rs i j : ℤ)) :=
  ((Inv_commit cfg ht1 htF rs hv).2.2.2.2.2.2.2.2 hp i hi).2.1

/-- C3 counterexample to the claimed equivalence without the coverage
conjunct: with `δ = 0` every separation bound holds trivially, yet the
uncovered interaction `(0, 1)` is not detectable after the row `[0, 0]`. -/
theorem C3_counterexample :
    cfgC3.delta = 0 ∧
    (∀ j ∈ deltaKeys cfgC3 1,
      (cfgC3.delta : ℤ) ≤ (diffCard cfgC3 [[0, 0]] 1 j : ℤ)) ∧
    (iGet (commit_rows cfgC3 [[0, 0]]) 1).is_detectable = false ∧
    (iGet (commit_rows cfgC3 [[0, 0]]) 1).is_covered = false := by
  decide

/-- C3 witness: the corrected equivalence applied to a concrete one-row
array and interaction 0. -/
theorem C3_witness :
    (iGet (commit_rows cfgC3 [[0, 0]]) 0).is_detectable = true ↔
      ((iGet (commit_rows cfgC3 [[0, 0]]) 0).is_covered = true ∧
        ∀ j ∈ deltaKeys cfgC3 0,
          (cfgC3.delta : ℤ) ≤ (diffCard cfgC3 [[0, 0]] 0 j : ℤ)) :=
  C3_detectable_iff cfgC3 rfl (by decide) (by decide) [[0, 0]] (by decide)
    0 (by decide)


/-- C4: on any reachable state, `update_array(row, keep = false)` leaves the
committed row list and `num_tests` unchanged, every global counter and every
Single issue counter ends at exactly its `keep = true` value, and all entity
row sets are restored to their pre-call contents. -/
theorem C4_lookahead_frame (cfg : Config) (rs : List (List ℕ))
    (S : AState) (h : Inv cfg rs S) (r : List ℕ) :
    (update_array cfg S r false).rows = S.rows ∧
    (update_array cfg S r false).num_tests = S.num_tests ∧
    (update_array cfg S r false).score = (update_array cfg S r true).score ∧
    (update_array cfg S r false).coverage_problems
      = (update_array cfg S r true).coverage_problems ∧
    (update_array cfg S r false).location_problems
      = (update_array cfg S r true).location_problems ∧
    (update_array cfg S r false).detection_problems
      = (update_array cfg S r true).detection_problems ∧
    (∀ k, (sGet (update_array cfg S r false) k).c_issues
        = (sGet (update_array cfg S r true) k).c_issues ∧
      (sGet (update_array cfg S r false) k).l_issues
        = (sGet (update_array cfg S r true) k).l_issues ∧
      (sGet (update_array cfg S r false) k).d_issues
        = (sGet (update_array cfg S r true) k).d_issues) ∧
    (∀ sp ∈ allSingles cfg,
      (sGet (update_array cfg S r false) (singleIdx cfg sp)).rows
        = (sGet S (singleIdx cfg sp)).rows) ∧
    (∀ i < (allInteractions cfg).length,
      (iGet (update_array cfg S r false) i).rows = (iGet S i).rows) ∧
    (∀ j < (allSets cfg).length,
      (tGet (update_array cfg S r false) j).rows = (tGet S j).rows) := by
  obtain ⟨h1, h2, h3, h4, h5⟩ := update_false_restores cfg rs S h r
  have hkeep : update_array cfg S r true = updateCore cfg S r := rfl
  refine ⟨h1, h2, ?_, ?_, ?_, ?_, ?_, h3, h4, h5⟩
  · rw [hkeep]
    exact update_false_proj cfg S r AState.score (fun _ _ _ => rfl)
      (fun _ _ _ => rfl) (fun _ _ _ => rfl) (fun _ _ _ => rfl)
  · rw [hkeep]
    exact update_false_proj cfg S r AState.coverage_problems
      (fun _ _ _ => rfl) (fun _ _ _ => rfl) (fun _ _ _ => rfl)
      (fun _ _ _ => rfl)
  · rw [hkeep]
    exact update_false_proj cfg S r AState.location_problems
      (fun _ _ _ => rfl) (fun _ _ _ => rfl) (fun _ _ _ => rfl)
      (fun _ _ _ => rfl)
  · rw [hkeep]
    exact update_false_proj cfg S r AState.detection_problems
      (fun _ _ _ => rfl) (fun _ _ _ => rfl) (fun _ _ _ => rfl)
      (fun _ _ _ => rfl)
  · intro k
    rw [hkeep]
    exact ⟨update_false_sGet_field cfg S r SingleSt.c_issues
        (fun _ _ => rfl) k,
      update_false_sGet_field cfg S r SingleSt.l_issues (fun _ _ => rfl) k,
      update_false_sGet_field cfg S r SingleSt.d_issues (fun _ _ => rfl) k⟩

/-- C4 witness: the look-ahead frame property applied to the freshly
constructed array and the candidate row `[0, 0]`. -/
theorem C4_witness :
    (update_array cfgC4 (ctor_state cfgC4) [0, 0] false).rows
      = (ctor_state cfgC4).rows ∧
    (update_array cfgC4 (ctor_state cfgC4) [0, 0] false).score
      = (update_array cfgC4 (ctor_state cfgC4) [0, 0] true).score :=
  ⟨(C4_lookahead_frame cfgC4 [] (ctor_state cfgC4) (Inv_init cfgC4)
      [0, 0]).1,
   (C4_lookahead_frame cfgC4 [] (ctor_state cfgC4) (Inv_init cfgC4)
      [0, 0]).2.2.1⟩


/-- C5: the clone of a well-formed array is NOT counter-identical to the
original: it carries the original's coverage/location/detection counters,
flags, and per-entity state, but `total_problems` is inflated by the
interaction-graph rebuild, the committed rows are dropped in the
coverage-only phase, and `dont_cares`/`permutation` are null.  Mutation
isolation holds: `clone` shares no mutable state with its argument (in this
embedding `clone cfg S` is a pure value, so no operation on it can change
`S`). -/
theorem C5_clone_state (cfg : Config) (S : AState)
    (hsl : S.singles.length = (allSingles cfg).length)
    (hil : S.inters.length = (allInteractions cfg).length)
    (htl : S.tsets.length = (allSets cfg).length) :
    clone cfg S = { S with
      total_problems := S.total_problems + tBudget cfg,
      rows := if cfg.p = PMode.c_only then [] else S.rows,
      dont_cares := none, permutation := none } :=
  clone_char cfg S hsl hil htl

/-- C5 counterexample to counter-identity: cloning the freshly constructed
coverage-only array changes `total_problems` from 8 to 12. -/
theorem C5_counterexample :
    clone cfgC5 (ctor_state cfgC5) ≠ ctor_state cfgC5 ∧
    (clone cfgC5 (ctor_state cfgC5)).total_problems = 12 ∧
    (ctor_state cfgC5).total_problems = 8 := by
  decide

/-- C5 witness: the clone characterization applied to the freshly
constructed array. -/
theorem C5_witness :
    clone cfgC5 (ctor_state cfgC5) = { ctor_state cfgC5 with
      total_problems := (ctor_state cfgC5).total_problems + tBudget cfgC5,
      rows := if cfgC5.p = PMode.c_only then [] else (ctor_state cfgC5).rows,
      dont_cares := none, permutation := none } :=
  C5_clone_state cfgC5 (ctor_state cfgC5) (by decide) (by decide)
    (by decide)

/-- C6: during `build_t_way_interactions` every enumerated interaction
increments each constituent Single's `c_issues` by 1, and `score` and
`total_problems` are incremented once per constituent Single (so by `t` per
interaction, not by 1 per interaction as claimed); consequently, after a
coverage-only construction, `score = coverage_problems + 2 · Σ c_issues`
(not `coverage_problems + Σ c_issues`): line 176 re-adds `total_problems`,
which already contains the per-Single bumps. -/
theorem C6_construction_accounting (cfg : Config) (s : AState)
    (hlen : s.singles.length = (allSingles cfg).length) :
    (buildPhase cfg s).score = s.score + tBudget cfg ∧
    (buildPhase cfg s).total_problems = s.total_problems + tBudget cfg ∧
    sumC (buildPhase cfg s) = sumC s + tBudget cfg ∧
    (cfg.p = PMode.c_only →
      (ctor_state cfg).score = (ctor_state cfg).coverage_problems
        + 2 * sumC (ctor_state cfg)) := by
  obtain ⟨h1, h2, h3, -⟩ := buildPhase_counts cfg s hlen
  exact ⟨h1, h2, h3, fun hp => ctor_c_only_score cfg hp⟩

/-- C6 counterexample to the claimed per-interaction increments and the
resulting identity: on a 2×3 array with `t = 2` (6 interactions) the
coverage-only constructor ends with `score = 30`, while
`coverage_problems + Σ c_issues = 18`. -/
theorem C6_counterexample :
    (ctor_state cfgC6).score = 30 ∧
    (ctor_state cfgC6).coverage_problems + sumC (ctor_state cfgC6)
      = 18 := by
  decide

/-- C6 witness: the construction accounting applied to the concrete 2×3
coverage-only array. -/
theorem C6_witness :
    (buildPhase cfgC6 (ctor_state cfgC6)).score
      = (ctor_state cfgC6).score + tBudget cfgC6 :=
  (C6_construction_accounting cfgC6 (ctor_state cfgC6) (by decide)).1


/-- C7: `heuristic_l_only` scores each Single by its number of occurrences
across the locked T-set's conflicting T-sets, leaves every factor holding a
Single of the locked T-set unchanged, and for each other factor, when some
level has positive score, writes the LOWEST level attaining the
strictly-largest score — ties between positive scores are broken toward the
smaller level, not by keeping the initializer's random assignment (the
random value survives only when every level of the factor scores 0). -/
theorem C7_l_only_characterization (cfg : Config) (s : AState)
    (row : List ℕ) (locked : ℕ) (hrl : row.length = cfg.nf) (col : ℕ)
    (hcol : col < cfg.nf) :
    ((heuristic_l_only cfg s row locked).getD col 0 =
      if (tSingles cfg locked).any (fun sp => sp.1 = col)
      then row.getD col 0
      else if (bestOf cfg s locked col).2 ≠ 0
      then (bestOf cfg s locked col).1
      else row.getD col 0) ∧
    (∀ v < cfg.levels.getD col 0,
      conflictScore cfg s locked (col, v) ≤ (bestOf cfg s locked col).2) ∧
    ((bestOf cfg s locked col).2 ≠ 0 →
      (bestOf cfg s locked col).1 < cfg.levels.getD col 0 ∧
      conflictScore cfg s locked (col, (bestOf cfg s locked col).1)
        = (bestOf cfg s locked col).2 ∧
      ∀ v < (bestOf cfg s locked col).1,
        conflictScore cfg s locked (col, v)
          < (bestOf cfg s locked col).2) :=
  ⟨heuristic_l_only_getD cfg s row locked hrl col hcol,
   bestOf_le cfg s locked col, bestOf_pos cfg s locked col⟩

/-- C7 counterexample to random-keep tie-breaking: on `sC7`,
`initialize_row_T` (stream `[0, 1, 0]`) produces the row `[0, 1]` with
T-set 0 locked; the two levels of the unlocked factor 1 tie at positive
conflict score 1, and `heuristic_l_only` overwrites the random value 1 with
level 0 instead of keeping it. -/
theorem C7_counterexample :
    initialize_row_T cfgC7 sC7 [0, 1, 0] = ([0, 1], 0, []) ∧
    conflictScore cfgC7 sC7 0 (1, 0) = conflictScore cfgC7 sC7 0 (1, 1) ∧
    conflictScore cfgC7 sC7 0 (1, 0) ≠ 0 ∧
    ((tSingles cfgC7 0).any fun sp => sp.1 = 1) = false ∧
    heuristic_l_only cfgC7 sC7 [0, 1] 0 = [0, 0] := by
  decide

/-- C7 witness: the characterization applied to the concrete tie instance,
where it yields level 0 for factor 1. -/
theorem C7_witness :
    (heuristic_l_only cfgC7 sC7 [0, 1] 0).getD 1 0 = 0 :=
  (C7_l_only_characterization cfgC7 sC7 [0, 1] 0 (by decide) 1
    (by decide)).1.trans (by decide)

/-- C8: all per-entity and array-level flags are monotone: every
`update_array` call (either `keep`) and every committed sequence only ever
turns `is_covered`, `is_detectable`, `is_locatable`, `is_covering`,
`is_locating` and `is_detecting` from `false` to `true`, never back. -/
theorem C8_flag_monotonicity (cfg : Config) (S : AState) (r : List ℕ)
    (keep : Bool) (rs : List (List ℕ)) :
    FlagsLe S (update_array cfg S r keep) ∧
    FlagsLe S (rs.foldl (fun s r2 => update_array cfg s r2 true) S) :=
  ⟨flagsLe_update_array cfg S r keep, flagsLe_commits cfg rs S⟩

/-- C9: the row-tweaking heuristics write nothing through the array state:
`tweak_row` (hence `heuristic_c_only` / `heuristic_l_only` and the others it
dispatches to) and `heuristic_all_scorer` return the state they were
given, unchanged in every field. -/
theorem C9_tweak_frame (cfg : Config) (s : AState) (h : Heu)
    (row : List ℕ) (locked : Option ℕ) (rands : List ℕ) :
    (tweak_row cfg s h row locked rands).2 = s ∧
    (heuristic_all_scorer cfg s row).2 = s :=
  ⟨by cases h <;> rfl, rfl⟩

/-- C10: a clone's `dont_cares` and `permutation` are null: the clone-only
constructor never allocates them and `clone()` never copies them, so on a
clone the `add_row` entry shuffle dereferences the null `permutation`
whenever the array has at least one factor (the embedding returns `none`
exactly on that null dereference). -/
theorem C10_clone_null (cfg : Config) (S : AState) (rands : List ℕ)
    (h : 1 ≤ cfg.nf) :
    (clone cfg S).dont_cares = none ∧
    (clone cfg S).permutation = none ∧
    add_row_shuffle cfg (clone cfg S) rands = none := by
  refine ⟨clone_dont_cares cfg S, clone_permutation cfg S, ?_⟩
  unfold add_row_shuffle
  rw [if_neg (by omega), clone_permutation cfg S]

/-- C10 witness: the clone of the freshly constructed two-factor array has
null `dont_cares`/`permutation` and its `add_row` shuffle hits the null
dereference. -/
theorem C10_witness :
    (clone cfgC4 (ctor_state cfgC4)).dont_cares = none ∧
    (clone cfgC4 (ctor_state cfgC4)).permutation = none ∧
    add_row_shuffle cfgC4 (clone cfgC4 (ctor_state cfgC4)) [] = none :=
  C10_clone_null cfgC4 (ctor_state cfgC4) [] (by decide)

end AG
